import Mathlib

/-!
# N-body reference integrator and verifier (UoB-HPC/opencl-training-code)

A shallow embedding of the host-side code of the `NBody` programs:

* `runReference` of `exercises/NBody/nbody.cpp` and `solutions/NBody-GL/nbody.cpp` (C++,
  `std::vector<float>` buffers) and of `solutions/NBody-GL/nbody.c` (C, `float*` buffers);
* the verification loop and the simulation loop of `main` in `exercises/NBody/nbody.cpp`;
* the `INDEX_IN` / `INDEX_OUT` loop of `solutions/NBody-GL-VBO/nbody.cpp`;
* `parseFloat` and `parseArguments` of `exercises/NBody/nbody.cpp`;
* `main` of `exercises/NBody/nbody.cpp` and of `solutions/NBody-GL/nbody.cpp` as far as the
  exit status goes (command line, `initGraphics`, host initialisation, device check, the
  OpenCL calls and the handlers), the device check of `solutions/Pi/pi_ocl.cpp`, and
  `loadProgram` of `common/util.h`;
* the host initialisation of `main` in `solutions/NBody-GL/nbody.c` and `nbody.cpp`;
* the interactive loops of `solutions/NBody-GL` and `solutions/NBody-GL-VBO` as sequences
  of host calls, and `handleSDLEvents`.

The C `float` type is a parameter: every definition takes a record `Arith F` naming the
arithmetic operations the source applies, in the order the source applies them.  The
structural theorems hold for every such record; `F32` below is an executable model of
IEEE-754 binary32 used where special values (NaN, infinities, signed zeros) matter.

Buffers are lists; a read or write outside a buffer, and a signed index overflow, is
undefined in the source and is `none` here.
-/

namespace NBody

/-! ## Arithmetic of the element type -/

/-- Operations of the C `float` type that the sources use. -/
structure Arith (F : Type) where
  /-- literal `0.f` (and the value-initialised vector element) -/
  zero : F
  /-- literal `1.f` -/
  one : F
  add : F → F → F
  sub : F → F → F
  mul : F → F → F
  div : F → F → F
  /-- The function `sqrt` applied to a `float` and stored back into a `float` -/
  sqrt : F → F
  /-- comparison `a > b` -/
  gt : F → F → Bool
  /-- comparison `a != b` -/
  ne : F → F → Bool

/-- Global simulation parameters (file-scope variables of the sources). -/
structure Params (F : Type) where
  /-- The variable `cl_uint numBodies` -/
  numBodies : Nat
  /-- The variable `cl_float delta` -/
  delta : F
  /-- The variable `cl_float softening` -/
  softening : F
  /-- The variable `cl_uint iterations` -/
  iterations : Nat

/-- Which of the source texts of `runReference` is meant. -/
inductive Source where
  /-- The text `exercises/NBody/nbody.cpp` (loop counters are `unsigned`) -/
  | cpp
  /-- The text `solutions/NBody-GL/nbody.c` (loop counters are `int`) -/
  | c
  /-- The text `solutions/NBody-GL/nbody.cpp` (loop counters are `unsigned`; the coefficient
  is written as in the C text) -/
  | cppGL
deriving DecidableEq, Repr

/-- The subscript `i*4 + c`.  In the C++ texts `i` is `unsigned`, so the expression is
evaluated modulo `2^32`; in the C text `i` is `int`, so an overflow is undefined. -/
def index : Source → Nat → Nat → Option Nat
  | .cpp, i, c => some ((i * 4 + c) % 2 ^ 32)
  | .c, i, c => if i * 4 + c < 2 ^ 31 then some (i * 4 + c) else none
  | .cppGL, i, c => some ((i * 4 + c) % 2 ^ 32)

/-- Read `buf[i*4 + c]`. -/
def readAt {F : Type} (src : Source) (buf : List F) (i c : Nat) : Option F :=
  match index src i c with
  | none => none
  | some k => buf[k]?

/-- Write `buf[i*4 + c] = v`. -/
def writeAt {F : Type} (src : Source) (buf : List F) (i c : Nat) (v : F) : Option (List F) :=
  match index src i c with
  | none => none
  | some k => if k < buf.length then some (buf.set k v) else none

/-- Softened distance: `sqrt(dx*dx + dy*dy + dz*dz + softening*softening)`. -/
def softDist {F : Type} (A : Arith F) (softening dx dy dz : F) : F :=
  A.sqrt (A.add (A.add (A.add (A.mul dx dx) (A.mul dy dy)) (A.mul dz dz))
    (A.mul softening softening))

/-- The interaction coefficient.  C++ text: `invdist = 1.f / dist;
coeff = jw * (invdist*invdist*invdist)`.  C text and the C++ text of
`solutions/NBody-GL`: `coeff = jw / (dist*dist*dist)`. -/
def coeff {F : Type} (A : Arith F) : Source → F → F → F
  | .cpp, jw, dist =>
      let invdist := A.div A.one dist
      A.mul jw (A.mul (A.mul invdist invdist) invdist)
  | .c, jw, dist => A.div jw (A.mul (A.mul dist dist) dist)
  | .cppGL, jw, dist => A.div jw (A.mul (A.mul dist dist) dist)

/-- Read `buf[i*4 + 0]`, `buf[i*4 + 1]`, `buf[i*4 + 2]`. -/
def read3 {F : Type} (src : Source) (buf : List F) (i : Nat) : Option (F × F × F) :=
  (readAt src buf i 0).bind fun x =>
  (readAt src buf i 1).bind fun y =>
  (readAt src buf i 2).bind fun z => some (x, y, z)

/-- Read `buf[i*4 + 0]` to `buf[i*4 + 3]`. -/
def read4 {F : Type} (src : Source) (buf : List F) (i : Nat) : Option (F × F × F × F) :=
  (read3 src buf i).bind fun p =>
  (readAt src buf i 3).bind fun w => some (p.1, p.2.1, p.2.2, w)

/-- Write `buf[i*4 + 0] = x; buf[i*4 + 1] = y; buf[i*4 + 2] = z`. -/
def write3 {F : Type} (src : Source) (buf : List F) (i : Nat) (x y z : F) : Option (List F) :=
  (writeAt src buf i 0 x).bind fun b1 =>
  (writeAt src b1 i 1 y).bind fun b2 => writeAt src b2 i 2 z

/-- Write `buf[i*4 + 0]` to `buf[i*4 + 3]`. -/
def write4 {F : Type} (src : Source) (buf : List F) (i : Nat) (x y z w : F) :
    Option (List F) :=
  (write3 src buf i x y z).bind fun b3 => writeAt src b3 i 3 w

/-- One force contribution: what the body of the loop over `j` adds to `(fx, fy, fz)`,
given body `j` as `(jx, jy, jz, jw)`. -/
def interact {F : Type} (A : Arith F) (src : Source) (softening ix iy iz : F)
    (f : F × F × F) (pj : F × F × F × F) : F × F × F :=
  let dx := A.sub pj.1 ix
  let dy := A.sub pj.2.1 iy
  let dz := A.sub pj.2.2.1 iz
  let dist := softDist A softening dx dy dz
  let cf := coeff A src pj.2.2.2 dist
  (A.add f.1 (A.mul cf dx), A.add f.2.1 (A.mul cf dy), A.add f.2.2 (A.mul cf dz))

/-- Body of the inner loop over `j`. -/
def forceBody {F : Type} (A : Arith F) (src : Source) (softening : F) (positionsIn : List F)
    (ix iy iz : F) (f : F × F × F) (j : Nat) : Option (F × F × F) :=
  (read4 src positionsIn j).map (interact A src softening ix iy iz f)

/-- The inner loop `for (j = 0; j < numBodies; j++)`, started from `fx = fy = fz = 0.f`. -/
def forceLoop {F : Type} (A : Arith F) (src : Source) (P : Params F) (positionsIn : List F)
    (ix iy iz : F) : Option (F × F × F) :=
  (List.range P.numBodies).foldlM (forceBody A src P.softening positionsIn ix iy iz)
    (A.zero, A.zero, A.zero)

/-- New velocity `v + f * delta`, componentwise (`// Update velocity`). -/
def newVelocity {F : Type} (A : Arith F) (delta : F) (v f : F × F × F) : F × F × F :=
  (A.add v.1 (A.mul f.1 delta), A.add v.2.1 (A.mul f.2.1 delta),
    A.add v.2.2 (A.mul f.2.2 delta))

/-- New position `p + v * delta`, componentwise (`// Update position`). -/
def newPosition {F : Type} (A : Arith F) (delta : F) (p v : F × F × F) : F × F × F :=
  (A.add p.1 (A.mul v.1 delta), A.add p.2.1 (A.mul v.2.1 delta),
    A.add p.2.2 (A.mul v.2.2 delta))

/-- Body of the loop over `i`: reads `positionsIn`, updates `velocities` in place and writes
entry `i` of `positionsOut`.  The state is the pair `(velocities, positionsOut)`. -/
def bodyUpdate {F : Type} (A : Arith F) (src : Source) (P : Params F) (positionsIn : List F)
    (st : List F × List F) (i : Nat) : Option (List F × List F) :=
  (read4 src positionsIn i).bind fun p =>
  (forceLoop A src P positionsIn p.1 p.2.1 p.2.2.1).bind fun f =>
  (read3 src st.1 i).bind fun v =>
    let v1 := newVelocity A P.delta v f
    let p1 := newPosition A P.delta (p.1, p.2.1, p.2.2.1) v1
  (write3 src st.1 i v1.1 v1.2.1 v1.2.2).bind fun vel =>
  (write4 src st.2 i p1.1 p1.2.1 p1.2.2 p.2.2.2).bind fun out =>
    some (vel, out)

/-- The loop `for (i = 0; i < numBodies; i++)` of one iteration of `runReference`. -/
def bodyLoop {F : Type} (A : Arith F) (src : Source) (P : Params F)
    (positionsIn velocities positionsOut : List F) : Option (List F × List F) :=
  (List.range P.numBodies).foldlM (bodyUpdate A src P positionsIn) (velocities, positionsOut)

/-! ### `runReference`, C++ text -/

/-- Local vectors of the C++ `runReference`.  `positionsIn` is a reference bound to
`positions0` and `positionsOut` a reference bound to `positions1`; a C++ reference cannot be
rebound, so the two names denote these two vectors throughout. -/
structure RefState (F : Type) where
  positions0 : List F
  positions1 : List F
  velocities : List F

/-- One pass of the loop over `itr` in the C++ text: the loop over the bodies, then the lines
under `// Swap buffers`.  There `temp` is a third name of `positions0`, `positionsIn =
positionsOut` assigns the contents of `positions1` to `positions0`, and `positionsOut = temp`
assigns the (new) contents of `positions0` to `positions1`. -/
def iterationCpp {F : Type} (A : Arith F) (P : Params F) (s : RefState F) :
    Option (RefState F) :=
  (bodyLoop A .cpp P s.positions0 s.velocities s.positions1).bind fun r =>
    let s1 : RefState F := { positions0 := s.positions0, positions1 := r.2, velocities := r.1 }
    let s2 : RefState F := { s1 with positions0 := s1.positions1 }
    let s3 : RefState F := { s2 with positions1 := s2.positions0 }
    some s3

/-- The loop `for (itr = 0; itr < iterations; itr++)`, as `k` remaining passes. -/
def iterateCpp {F : Type} (A : Arith F) (P : Params F) : Nat → RefState F → Option (RefState F)
  | 0, s => some s
  | k + 1, s => (iterationCpp A P s).bind (iterateCpp A P k)

/-- The function `runReference` of `exercises/NBody/nbody.cpp`; the result is `finalPositions`.
`positions1` is created with `4*numBodies` (an `unsigned` product) zero elements. -/
def runReference {F : Type} (A : Arith F) (P : Params F)
    (initialPositions initialVelocities : List F) : Option (List F) :=
  let s0 : RefState F :=
    { positions0 := initialPositions
      positions1 := List.replicate ((4 * P.numBodies) % 2 ^ 32) A.zero
      velocities := initialVelocities }
  (iterateCpp A P P.iterations s0).map fun s => s.positions0

/-! ### `runReference`, C text -/

/-- Local buffers of the C `runReference`: the two pointers and the velocity block. -/
structure RefStateC (F : Type) where
  positionsIn : List F
  positionsOut : List F
  velocities : List F

/-- One pass of the loop over `itr` in the C text; the swap exchanges the two pointers. -/
def iterationC {F : Type} (A : Arith F) (P : Params F) (s : RefStateC F) :
    Option (RefStateC F) :=
  (bodyLoop A .c P s.positionsIn s.velocities s.positionsOut).bind fun r =>
    some { positionsIn := r.2, positionsOut := s.positionsIn, velocities := r.1 }

/-- The loop over `itr` of the C text, as `k` remaining passes. -/
def iterateC {F : Type} (A : Arith F) (P : Params F) : Nat → RefStateC F → Option (RefStateC F)
  | 0, s => some s
  | k + 1, s => (iterationC A P s).bind (iterateC A P k)

/-- The function `runReference` of `solutions/NBody-GL/nbody.c`.  `dataSize` is
`numBodies*4` (an unsigned 32-bit product) floats; `memcpy` needs that many source
elements.  `scratch` is the indeterminate initial content of the block `malloc` returns for
`positionsOut`. -/
def runReferenceC {F : Type} (A : Arith F) (P : Params F)
    (initialPositions initialVelocities scratch : List F) : Option (List F) :=
  let n4 := (P.numBodies * 4) % 2 ^ 32
  if n4 ≤ initialPositions.length ∧ n4 ≤ initialVelocities.length ∧ scratch.length = n4 then
    let s0 : RefStateC F :=
      { positionsIn := initialPositions.take n4
        positionsOut := scratch
        velocities := initialVelocities.take n4 }
    (iterateC A P P.iterations s0).map fun s => s.positionsIn.take n4
  else none

/-! ## The single-step update as a function of the input state -/

/-- Element `k` of a buffer, for stating results (`0.f` outside the buffer). -/
def elem {F : Type} (A : Arith F) (buf : List F) (k : Nat) : F := buf.getD k A.zero

/-- The spatial part `(x, y, z)` of entry `i` of a buffer of 4-vectors. -/
def xyzAt {F : Type} (A : Arith F) (buf : List F) (i : Nat) : F × F × F :=
  (elem A buf (4 * i), elem A buf (4 * i + 1), elem A buf (4 * i + 2))

/-- Entry `i` of a buffer of 4-vectors, `(x, y, z, w)`. -/
def bodyAt {F : Type} (A : Arith F) (buf : List F) (i : Nat) : F × F × F × F :=
  (elem A buf (4 * i), elem A buf (4 * i + 1), elem A buf (4 * i + 2), elem A buf (4 * i + 3))

/-- Force on body `i`: the contributions of the bodies `j = 0, 1, ..., numBodies-1`, added
in this order to `(0.f, 0.f, 0.f)`. -/
def force {F : Type} (A : Arith F) (src : Source) (P : Params F) (positions : List F)
    (i : Nat) : F × F × F :=
  (List.range P.numBodies).foldl
    (fun f j =>
      interact A src P.softening (elem A positions (4 * i)) (elem A positions (4 * i + 1))
        (elem A positions (4 * i + 2)) f (bodyAt A positions j))
    (A.zero, A.zero, A.zero)

/-- Velocity of body `i` after the step: `velocity_i_old + force * delta`. -/
def velocityAfter {F : Type} (A : Arith F) (src : Source) (P : Params F)
    (positions velocities : List F) (i : Nat) : F × F × F :=
  newVelocity A P.delta (xyzAt A velocities i) (force A src P positions i)

/-- Position of body `i` after the step: `position_i_old.xyz + velocity_i_new * delta`. -/
def positionAfter {F : Type} (A : Arith F) (src : Source) (P : Params F)
    (positions velocities : List F) (i : Nat) : F × F × F :=
  newPosition A P.delta (xyzAt A positions i) (velocityAfter A src P positions velocities i)

/-- Element `k` of the velocity buffer after the step (the fourth component is kept). -/
def velEntry {F : Type} (A : Arith F) (src : Source) (P : Params F)
    (positions velocities : List F) (k : Nat) : F :=
  match k % 4 with
  | 0 => (velocityAfter A src P positions velocities (k / 4)).1
  | 1 => (velocityAfter A src P positions velocities (k / 4)).2.1
  | 2 => (velocityAfter A src P positions velocities (k / 4)).2.2
  | _ => elem A velocities k

/-- Element `k` of the output position buffer after the step (`w` is copied). -/
def posEntry {F : Type} (A : Arith F) (src : Source) (P : Params F)
    (positions velocities : List F) (k : Nat) : F :=
  match k % 4 with
  | 0 => (positionAfter A src P positions velocities (k / 4)).1
  | 1 => (positionAfter A src P positions velocities (k / 4)).2.1
  | 2 => (positionAfter A src P positions velocities (k / 4)).2.2
  | _ => elem A positions k

/-- The single-step update of the specification (`integrate`), as a function from
`(positions, velocities)` to `(positions, velocities)`: every body is updated from the input
positions and its own velocity. -/
def integrate {F : Type} (A : Arith F) (src : Source) (P : Params F)
    (s : List F × List F) : List F × List F :=
  ((List.range (4 * P.numBodies)).map (posEntry A src P s.1 s.2),
   (List.range (4 * P.numBodies)).map (velEntry A src P s.1 s.2))

/-- Largest body count for which no subscript `i*4 + c` with `i < numBodies` wraps
(`unsigned`) or overflows (`int`), and `4*numBodies` does not wrap. -/
def maxBodies : Source → Nat
  | .cpp => 2 ^ 30 - 1
  | .c => 2 ^ 29
  | .cppGL => 2 ^ 30 - 1

/-- Buffer of `4*n` elements: the first `4*m` are given by `new`, the others are those of
`old`.  The state of a buffer after the first `m` bodies have been written. -/
def partialBuf {F : Type} (A : Arith F) (n m : Nat) (new : Nat → F) (old : List F) : List F :=
  (List.range (4 * n)).map fun k => if k < 4 * m then new k else elem A old k

/-! ## Verification loop of `main` (`exercises/NBody/nbody.cpp`) -/

/-- Lines the verification writes to standard output. -/
inductive Line (F : Type) where
  /-- The line `Verification failed:` -/
  | failed
  /-- The line `-> Position error at i: dist` -/
  | positionError (i : Nat) (dist : F)
  /-- The line `Total errors: n` -/
  | totalErrors (n : Nat)
  /-- The line `Verification passed.` -/
  | passed
deriving DecidableEq, Repr

/-- The counter `unsigned errors` and the lines printed so far. -/
structure VerifyState (F : Type) where
  errors : Nat
  out : List (Line F)
deriving DecidableEq, Repr

/-- The distance `dist = sqrt(dx*dx + dy*dy + dz*dz)` for `(dx, dy, dz) = r - p`. -/
def errorDist {F : Type} (A : Arith F) (p r : F × F × F) : F :=
  let dx := A.sub r.1 p.1
  let dy := A.sub r.2.1 p.2.1
  let dz := A.sub r.2.2 p.2.2
  A.sqrt (A.add (A.add (A.mul dx dx) (A.mul dy dy)) (A.mul dz dz))

/-- The test `dist > tolerance || (dist != dist)`. -/
def exceeds {F : Type} (A : Arith F) (tolerance dist : F) : Bool :=
  A.gt dist tolerance || A.ne dist dist

/-- What the loop body does once `dist` is known. -/
def record {F : Type} (A : Arith F) (tolerance : F) (s : VerifyState F) (i : Nat) (dist : F) :
    VerifyState F :=
  if exceeds A tolerance dist then
    let out1 := if s.errors = 0 then s.out ++ [Line.failed] else s.out
    let out2 := if s.errors < 8 then out1 ++ [Line.positionError i dist] else out1
    { errors := (s.errors + 1) % 2 ^ 32, out := out2 }
  else s

/-- Body of the loop `for (unsigned i = 0; i < numBodies; i++)` under
`// Verify final positions`. -/
def verifyBody {F : Type} (A : Arith F) (tolerance : F) (h_positions h_reference : List F)
    (s : VerifyState F) (i : Nat) : Option (VerifyState F) :=
  (read3 .cpp h_positions i).bind fun p =>
  (read3 .cpp h_reference i).bind fun r =>
    some (record A tolerance s i (errorDist A p r))

/-- The verification of `main`: the loop and the final report. -/
def verify {F : Type} (A : Arith F) (tolerance : F) (numBodies : Nat)
    (h_positions h_reference : List F) : Option (VerifyState F) :=
  ((List.range numBodies).foldlM (verifyBody A tolerance h_positions h_reference)
      { errors := 0, out := [] }).map fun s =>
    if s.errors ≠ 0 then { s with out := s.out ++ [Line.totalErrors s.errors] }
    else { s with out := s.out ++ [Line.passed] }

/-- Distance the loop computes for body `i`. -/
def distAt {F : Type} (A : Arith F) (h_positions h_reference : List F) (i : Nat) : F :=
  errorDist A (xyzAt A h_positions i) (xyzAt A h_reference i)

/-- The bodies that fail the test, in increasing index order. -/
def failing {F : Type} (A : Arith F) (tolerance : F) (numBodies : Nat)
    (h_positions h_reference : List F) : List Nat :=
  (List.range numBodies).filter fun i =>
    exceeds A tolerance (distAt A h_positions h_reference i)

/-- The itemised lines among the printed lines, as `(index, distance)` pairs. -/
def itemised {F : Type} (out : List (Line F)) : List (Nat × F) :=
  out.filterMap fun l =>
    match l with
    | Line.positionError i d => some (i, d)
    | _ => none

/-- Lines the verification loop has printed once exactly the bodies of `fails` (in
increasing order) have failed: the heading, if any failed, and the first eight items. -/
def loopLines {F : Type} (A : Arith F) (h_positions h_reference : List F)
    (fails : List Nat) : List (Line F) :=
  (if fails.isEmpty then [] else [Line.failed]) ++
    (fails.take 8).map fun i => Line.positionError i (distAt A h_positions h_reference i)

/-! ## Simulation loops: which buffer holds which role -/

/-- The two device position buffers of `main`. -/
inductive Buffer where
  | d_positions0
  | d_positions1
deriving DecidableEq, Repr

/-- The handles `d_positionsIn`, `d_positionsOut` and the kernel launches made so far, each
as the pair (input buffer, output buffer). -/
structure LoopState where
  d_positionsIn : Buffer
  d_positionsOut : Buffer
  launches : List (Buffer × Buffer)
deriving DecidableEq, Repr

/-- State before the loop: `d_positionsIn = d_positions0; d_positionsOut = d_positions1`. -/
def loopInit : LoopState :=
  { d_positionsIn := Buffer.d_positions0, d_positionsOut := Buffer.d_positions1, launches := [] }

/-- One pass of the loop of `exercises/NBody/nbody.cpp`: launch the kernel, then
`temp = d_positionsIn; d_positionsIn = d_positionsOut; d_positionsOut = temp`. -/
def loopPass (s : LoopState) : LoopState :=
  let launched := s.launches ++ [(s.d_positionsIn, s.d_positionsOut)]
  let temp := s.d_positionsIn
  { d_positionsIn := s.d_positionsOut, d_positionsOut := temp, launches := launched }

/-- The loop `for (i = 0; i < iterations; i++)` of `main`, as `k` remaining passes. -/
def simulationLoop : Nat → LoopState → LoopState
  | 0, s => s
  | k + 1, s => simulationLoop k (loopPass s)

/-- The variables `INDEX_IN`, `INDEX_OUT` of `solutions/NBody-GL-VBO/nbody.cpp` and the
kernel launches made so far, each as the pair (input index, output index). -/
structure IndexState where
  INDEX_IN : Nat
  INDEX_OUT : Nat
  launches : List (Nat × Nat)
deriving DecidableEq, Repr

/-- State before the loop: `INDEX_IN = 0; INDEX_OUT = 1`. -/
def indexInit : IndexState := { INDEX_IN := 0, INDEX_OUT := 1, launches := [] }

/-- The loop `for (i = 0; ; i++)` of the VBO program, run against the successive results of
`handleSDLEvents()`: each pass launches the kernel, polls, and either leaves the loop or
swaps the two indices.  When the given results are used up the state reached is returned. -/
def indexLoop : List Bool → IndexState → IndexState
  | [], s => s
  | stop :: polls, s =>
      let s1 : IndexState := { s with launches := s.launches ++ [(s.INDEX_IN, s.INDEX_OUT)] }
      if stop then s1
      else
        let temp := s1.INDEX_IN
        indexLoop polls { s1 with INDEX_IN := s1.INDEX_OUT, INDEX_OUT := temp }

/-! ## An executable model of IEEE-754 binary32

Round to nearest, ties to even; one NaN; signed zeros and infinities. -/

/-- An IEEE-754 binary32 datum: NaN, an infinity, or the finite number
`(-1)^neg * m * 2^e`. -/
inductive F32 where
  | nan
  | inf (neg : Bool)
  | fin (neg : Bool) (m : Nat) (e : Int)
deriving DecidableEq, Repr

namespace F32

/-- Signed zero. -/
def zero (neg : Bool) : F32 := fin neg 0 0

/-- The number `1`. -/
def one : F32 := fin false 8388608 (-23)

/-- Number of binary digits of `m`, by halving at most `fuel` times. -/
def bitsAux : Nat → Nat → Nat
  | 0, _ => 0
  | fuel + 1, m => if m = 0 then 0 else bitsAux fuel (m / 2) + 1

/-- Number of binary digits of `m`. -/
def bits (m : Nat) : Nat := bitsAux m m

/-- Round `(-1)^neg * m * 2^e` to the nearest binary32 number, ties to even: 24 significant
bits, least exponent `-149`, overflow to infinity above `(2^24 - 1) * 2^104`. -/
def round (neg : Bool) (m : Nat) (e : Int) : F32 :=
  if m = 0 then zero neg
  else
    let t : Int := max (e + (bits m : Int) - 24) (-149)
    if t ≤ e then
      if t > 104 then inf neg else fin neg (m * 2 ^ (e - t).toNat) t
    else
      let sh := (t - e).toNat
      let q := m / 2 ^ sh
      let r := m % 2 ^ sh
      let half := 2 ^ (sh - 1)
      let m1 := if r > half ∨ (r = half ∧ q % 2 = 1) then q + 1 else q
      if m1 = 0 then zero neg
      else if m1 = 2 ^ 24 then
        (if t + 1 > 104 then inf neg else fin neg (2 ^ 23) (t + 1))
      else if t > 104 then inf neg else fin neg m1 t

/-- The integer `(-1)^neg * m`. -/
def signed (neg : Bool) (m : Nat) : Int := if neg then -(m : Int) else (m : Int)

/-- Negation. -/
def neg : F32 → F32
  | nan => nan
  | inf s => inf (!s)
  | fin s m e => fin (!s) m e

/-- Addition, correctly rounded. -/
def add : F32 → F32 → F32
  | nan, _ => nan
  | _, nan => nan
  | inf a, inf b => if a = b then inf a else nan
  | inf a, fin _ _ _ => inf a
  | fin _ _ _, inf b => inf b
  | fin s1 m1 e1, fin s2 m2 e2 =>
      if m1 = 0 ∧ m2 = 0 then zero (s1 && s2)
      else if m2 = 0 then fin s1 m1 e1
      else if m1 = 0 then fin s2 m2 e2
      else
        let e := min e1 e2
        let sum := signed s1 (m1 * 2 ^ (e1 - e).toNat) + signed s2 (m2 * 2 ^ (e2 - e).toNat)
        if sum = 0 then zero false else round (decide (sum < 0)) sum.natAbs e

/-- Subtraction. -/
def sub (a b : F32) : F32 := add a (neg b)

/-- Multiplication, correctly rounded. -/
def mul : F32 → F32 → F32
  | nan, _ => nan
  | _, nan => nan
  | inf a, inf b => inf (xor a b)
  | inf a, fin s m _ => if m = 0 then nan else inf (xor a s)
  | fin s m _, inf b => if m = 0 then nan else inf (xor s b)
  | fin s1 m1 e1, fin s2 m2 e2 => round (xor s1 s2) (m1 * m2) (e1 + e2)

/-- Division, correctly rounded: the quotient is computed to `bits m2 + 40` extra binary
places and a nonzero remainder is kept as a trailing sticky digit. -/
def div : F32 → F32 → F32
  | nan, _ => nan
  | _, nan => nan
  | inf _, inf _ => nan
  | inf a, fin s _ _ => inf (xor a s)
  | fin s _ _, inf b => zero (xor s b)
  | fin s1 m1 e1, fin s2 m2 e2 =>
      if m2 = 0 then (if m1 = 0 then nan else inf (xor s1 s2))
      else
        let k := bits m2 + 40
        let q := (m1 * 2 ^ k) / m2
        let sticky := if (m1 * 2 ^ k) % m2 = 0 then 0 else 1
        round (xor s1 s2) (2 * q + sticky) (e1 - e2 - (k : Int) - 1)

/-- Integer square root by binary digits: the largest `r` below `2^b` above the given
partial root with `r * r ≤ n`. -/
def isqrtAux (n : Nat) : Nat → Nat → Nat
  | 0, r => r
  | b + 1, r => isqrtAux n b (if (r + 2 ^ b) * (r + 2 ^ b) ≤ n then r + 2 ^ b else r)

/-- Integer square root. -/
def isqrt (n : Nat) : Nat := isqrtAux n (bits n / 2 + 1) 0

/-- Square root, correctly rounded: the root of the significand scaled by `2^128` (and by
one more factor 2 when the exponent is odd), with a sticky digit when inexact. -/
def sqrt : F32 → F32
  | nan => nan
  | inf s => if s then nan else inf false
  | fin s m e =>
      if m = 0 then fin s m e
      else if s then nan
      else
        let p := e % 2
        let n := m * 2 ^ (128 + p.toNat)
        let r := isqrt n
        let sticky := if r * r = n then 0 else 1
        round false (2 * r + sticky) ((e - p) / 2 - 64 - 1)

/-- Comparison of two finite numbers as integers on a common exponent. -/
def cmpFin (s1 : Bool) (m1 : Nat) (e1 : Int) (s2 : Bool) (m2 : Nat) (e2 : Int) : Int :=
  let e := min e1 e2
  signed s1 (m1 * 2 ^ (e1 - e).toNat) - signed s2 (m2 * 2 ^ (e2 - e).toNat)

/-- The comparison `a > b`; false when an operand is NaN. -/
def gt : F32 → F32 → Bool
  | nan, _ => false
  | _, nan => false
  | inf a, inf b => !a && b
  | inf a, fin _ _ _ => !a
  | fin _ _ _, inf b => b
  | fin s1 m1 e1, fin s2 m2 e2 => decide (0 < cmpFin s1 m1 e1 s2 m2 e2)

/-- The comparison `a == b`; false when an operand is NaN, true for `+0 == -0`. -/
def eq : F32 → F32 → Bool
  | nan, _ => false
  | _, nan => false
  | inf a, inf b => a == b
  | inf _, fin _ _ _ => false
  | fin _ _ _, inf _ => false
  | fin s1 m1 e1, fin s2 m2 e2 => decide (cmpFin s1 m1 e1 s2 m2 e2 = 0)

/-- The comparison `a != b`. -/
def ne (a b : F32) : Bool := !eq a b

/-- Neither NaN nor an infinity. -/
def isFinite : F32 → Bool
  | fin _ _ _ => true
  | _ => false

end F32

/-- The binary32 arithmetic as the arithmetic of the programs. -/
def ieee32 : Arith F32 :=
  { zero := F32.zero false
    one := F32.one
    add := F32.add
    sub := F32.sub
    mul := F32.mul
    div := F32.div
    sqrt := F32.sqrt
    gt := F32.gt
    ne := F32.ne }

/-! ## The force as the specification writes it -/

/-- The softened distance `dist_ij = sqrt(dx^2 + dy^2 + dz^2 + softening^2)` between bodies
`i` and `j`, where `(dx, dy, dz) = pos_j.xyz - pos_i.xyz`. -/
def pairDist {F : Type} (A : Arith F) (softening : F) (positions : List F) (i j : Nat) : F :=
  let dx := A.sub (elem A positions (4 * j)) (elem A positions (4 * i))
  let dy := A.sub (elem A positions (4 * j + 1)) (elem A positions (4 * i + 1))
  let dz := A.sub (elem A positions (4 * j + 2)) (elem A positions (4 * i + 2))
  A.sqrt (A.add (A.add (A.add (A.mul dx dx) (A.mul dy dy)) (A.mul dz dz))
    (A.mul softening softening))

/-- Component `c` (0, 1, 2 for x, y, z) of the term `(w_j / dist_ij^3) * (pos_j - pos_i)`. -/
def pairTerm {F : Type} (A : Arith F) (softening : F) (positions : List F) (i j c : Nat) : F :=
  let d := pairDist A softening positions i j
  A.mul (A.div (elem A positions (4 * j + 3)) (A.mul (A.mul d d) d))
    (A.sub (elem A positions (4 * j + c)) (elem A positions (4 * i + c)))

/-- Component `c` of the sum of the terms over all `j = 0, ..., numBodies-1` (`j = i`
included), the terms being added one after the other, in increasing `j`, to `0.f`. -/
def forceSum {F : Type} (A : Arith F) (P : Params F) (positions : List F) (i c : Nat) : F :=
  (List.range P.numBodies).foldl
    (fun acc j => A.add acc (pairTerm A P.softening positions i j c)) A.zero

/-! ## Inputs used to instantiate the theorems -/

/-- Two bodies, unit step and unit softening, two iterations. -/
def demoParams : Params F32 :=
  { numBodies := 2, delta := F32.one, softening := F32.one, iterations := 2 }

/-- Two bodies on the x axis, at `0` and at `1`, both with `w = 1`. -/
def demoPositions : List F32 :=
  [F32.zero false, F32.zero false, F32.zero false, F32.one,
   F32.one, F32.zero false, F32.zero false, F32.one]

/-- Eight zero elements: velocities at rest, or a cleared output buffer. -/
def demoZeros : List F32 := List.replicate 8 (F32.zero false)

/-- The computed positions of the NaN test: one body at `(NaN, 0, 0)`, `w = 1`. -/
def nanPositions : List F32 := [F32.nan, F32.zero false, F32.zero false, F32.one]

/-- The reference positions of the NaN test: one body at the origin, `w = 1`. -/
def originPositions : List F32 := [F32.zero false, F32.zero false, F32.zero false, F32.one]

/-- A zero of either sign. -/
def F32.isZero : F32 → Bool
  | F32.fin _ 0 _ => true
  | _ => false

/-- Unchanged up to the sign of a zero: `a` is `b`, or both are zeros. -/
def F32.same (a b : F32) : Prop := a = b ∨ (F32.isZero a = true ∧ F32.isZero b = true)

/-- Parameters of a run with a single body. -/
def singleBody (delta softening : F32) (iterations : Nat) : Params F32 :=
  { numBodies := 1, delta := delta, softening := softening, iterations := iterations }

/-- The coefficient of the self term `j = i` in the C++ text, for a body of weight `w`:
there `dx = dy = dz = +0`. -/
def selfCoeff (w softening : F32) : F32 :=
  coeff ieee32 .cpp w (softDist ieee32 softening (F32.zero false) (F32.zero false)
    (F32.zero false))

/-- The largest finite binary32 number, `(2^24 - 1) * 2^104`. -/
def maxFinite : F32 := F32.fin false 16777215 104

/-! ## Exact arithmetic -/

/-- Exact arithmetic in an ordered field `K` (the real numbers, or the rationals), with a
given square-root function: the operations of the programs without rounding. -/
def exactArith (K : Type) [LinearOrderedField K] (sqrt : K → K) : Arith K :=
  { zero := 0
    one := 1
    add := fun a b => a + b
    sub := fun a b => a - b
    mul := fun a b => a * b
    div := fun a b => a / b
    sqrt := sqrt
    gt := fun a b => decide (b < a)
    ne := fun a b => decide (a ≠ b) }

/-- A square root on the rationals: `sqrt(n/d)` as `floor(sqrt(n*d))/d`, exact on squares. -/
def ratSqrt (q : ℚ) : ℚ := (Nat.sqrt (q.num.toNat * q.den) : ℚ) / (q.den : ℚ)

/-- Two bodies over the rationals: unit step and unit softening, two iterations. -/
def demoParamsQ : Params ℚ :=
  { numBodies := 2, delta := 1, softening := 1, iterations := 2 }

/-- Two bodies on the x axis over the rationals, at `0` and at `1`, both with `w = 1`. -/
def demoPositionsQ : List ℚ := [0, 0, 0, 1, 1, 0, 0, 1]

/-- Eight rational zeros. -/
def demoZerosQ : List ℚ := List.replicate 8 0

/-- Parameters of a run with two bodies. -/
def twoBodies {F : Type} (delta softening : F) (iterations : Nat) : Params F :=
  { numBodies := 2, delta := delta, softening := softening, iterations := iterations }

/-- The rational number a finite binary32 datum stands for (`0` for NaN and infinities). -/
def F32.toRat : F32 → ℚ
  | F32.fin s m e => (if s then -1 else 1) * (m : ℚ) * (2 : ℚ) ^ e
  | _ => 0

/-- The binary32 number `3`. -/
def F32.three : F32 := F32.fin false 12582912 (-22)

/-- Two bodies in binary32, at the origin and at `(1, 3, 0)`, both with `w = 1`. -/
def skewPositions : List F32 :=
  [F32.zero false, F32.zero false, F32.zero false, F32.one,
   F32.one, F32.three, F32.zero false, F32.one]

/-- Component `c` (0, 1, 2 for x, y, z) of the force contribution of body `j` on body `i`, as
the loop body computes it: `coeff * (pos_j - pos_i)` with the coefficient of the given
source text. -/
def pairForce {F : Type} (A : Arith F) (src : Source) (softening : F) (positions : List F)
    (i j c : Nat) : F :=
  A.mul (coeff A src (elem A positions (4 * j + 3)) (pairDist A softening positions i j))
    (A.sub (elem A positions (4 * j + c)) (elem A positions (4 * i + c)))

/-! ## The buffer swaps -/

/-- The lines under `// Swap buffers` of the C++ `runReference`:
`std::vector<float>& temp = positionsIn; positionsIn = positionsOut; positionsOut = temp;`.
All three names are references, so the two assignments assign vector contents: first
`positions0` receives the elements of `positions1`, then `positions1` receives the elements
of `positions0`. -/
def swapCpp {F : Type} (s : RefState F) : RefState F :=
  let s1 : RefState F := { s with positions0 := s.positions1 }
  { s1 with positions1 := s1.positions0 }

/-- The lines under `// Swap buffers` of the C `runReference`:
`float *temp = positionsIn; positionsIn = positionsOut; positionsOut = temp;`.
The names are pointers; the blocks they point to are not touched. -/
def swapC {F : Type} (s : RefStateC F) : RefStateC F :=
  let temp := s.positionsIn
  { s with positionsIn := s.positionsOut, positionsOut := temp }

/-- The allocation `std::vector<float> h(4*numBodies)` of `main`: the element count is the
`unsigned` product `4*numBodies`, taken modulo `2^32`. -/
def hostVector {F : Type} (A : Arith F) (numBodies : Nat) : List F :=
  List.replicate ((4 * numBodies) % 2 ^ 32) A.zero

/-- Parameters with `numBodies = 2^30`, the least count whose product `4*numBodies` wraps. -/
def wrapParams : Params F32 :=
  { numBodies := 2 ^ 30, delta := F32.one, softening := F32.one, iterations := 1 }

/-! ## Command line (`exercises/NBody/nbody.cpp`) -/

/-- The file-scope variables that `parseArguments` assigns. -/
structure Config (F : Type) where
  deviceIndex : Nat
  numBodies : Nat
  delta : F
  softening : F
  iterations : Nat
deriving DecidableEq, Repr

/-- How a call of `parseArguments` ends: the process exits with a status, or the call
returns with the variables set. -/
inductive Parsed (F : Type) where
  | exited (status : Nat)
  | returned (cfg : Config F)
deriving DecidableEq, Repr

/-- The function `parseFloat`: `*output = (cl_float)strtod(str, &next); return !strlen(next);`.
The library function `strtod` is a parameter giving the converted value and the rest of the
string, `next`.  The result is the returned flag and the value stored in `*output`. -/
def parseFloat {F : Type} (strtod : String → F × String) (str : String) : Bool × F :=
  let r := strtod str
  (decide (r.2.length = 0), r.1)

/-- The function `parseArguments`, applied to `argv[1], ..., argv[argc-1]`.  `parseUInt` is
declared in a header outside the sources at hand and is a parameter: `some n` when it
returns non-zero after storing `n`, `none` when it returns zero. -/
def parseArguments {F : Type} (parseUInt : String → Option Nat)
    (strtod : String → F × String) : List String → Config F → Parsed F
  | [], cfg => Parsed.returned cfg
  | a :: rest, cfg =>
    if a = "--list" then Parsed.exited 0
    else if a = "--device" then
      match rest with
      | [] => Parsed.exited 1
      | v :: rest' =>
        match parseUInt v with
        | none => Parsed.exited 1
        | some n => parseArguments parseUInt strtod rest' { cfg with deviceIndex := n }
    else if a = "--numbodies" ∨ a = "-n" then
      match rest with
      | [] => Parsed.exited 1
      | v :: rest' =>
        match parseUInt v with
        | none => Parsed.exited 1
        | some n => parseArguments parseUInt strtod rest' { cfg with numBodies := n }
    else if a = "--delta" ∨ a = "-d" then
      match rest with
      | [] => Parsed.exited 1
      | v :: rest' =>
        if (parseFloat strtod v).1 then
          parseArguments parseUInt strtod rest' { cfg with delta := (parseFloat strtod v).2 }
        else Parsed.exited 1
    else if a = "--softening" ∨ a = "-s" then
      match rest with
      | [] => Parsed.exited 1
      | v :: rest' =>
        if (parseFloat strtod v).1 then
          parseArguments parseUInt strtod rest' { cfg with softening := (parseFloat strtod v).2 }
        else Parsed.exited 1
    else if a = "--iterations" ∨ a = "-i" then
      match rest with
      | [] => Parsed.exited 1
      | v :: rest' =>
        match parseUInt v with
        | none => Parsed.exited 1
        | some n => parseArguments parseUInt strtod rest' { cfg with iterations := n }
    else if a = "--help" ∨ a = "-h" then Parsed.exited 0
    else Parsed.exited 1

/-- The options that take a value. -/
def takesValue (a : String) : Bool :=
  a = "--device" || a = "--numbodies" || a = "-n" || a = "--delta" || a = "-d" ||
    a = "--softening" || a = "-s" || a = "--iterations" || a = "-i"

/-- The arguments that end the process with status 0. -/
def exitsZero (a : String) : Bool := a = "--help" || a = "-h" || a = "--list"

/-- The variables after a value-taking option `a` with value `v`, when the value parses;
`none` when `a` takes no value or the value does not parse. -/
def applyOption {F : Type} (parseUInt : String → Option Nat) (strtod : String → F × String)
    (a v : String) (cfg : Config F) : Option (Config F) :=
  if a = "--device" then (parseUInt v).map fun n => { cfg with deviceIndex := n }
  else if a = "--numbodies" ∨ a = "-n" then (parseUInt v).map fun n => { cfg with numBodies := n }
  else if a = "--delta" ∨ a = "-d" then
    if (parseFloat strtod v).1 then some { cfg with delta := (parseFloat strtod v).2 } else none
  else if a = "--softening" ∨ a = "-s" then
    if (parseFloat strtod v).1 then some { cfg with softening := (parseFloat strtod v).2 }
    else none
  else if a = "--iterations" ∨ a = "-i" then
    (parseUInt v).map fun n => { cfg with iterations := n }
  else none

/-- The variables after a sequence of option/value pairs all of which parse. -/
def applyAll {F : Type} (parseUInt : String → Option Nat) (strtod : String → F × String) :
    List (String × String) → Config F → Option (Config F)
  | [], cfg => some cfg
  | p :: ps, cfg => (applyOption parseUInt strtod p.1 p.2 cfg).bind (applyAll parseUInt strtod ps)

/-- The argument list spelling a sequence of option/value pairs. -/
def spell : List (String × String) → List String
  | [] => []
  | p :: ps => p.1 :: p.2 :: spell ps

/-- A stand-in for `parseUInt`: a non-empty string of decimal digits. -/
def uintDemo (s : String) : Option Nat :=
  if s.data ≠ [] ∧ s.data.all Char.isDigit = true then
    some (s.data.foldl (fun n c => 10 * n + (c.toNat - 48)) 0)
  else none

/-- A stand-in for `strtod` that converts a leading run of decimal digits and returns the
rest of the string; with no leading digit it converts nothing, gives `0` and returns the
whole string, as `strtod` does. -/
def strtodDemo (s : String) : F32 × String :=
  (F32.round false
      ((s.data.takeWhile Char.isDigit).foldl (fun n c => 10 * n + (c.toNat - 48)) 0) 0,
    String.mk (s.data.dropWhile Char.isDigit))

/-- The default values of the variables. -/
def defaultConfig : Config F32 :=
  { deviceIndex := 0, numBodies := 4096, delta := F32.fin false 13743895 (-36),
    softening := F32.fin false 13421773 (-28), iterations := 32 }

/-! ## The device check of `main` (`exercises/NBody/nbody.cpp`, `solutions/Pi/pi_ocl.cpp`) -/

/-- The calls that `main` makes after the device check into the OpenCL wrapper and the
helper headers, none of which is part of the sources. -/
inductive Stage where
  | getDeviceName
  | createContext
  | createQueue
  | loadProgram
  | buildProgram
  | makeKernel
  | kernelInfo
  | createBuffer (k : Nat)
  | copyToDevice (k : Nat)
  | runStep (i : Nat)
  | readBack
deriving DecidableEq, Repr

/-- What such a call does: it returns, it throws `cl::Error` (or a class derived from it),
or it ends the process with a status, as `loadProgram` of `common/util.h` does when the
file cannot be opened. -/
inductive Outcome where
  | returns
  | throws
  | exits (status : Nat)
deriving DecidableEq, Repr

/-- The function `loadProgram` of `common/util.h`, as far as the process is concerned:
`exit(EXIT_FAILURE)`, status 1, when `fopen` does not open the file, and again when `calloc`
returns no memory; otherwise the function returns the source text.  The C++ programs call
`util::loadProgram` of `util.hpp`, the C++ counterpart of this function, which is not among
the sources. -/
def loadProgram (opened allocated : Bool) : Outcome :=
  if !opened then Outcome.exits 1
  else if !allocated then Outcome.exits 1
  else Outcome.returns

/-- The exit status of a run of `main` and the calls that returned, in order. -/
structure Run where
  status : Nat
  calls : List Stage
deriving DecidableEq, Repr

/-- The body of the `try` block after the device check: the calls are made in order; a
`cl::Error` is caught by the handler of `main`, which prints it and falls through to the
final `return 0`. -/
def runStages (env : Stage → Outcome) : List Stage → List Stage → Run
  | [], done => { status := 0, calls := done }
  | s :: rest, done =>
    match env s with
    | Outcome.returns => runStages env rest (done ++ [s])
    | Outcome.throws => { status := 0, calls := done }
    | Outcome.exits st => { status := st, calls := done }

/-- The calls of `main` of `exercises/NBody/nbody.cpp` after the device check: device name,
context, queue, program source and build, kernel, the three device buffers, the two copies
to the device, one kernel launch per iteration, and the read back.  The reference run and
the verification that follow are host code and do not change the exit status. -/
def nbodyStages (iterations : Nat) : List Stage :=
  [Stage.getDeviceName, Stage.createContext, Stage.createQueue, Stage.loadProgram,
    Stage.buildProgram, Stage.makeKernel, Stage.createBuffer 0, Stage.createBuffer 1,
    Stage.createBuffer 2, Stage.copyToDevice 0, Stage.copyToDevice 1] ++
    (List.range iterations).map Stage.runStep ++ [Stage.readBack]

/-- The calls of `main` of `solutions/Pi/pi_ocl.cpp` after the device check: device name,
context, queue, program source, program creation with build, kernel functor, work-group
size query, the buffer of partial sums, the kernel launch and the read back. -/
def piStages : List Stage :=
  [Stage.getDeviceName, Stage.createContext, Stage.createQueue, Stage.loadProgram,
    Stage.buildProgram, Stage.makeKernel, Stage.kernelInfo, Stage.createBuffer 0,
    Stage.runStep 0, Stage.readBack]

/-- The program `solutions/Pi/pi_ocl.cpp` from the device check on, for the `deviceIndex`
that its `parseArguments` left (nothing but the device list, `numDevices` entries, is set up
between the two): `return EXIT_FAILURE` (status 1) when the index is not below the number of
devices; both handlers fall through to the end of `main` (status 0). -/
def mainPi (numDevices : Nat) (env : Stage → Outcome) (deviceIndex : Nat) : Run :=
  if deviceIndex ≥ numDevices then { status := 1, calls := [] }
  else runStages env piStages []

/-! ## Host initialisation of `main` (`solutions/NBody-GL/nbody.c`, `nbody.cpp`) -/

/-- The host mathematics the initialisation uses besides the arithmetic of `Arith`: the
literal `2.f`, the constant `M_PI`, the conversion of an `int` to `float`, the constant
`RAND_MAX`, and the library functions `sin`, `cos` and `acos`. -/
structure HostMath (F : Type) where
  two : F
  pi : F
  ofInt : Nat → F
  randMax : Nat
  sin : F → F
  cos : F → F
  acos : F → F

/-- The quotient `rand()/(float)RAND_MAX` for the draw `r`. -/
def unitDraw {F : Type} (A : Arith F) (H : HostMath F) (r : Nat) : F :=
  A.div (H.ofInt r) (H.ofInt H.randMax)

/-- A point on the edge of a circle, from one draw: `angle = 2.f * M_PI * (rand()/RAND_MAX)`,
then `(sphereRadius * cos(angle), sphereRadius * sin(angle), 0, 1)`. -/
def circlePoint {F : Type} (A : Arith F) (H : HostMath F) (sphereRadius : F) (r : Nat) :
    F × F × F × F :=
  let angle := A.mul (A.mul H.two H.pi) (unitDraw A H r)
  (A.mul sphereRadius (H.cos angle), A.mul sphereRadius (H.sin angle), A.zero, A.one)

/-- A point on the surface of a sphere, from two draws:
`longitude = 2.f * M_PI * (rand()/RAND_MAX)`, `latitude = acos((2.f * (rand()/RAND_MAX)) - 1)`,
then `(sphereRadius*sin(latitude)*cos(longitude), sphereRadius*sin(latitude)*sin(longitude),
sphereRadius*cos(latitude), 1)`. -/
def spherePoint {F : Type} (A : Arith F) (H : HostMath F) (sphereRadius : F) (r1 r2 : Nat) :
    F × F × F × F :=
  let longitude := A.mul (A.mul H.two H.pi) (unitDraw A H r1)
  let latitude := H.acos (A.sub (A.mul H.two (unitDraw A H r2)) A.one)
  (A.mul (A.mul sphereRadius (H.sin latitude)) (H.cos longitude),
   A.mul (A.mul sphereRadius (H.sin latitude)) (H.sin longitude),
   A.mul sphereRadius (H.cos latitude), A.one)

/-- One pass of the initialisation loop, for body `i`.  The state is the position array
and the number of calls of `rand()` made so far; `draws k` is the result of call `k`.
The program `exercises/NBody/nbody.cpp` has the sphere branch only (`init2D` false). -/
def initBody {F : Type} (A : Arith F) (H : HostMath F) (src : Source) (init2D : Bool)
    (sphereRadius : F) (draws : Nat → Nat) (s : List F × Nat) (i : Nat) :
    Option (List F × Nat) :=
  if init2D then
    let p := circlePoint A H sphereRadius (draws s.2)
    (write4 src s.1 i p.1 p.2.1 p.2.2.1 p.2.2.2).map fun b => (b, s.2 + 1)
  else
    let p := spherePoint A H sphereRadius (draws s.2) (draws (s.2 + 1))
    (write4 src s.1 i p.1 p.2.1 p.2.2.1 p.2.2.2).map fun b => (b, s.2 + 2)

/-- The velocity array after the initialisation: the vector `(4*numBodies, 0)` of the C++
text, the block of `numBodies*sizeof(cl_float4)` bytes cleared by `memset` of the C text. -/
def initialVelocities {F : Type} (A : Arith F) (src : Source) (numBodies : Nat) : List F :=
  match src with
  | .cpp => hostVector A numBodies
  | .c => List.replicate (4 * numBodies) A.zero
  | .cppGL => hostVector A numBodies

/-- The host initialisation of `main`: the loop over the bodies fills the position array
`allocated` (the value-initialised vector of the C++ text, the block that `malloc` returned
in the C text); the result is `(h_initialPositions, h_initialVelocities)`. -/
def initHost {F : Type} (A : Arith F) (H : HostMath F) (src : Source) (init2D : Bool)
    (sphereRadius : F) (draws : Nat → Nat) (numBodies : Nat) (allocated : List F) :
    Option (List F × List F) :=
  ((List.range numBodies).foldlM (initBody A H src init2D sphereRadius draws)
      (allocated, 0)).map fun s => (s.1, initialVelocities A src numBodies)

/-- The point generated for body `i`: in circle mode from draw `i`, in sphere mode from the
draws `2*i` and `2*i + 1`. -/
def initPoint {F : Type} (A : Arith F) (H : HostMath F) (init2D : Bool) (sphereRadius : F)
    (draws : Nat → Nat) (i : Nat) : F × F × F × F :=
  if init2D then circlePoint A H sphereRadius (draws i)
  else spherePoint A H sphereRadius (draws (2 * i)) (draws (2 * i + 1))

/-- Element `k` of the position array after the initialisation. -/
def initEntry {F : Type} (A : Arith F) (H : HostMath F) (init2D : Bool) (sphereRadius : F)
    (draws : Nat → Nat) (k : Nat) : F :=
  match k % 4 with
  | 0 => (initPoint A H init2D sphereRadius draws (k / 4)).1
  | 1 => (initPoint A H init2D sphereRadius draws (k / 4)).2.1
  | 2 => (initPoint A H init2D sphereRadius draws (k / 4)).2.2.1
  | _ => (initPoint A H init2D sphereRadius draws (k / 4)).2.2.2

/-- A stand-in for the host mathematics library in binary32: the constants are those of
the source (`2.f`, `(float)M_PI`, `RAND_MAX = 2^31 - 1`), the three functions are low-order
approximations (`sin t` as `t`, `cos t` as `1 - t*t/2`, `acos x` as `pi/2 - x`). -/
def demoMath : HostMath F32 :=
  { two := F32.fin false 8388608 (-22)
    pi := F32.fin false 13176795 (-22)
    ofInt := fun n => F32.round false n 0
    randMax := 2147483647
    sin := fun t => t
    cos := fun t => F32.sub F32.one (F32.div (F32.mul t t) (F32.fin false 8388608 (-22)))
    acos := fun x =>
      F32.sub (F32.div (F32.fin false 13176795 (-22)) (F32.fin false 8388608 (-22))) x }

/-- A fixed sequence of draws. -/
def demoDraws (k : Nat) : Nat := (1103515245 * (k + 1) + 12345) % 2147483648

/-! ## The program `exercises/NBody/nbody.cpp` -/

/-- The program `exercises/NBody/nbody.cpp`: `main` parses the command line, allocates the
host vectors of `4*numBodies` elements and fills `h_initialPositions` in the loop over the
bodies (sphere branch), gets the device list (`numDevices` entries) and returns `1` when
`deviceIndex` is not below its size; otherwise it goes on to the OpenCL calls.  The result
is `none` when a store of the initialisation falls outside the vector, where the program has
no defined behaviour.  Only the completion of the initialisation enters the result, not
the positions it stored (in this text `M_PI` is used without the cast to `float`). -/
def main {F : Type} (A : Arith F) (H : HostMath F) (sphereRadius : F) (draws : Nat → Nat)
    (parseUInt : String → Option Nat) (strtod : String → F × String) (numDevices : Nat)
    (env : Stage → Outcome) (args : List String) (defaults : Config F) : Option Run :=
  match parseArguments parseUInt strtod args defaults with
  | Parsed.exited st => some { status := st, calls := [] }
  | Parsed.returned cfg =>
    match initHost A H .cpp false sphereRadius draws cfg.numBodies
        (hostVector A cfg.numBodies) with
    | none => none
    | some _ =>
      if cfg.deviceIndex ≥ numDevices then some { status := 1, calls := [] }
      else some (runStages env (nbodyStages cfg.iterations) [])

/-! ## Window events (`handleSDLEvents`) -/

/-- The field `e.type` of an `SDL_Event`, as far as `handleSDLEvents` tells the values
apart. -/
inductive EventType where
  | SDL_KEYUP
  | SDL_KEYDOWN
  | SDL_QUIT
  /-- any other event type, by its number -/
  | other (code : Nat)
deriving DecidableEq, Repr

/-- The field `e.key.keysym.scancode`, as far as `handleSDLEvents` tells the values apart. -/
inductive Scancode where
  | SDL_SCANCODE_Q
  | SDL_SCANCODE_ESCAPE
  /-- any other key, by its number -/
  | other (code : Nat)
deriving DecidableEq, Repr

/-- An event of the window system: its type and, for a key event, the key. -/
structure SDL_Event where
  type : EventType
  scancode : Scancode
deriving DecidableEq, Repr

/-- The function `handleSDLEvents`, run on the queue of pending events: `SDL_PollEvent`
takes the event at the head of the queue, and returns `0` when the queue is empty.  The
result is the returned `int` and the events left in the queue. -/
def handleSDLEvents : List SDL_Event → Nat × List SDL_Event
  | [] => (0, [])
  | e :: pending =>
    if e.type = EventType.SDL_KEYUP ∧ e.scancode = Scancode.SDL_SCANCODE_Q then (1, pending)
    else if e.type = EventType.SDL_KEYUP ∧ e.scancode = Scancode.SDL_SCANCODE_ESCAPE then
      (1, pending)
    else if e.type = EventType.SDL_QUIT then (1, pending)
    else handleSDLEvents pending

/-- An event on which `handleSDLEvents` returns `1`: the release of Q, the release of
Escape, or the window being closed. -/
def SDL_Event.stops (e : SDL_Event) : Bool :=
  (e.type = EventType.SDL_KEYUP ∧
      (e.scancode = Scancode.SDL_SCANCODE_Q ∨ e.scancode = Scancode.SDL_SCANCODE_ESCAPE)) ∨
    e.type = EventType.SDL_QUIT

/-! ## The loop over the bodies in a given order -/

/-- Buffer of `4*n` elements in which the bodies `i` with `done i` hold the elements given
by `new` and the other bodies those of `old`: the state of a buffer after the bodies marked
`done` have been written, in whatever order. -/
def doneBuf {F : Type} (A : Arith F) (n : Nat) (done : Nat → Bool) (new : Nat → F)
    (old : List F) : List F :=
  (List.range (4 * n)).map fun k => if done (k / 4) then new k else elem A old k

/-- The loop over the bodies of one step, taken in the given order of body indices. -/
def bodyLoopIn {F : Type} (A : Arith F) (src : Source) (P : Params F) (order : List Nat)
    (positionsIn velocities positionsOut : List F) : Option (List F × List F) :=
  order.foldlM (bodyUpdate A src P positionsIn) (velocities, positionsOut)

/-! ### `runReference`, C++ text of `solutions/NBody-GL/nbody.cpp` -/

/-- One pass of the loop over `itr` in `solutions/NBody-GL/nbody.cpp`: the loop over the
bodies with the coefficient `jw / (dist*dist*dist)`, then the lines under `// Swap buffers`,
which are those of `exercises/NBody/nbody.cpp` (assignments through references). -/
def iterationCppGL {F : Type} (A : Arith F) (P : Params F) (s : RefState F) :
    Option (RefState F) :=
  (bodyLoop A .cppGL P s.positions0 s.velocities s.positions1).bind fun r =>
    let s1 : RefState F := { positions0 := s.positions0, positions1 := r.2, velocities := r.1 }
    let s2 : RefState F := { s1 with positions0 := s1.positions1 }
    let s3 : RefState F := { s2 with positions1 := s2.positions0 }
    some s3

/-- The loop `for (itr = 0; itr < iterations; itr++)`, as `k` remaining passes. -/
def iterateCppGL {F : Type} (A : Arith F) (P : Params F) :
    Nat → RefState F → Option (RefState F)
  | 0, s => some s
  | k + 1, s => (iterationCppGL A P s).bind (iterateCppGL A P k)

/-- The function `runReference` of `solutions/NBody-GL/nbody.cpp`; the result is
`finalPositions`.  `positions1` is created with `4*numBodies` (an `unsigned` product) zero
elements. -/
def runReferenceGL {F : Type} (A : Arith F) (P : Params F)
    (initialPositions initialVelocities : List F) : Option (List F) :=
  let s0 : RefState F :=
    { positions0 := initialPositions
      positions1 := List.replicate ((4 * P.numBodies) % 2 ^ 32) A.zero
      velocities := initialVelocities }
  (iterateCppGL A P P.iterations s0).map fun s => s.positions0

/-! ## Host calls of the simulation loops -/

/-- The host calls of a simulation loop that the claims speak of.  `B` names a position
buffer: a `cl_mem` or `cl::Buffer` handle, or an index into `d_positions[]`.  Calls that
touch no position buffer and order nothing (kernel arguments, texture acquire and release,
the fill kernel, the GL state calls) are left out. -/
inductive Call (B : Type) where
  /-- The N-body kernel enqueued with these input and output position buffers -/
  | dispatch (input output : B)
  /-- The position buffer handed to the presentation: the argument of the draw kernel, or,
  with GL interop, the vertex buffer that is bound and drawn, which `cl::BufferGL` made the
  storage of that position buffer -/
  | draw (buffer : B)
  /-- Without GL interop, `glBufferSubData`: the mapped contents of the position buffer are
  copied into the vertex buffer that is bound at that moment, which is the one the pass
  before bound for drawing (none in the first pass) -/
  | upload (source : B)
  /-- Without GL interop, the vertex buffer `gl.positions[index]`, a buffer of its own,
  bound by `glBindBuffer` and drawn by `glDrawArrays` -/
  | drawVertexBuffer (index : B)
  /-- The call `queue.flush()` -/
  | flush
  /-- The call `clFinish(queue)` or `queue.finish()` -/
  | finish
  /-- A blocking map of the buffer (`enqueueMapBuffer` with `CL_TRUE`) -/
  | blockingMap (buffer : B)
  /-- The call `SDL_GL_SwapWindow(window)` -/
  | present
  /-- The call `handleSDLEvents()` and what it returned -/
  | poll (stop : Bool)
  /-- The lines under `// Swap position buffers` (`// Swap buffers`) -/
  | swap
  /-- The read of the final positions from the buffer -/
  | readBack (buffer : B)
deriving DecidableEq, Repr

/-- State of an interactive loop `for (i = 0; ; i++)`: the buffers in the input and output
role (`d_positionsIn`, `d_positionsOut`, or `INDEX_IN`, `INDEX_OUT`), the calls made so far,
one list per pass of the loop, and whether the loop has been left through `break`. -/
structure Interactive (B : Type) where
  input : B
  output : B
  passes : List (List (Call B))
  stopped : Bool
deriving DecidableEq, Repr

/-- The loop `for (i = 0; ; i++) { ...; if (handleSDLEvents()) break; swap }` shared by the
interactive programs, run against the successive results of `handleSDLEvents()`; `body`
gives the calls of one pass before the poll.  When the given results are used up without
a stop, the state reached is returned with `stopped` false. -/
def interactiveLoop {B : Type} (body : B → B → List (Call B)) :
    List Bool → Interactive B → Interactive B
  | [], s => s
  | stop :: polls, s =>
    if stop then
      { s with passes := s.passes ++ [body s.input s.output ++ [Call.poll true]],
               stopped := true }
    else
      let temp := s.input
      interactiveLoop body polls
        { input := s.output, output := temp,
          passes := s.passes ++ [body s.input s.output ++ [Call.poll false, Call.swap]],
          stopped := false }

/-- One pass of the loop of `solutions/NBody-GL/nbody.c` and `solutions/NBody-GL/nbody.cpp`
up to the poll: the N-body kernel, the draw kernel on `d_positionsOut`, `clFinish(queue)`
(`queue.finish()`), and the window update. -/
def passGL (d_positionsIn d_positionsOut : Buffer) : List (Call Buffer) :=
  [Call.dispatch d_positionsIn d_positionsOut, Call.draw d_positionsOut, Call.finish,
    Call.present]

/-- One pass of the loop of `solutions/NBody-GL-VBO/nbody-c.cpp` up to the poll: the N-body
kernel on `d_positions[INDEX_IN]`, `d_positions[INDEX_OUT]`, then `clFinish(queue)`.  With
GL interop the vertex buffer `gl.positions[INDEX_OUT]`, which is the storage of
`d_positions[INDEX_OUT]`, is bound and drawn.  Without it `d_positions[INDEX_OUT]` is mapped
(blocking), `glBufferSubData` copies it into the vertex buffer bound at that moment, and
only then `gl.positions[INDEX_OUT]` is bound and drawn.  The window update ends the pass. -/
def passVBOC (useGLInterop : Bool) (INDEX_IN INDEX_OUT : Nat) : List (Call Nat) :=
  [Call.dispatch INDEX_IN INDEX_OUT, Call.finish] ++
    (if useGLInterop then [Call.draw INDEX_OUT]
      else [Call.blockingMap INDEX_OUT, Call.upload INDEX_OUT,
        Call.drawVertexBuffer INDEX_OUT]) ++
    [Call.present]

/-- One pass of the loop of `solutions/NBody-GL-VBO/nbody.cpp` up to the poll: as in
`nbody-c.cpp`, with `queue.flush()` in the place of `clFinish(queue)`. -/
def passVBO (useGLInterop : Bool) (INDEX_IN INDEX_OUT : Nat) : List (Call Nat) :=
  [Call.dispatch INDEX_IN INDEX_OUT, Call.flush] ++
    (if useGLInterop then [Call.draw INDEX_OUT]
      else [Call.blockingMap INDEX_OUT, Call.upload INDEX_OUT,
        Call.drawVertexBuffer INDEX_OUT]) ++
    [Call.present]

/-- State before the loop of the `NBody-GL` programs: `d_positionsIn = d_positions0`,
`d_positionsOut = d_positions1`. -/
def glInit : Interactive Buffer :=
  { input := Buffer.d_positions0, output := Buffer.d_positions1, passes := [],
    stopped := false }

/-- State before the loop of the `NBody-GL-VBO` programs: `INDEX_IN = 0`, `INDEX_OUT = 1`. -/
def vboInit : Interactive Nat :=
  { input := 0, output := 1, passes := [], stopped := false }

/-- The calls of `main` of `solutions/NBody-GL/nbody.c` from the loop on: the passes of the
loop, then the read of the final positions from `d_positionsIn`. -/
def glCalls (polls : List Bool) : List (Call Buffer) :=
  (interactiveLoop passGL polls glInit).passes.flatten ++
    [Call.readBack (interactiveLoop passGL polls glInit).input]

/-- The calls of the loop `for (i = 0; i < iterations; i++)` of `exercises/NBody/nbody.cpp`
and of the read of the final positions that follows it: each pass enqueues the kernel and
swaps the two handles. -/
def fixedCalls (iterations : Nat) : List (Call Buffer) :=
  ((simulationLoop iterations loopInit).launches.map fun l =>
      [Call.dispatch l.1 l.2, Call.swap]).flatten ++
    [Call.readBack (simulationLoop iterations loopInit).d_positionsIn]

/-- The buffer in the first role after `k` swaps, `a` being in it at the start and `b` in
the other role. -/
def roleAt {B : Type} (a b : B) (k : Nat) : B := if k % 2 = 0 then a else b

/-- The calls of pass `k` of a run that is stopped at the poll of pass `n`. -/
def passOf {B : Type} (body : B → B → List (Call B)) (a b : B) (n k : Nat) : List (Call B) :=
  body (roleAt a b k) (roleAt b a k) ++
    (if k = n then [Call.poll true] else [Call.poll false, Call.swap])

/-- The dispatches and polls of a list of calls, in order: `none` for a dispatch, the
result for a poll. -/
def dispatchesAndPolls {B : Type} (calls : List (Call B)) : List (Option Bool) :=
  calls.filterMap fun c =>
    match c with
    | Call.dispatch _ _ => some none
    | Call.poll stop => some (some stop)
    | _ => none

/-- A call at which the host blocks until the commands enqueued before it have completed. -/
def Call.waits {B : Type} : Call B → Bool
  | Call.finish => true
  | Call.blockingMap _ => true
  | Call.readBack _ => true
  | _ => false

/-- One call of the scan for waits: the state says whether a dispatch has been enqueued
that no wait has followed yet; `none` when a swap or a second dispatch came before a
wait. -/
def waitScan {B : Type} (pending : Option Bool) (c : Call B) : Option Bool :=
  match pending, c with
  | none, _ => none
  | some true, Call.dispatch _ _ => none
  | some true, Call.swap => none
  | some false, Call.dispatch _ _ => some true
  | some p, c => if c.waits then some false else some p

/-- Whether in the list of calls every dispatch is followed by a wait before the next swap
and before the next dispatch. -/
def waitsBetweenDispatches {B : Type} (calls : List (Call B)) : Bool :=
  (calls.foldl waitScan (some false)).isSome

/-- The loop of `solutions/NBody-GL/nbody.c` and of `solutions/NBody-GL/nbody.cpp`. -/
def glRun (polls : List Bool) : Interactive Buffer := interactiveLoop passGL polls glInit

/-- The loop of `solutions/NBody-GL-VBO/nbody-c.cpp`. -/
def vboCRun (useGLInterop : Bool) (polls : List Bool) : Interactive Nat :=
  interactiveLoop (passVBOC useGLInterop) polls vboInit

/-- The loop of `solutions/NBody-GL-VBO/nbody.cpp`. -/
def vboRun (useGLInterop : Bool) (polls : List Bool) : Interactive Nat :=
  interactiveLoop (passVBO useGLInterop) polls vboInit

/-! ## Device memory during a run of `solutions/NBody-GL/nbody.c` -/

/-- Contents of the device buffers `d_positions0`, `d_positions1` and `d_velocities`, the
positions each draw was given, in order, and the positions read back (`h_positions`). -/
structure Device (F : Type) where
  d_positions0 : List F
  d_positions1 : List F
  d_velocities : List F
  frames : List (List F)
  h_positions : Option (List F)
deriving DecidableEq, Repr

/-- The contents of a position buffer. -/
def Device.get {F : Type} (d : Device F) : Buffer → List F
  | Buffer.d_positions0 => d.d_positions0
  | Buffer.d_positions1 => d.d_positions1

/-- New contents for a position buffer. -/
def Device.put {F : Type} (d : Device F) : Buffer → List F → Device F
  | Buffer.d_positions0, v => { d with d_positions0 := v }
  | Buffer.d_positions1, v => { d with d_positions1 := v }

/-- The effect of one host call on the device, the queue being in order.  The N-body kernel
(`kernel.cl`) is not part of the sources and is the parameter `kernel`: it maps the input
positions and the velocities to the output positions and the new velocities. -/
def Device.call {F : Type} (kernel : List F × List F → List F × List F) (d : Device F) :
    Call Buffer → Device F
  | Call.dispatch input output =>
    { (d.put output (kernel (d.get input, d.d_velocities)).1) with
      d_velocities := (kernel (d.get input, d.d_velocities)).2 }
  | Call.draw buffer => { d with frames := d.frames ++ [d.get buffer] }
  | Call.readBack buffer => { d with h_positions := some (d.get buffer) }
  | _ => d

/-- The effect of a list of host calls. -/
def Device.run {F : Type} (kernel : List F × List F → List F × List F) (d : Device F)
    (calls : List (Call Buffer)) : Device F :=
  calls.foldl (Device.call kernel) d

/-- The device after the two copies of `main`: `d_positions0` holds the initial positions,
`d_velocities` the initial velocities; `d_positions1` holds whatever it was created with. -/
def deviceInit {F : Type} (initialPositions initialVelocities created : List F) : Device F :=
  { d_positions0 := initialPositions, d_positions1 := created,
    d_velocities := initialVelocities, frames := [], h_positions := none }

/-! ## What `main` reports -/

/-- What `main` writes besides its progress lines. -/
inductive Report where
  /-- The line `Unable to ...` that `initGraphics` writes before `exit(1)` -/
  | graphics
  /-- The line `Invalid device index (try '--list')` -/
  | invalidDevice
  /-- The message of the handler that caught the error thrown by the call: the lines
  `Exception:` and `ERROR: ...` of the handler of `cl::Error`, or `Build failed:` and the
  log of the handler of `cl::BuildError` -/
  | diagnostic (s : Stage)
  /-- The result of the verification: `Verification passed.`, or `Verification failed:`
  with the errors and their total -/
  | verdict
deriving DecidableEq, Repr

/-- What the `try` block after the device check writes: the calls are made in order; when
one throws, the handler writes its message and nothing else follows; when all return, the
block goes on to `verdict` (the reference run and the verification in
`exercises/NBody/nbody.cpp`; nothing in the GL programs, which do not verify).  The build
log that the inner handler of `program.build()` may write before it throws the error on is
not recorded. -/
def reportStages (env : Stage → Outcome) (verdict : List Report) : List Stage → List Report
  | [] => verdict
  | s :: rest =>
    match env s with
    | Outcome.returns => reportStages env verdict rest
    | Outcome.throws => [Report.diagnostic s]
    | Outcome.exits _ => []

/-- What `main` of `exercises/NBody/nbody.cpp` writes besides its progress lines; `none`
when a store of the initialisation falls outside the vector. -/
def mainReports {F : Type} (A : Arith F) (H : HostMath F) (sphereRadius : F)
    (draws : Nat → Nat) (parseUInt : String → Option Nat) (strtod : String → F × String)
    (numDevices : Nat) (env : Stage → Outcome) (args : List String) (defaults : Config F) :
    Option (List Report) :=
  match parseArguments parseUInt strtod args defaults with
  | Parsed.exited _ => some []
  | Parsed.returned cfg =>
    match initHost A H .cpp false sphereRadius draws cfg.numBodies
        (hostVector A cfg.numBodies) with
    | none => none
    | some _ =>
      if cfg.deviceIndex ≥ numDevices then some [Report.invalidDevice]
      else some (reportStages env [Report.verdict] (nbodyStages cfg.iterations))

/-- The function `initGraphics` of `solutions/NBody-GL/nbody.cpp`, as far as the process is
concerned: `exit(1)` when `SDL_Init` fails, when `SDL_CreateWindow` returns no window, and
when `SDL_GL_CreateContext` returns no context; the result is the exit status, `none` when
the function returns. -/
def initGraphics (sdlInit window contextGL : Bool) : Option Nat :=
  if !sdlInit then some 1
  else if !window then some 1
  else if !contextGL then some 1
  else none

/-- The calls of `main` of `solutions/NBody-GL/nbody.cpp` after the device check, for a
run of `passes` passes of the loop: device name and platform, context, queue, program
source and build, the kernel functors, the three device buffers, the two copies to the
device, the image of the GL texture, and the OpenCL calls of each pass. -/
def glStages (passes : Nat) : List Stage :=
  [Stage.getDeviceName, Stage.kernelInfo, Stage.createContext, Stage.createQueue,
    Stage.loadProgram, Stage.buildProgram, Stage.makeKernel, Stage.createBuffer 0,
    Stage.createBuffer 1, Stage.createBuffer 2, Stage.copyToDevice 0, Stage.copyToDevice 1,
    Stage.createBuffer 3] ++ (List.range passes).map Stage.runStep

/-- The program `solutions/NBody-GL/nbody.cpp` after `parseArguments`, for the variables
`init2D`, `numBodies` and `deviceIndex` that it left: `initGraphics`, the host vectors and
the loop that fills `h_initialPositions`, the device list (`numDevices` entries) and
`return 1` when the index is not below its size, then the OpenCL calls; the handlers of
`cl::BuildError` and `cl::Error` fall through to the final `return 0`.  The result is `none`
when a store of the initialisation falls outside the vector. -/
def mainGL {F : Type} (A : Arith F) (H : HostMath F) (sphereRadius : F) (draws : Nat → Nat)
    (sdlInit window contextGL init2D : Bool) (numBodies numDevices : Nat)
    (env : Stage → Outcome) (deviceIndex passes : Nat) : Option Run :=
  match initGraphics sdlInit window contextGL with
  | some st => some { status := st, calls := [] }
  | none =>
    match initHost A H .cppGL init2D sphereRadius draws numBodies
        (hostVector A numBodies) with
    | none => none
    | some _ =>
      if deviceIndex ≥ numDevices then some { status := 1, calls := [] }
      else some (runStages env (glStages passes) [])

/-- What `main` of `solutions/NBody-GL/nbody.cpp` writes besides its progress lines; the
program has no verification. -/
def mainGLReports {F : Type} (A : Arith F) (H : HostMath F) (sphereRadius : F)
    (draws : Nat → Nat) (sdlInit window contextGL init2D : Bool) (numBodies numDevices : Nat)
    (env : Stage → Outcome) (deviceIndex passes : Nat) : Option (List Report) :=
  match initGraphics sdlInit window contextGL with
  | some _ => some [Report.graphics]
  | none =>
    match initHost A H .cppGL init2D sphereRadius draws numBodies
        (hostVector A numBodies) with
    | none => none
    | some _ =>
      if deviceIndex ≥ numDevices then some [Report.invalidDevice]
      else some (reportStages env [] (glStages passes))

/-- An environment in which the program build throws and every other call returns. -/
def buildFails (s : Stage) : Outcome :=
  if s = Stage.buildProgram then Outcome.throws else Outcome.returns

/-- An environment in which the kernel source file cannot be opened, so that `loadProgram`
ends the process, and every other call returns. -/
def kernelMissing (s : Stage) : Outcome :=
  if s = Stage.loadProgram then loadProgram false true else Outcome.returns

/-- Whether the three position coordinates of body `i` are finite. -/
def finiteXYZ (positions : List F32) (i : Nat) : Bool :=
  F32.isFinite (elem ieee32 positions (4 * i)) &&
    F32.isFinite (elem ieee32 positions (4 * i + 1)) &&
    F32.isFinite (elem ieee32 positions (4 * i + 2))

/-! ## Loops and subscripts -/

/-- A loop whose body succeeds wherever an invariant holds, and keeps the invariant, runs to
completion and computes the fold of the body's result function. -/
theorem foldlM_of_invariant {α β : Type} (f : β → α → Option β) (g : β → α → β)
    (Inv : β → Prop) (l : List α) (b : β) (hb : Inv b)
    (h : ∀ a ∈ l, ∀ acc, Inv acc → f acc a = some (g acc a) ∧ Inv (g acc a)) :
    l.foldlM f b = some (l.foldl g b) ∧ Inv (l.foldl g b) := by
  induction l generalizing b with
  | nil => exact ⟨rfl, hb⟩
  | cons a l ih =>
    have h1 := h a (List.mem_cons_self a l) b hb
    have h2 := ih (g b a) h1.2 (fun x hx acc hacc => h x (List.mem_cons_of_mem a hx) acc hacc)
    simp only [List.foldlM_cons, List.foldl_cons, h1.1]
    exact h2

theorem index_eq (src : Source) (n i c : Nat) (hn : n ≤ maxBodies src) (hi : i < n)
    (hc : c < 4) : index src i c = some (4 * i + c) := by
  cases src with
  | cpp =>
    have h2 : (2 : Nat) ^ 30 = 1073741824 := by norm_num
    have h3 : (2 : Nat) ^ 32 = 4294967296 := by norm_num
    simp only [maxBodies, h2] at hn
    simp only [index, h3]
    congr 1
    omega
  | c =>
    have h2 : (2 : Nat) ^ 29 = 536870912 := by norm_num
    have h3 : (2 : Nat) ^ 31 = 2147483648 := by norm_num
    simp only [maxBodies, h2] at hn
    simp only [index, h3]
    rw [if_pos (by omega)]
    congr 1
    omega
  | cppGL =>
    have h2 : (2 : Nat) ^ 30 = 1073741824 := by norm_num
    have h3 : (2 : Nat) ^ 32 = 4294967296 := by norm_num
    simp only [maxBodies, h2] at hn
    simp only [index, h3]
    congr 1
    omega

theorem elem_eq {F : Type} (A : Arith F) (buf : List F) (k : Nat) (hk : k < buf.length) :
    buf[k]? = some (elem A buf k) := by
  simp [elem, List.getD_eq_getElem?_getD, List.getElem?_eq_getElem hk]

theorem readAt_eq {F : Type} (A : Arith F) (src : Source) (buf : List F) (n i c : Nat)
    (hn : n ≤ maxBodies src) (hlen : buf.length = 4 * n) (hi : i < n) (hc : c < 4) :
    readAt src buf i c = some (elem A buf (4 * i + c)) := by
  simp only [readAt, index_eq src n i c hn hi hc]
  exact elem_eq A buf _ (by omega)

theorem read3_eq {F : Type} (A : Arith F) (src : Source) (buf : List F) (n i : Nat)
    (hn : n ≤ maxBodies src) (hlen : buf.length = 4 * n) (hi : i < n) :
    read3 src buf i = some (xyzAt A buf i) := by
  simp [read3, xyzAt, readAt_eq A src buf n i _ hn hlen hi]

theorem read4_eq {F : Type} (A : Arith F) (src : Source) (buf : List F) (n i : Nat)
    (hn : n ≤ maxBodies src) (hlen : buf.length = 4 * n) (hi : i < n) :
    read4 src buf i = some (bodyAt A buf i) := by
  simp [read4, bodyAt, read3_eq A src buf n i hn hlen hi, xyzAt,
    readAt_eq A src buf n i _ hn hlen hi]

theorem writeAt_eq {F : Type} (src : Source) (buf : List F) (n i c : Nat) (v : F)
    (hn : n ≤ maxBodies src) (hlen : buf.length = 4 * n) (hi : i < n) (hc : c < 4) :
    writeAt src buf i c v = some (buf.set (4 * i + c) v) := by
  simp only [writeAt, index_eq src n i c hn hi hc]
  rw [if_pos (by omega)]

theorem forceLoop_eq {F : Type} (A : Arith F) (src : Source) (P : Params F)
    (positionsIn : List F) (i : Nat) (hn : P.numBodies ≤ maxBodies src)
    (hlen : positionsIn.length = 4 * P.numBodies) :
    forceLoop A src P positionsIn (elem A positionsIn (4 * i)) (elem A positionsIn (4 * i + 1))
        (elem A positionsIn (4 * i + 2)) = some (force A src P positionsIn i) := by
  have h := foldlM_of_invariant
    (forceBody A src P.softening positionsIn (elem A positionsIn (4 * i))
      (elem A positionsIn (4 * i + 1)) (elem A positionsIn (4 * i + 2)))
    (fun f j => interact A src P.softening (elem A positionsIn (4 * i))
      (elem A positionsIn (4 * i + 1)) (elem A positionsIn (4 * i + 2)) f
      (bodyAt A positionsIn j))
    (fun _ => True) (List.range P.numBodies) (A.zero, A.zero, A.zero) trivial
    (fun j hj acc _ => by
      refine ⟨?_, trivial⟩
      simp [forceBody, read4_eq A src positionsIn P.numBodies j hn hlen (List.mem_range.mp hj)])
  exact h.1

/-! ## One pass over the bodies -/

theorem partialBuf_length {F : Type} (A : Arith F) (n m : Nat) (new : Nat → F) (old : List F) :
    (partialBuf A n m new old).length = 4 * n := by
  simp [partialBuf]

theorem partialBuf_zero {F : Type} (A : Arith F) (n : Nat) (new : Nat → F) (old : List F)
    (hlen : old.length = 4 * n) : partialBuf A n 0 new old = old := by
  apply List.ext_getElem
  · simp [partialBuf, hlen]
  · intro k h1 h2
    simp [partialBuf, elem, List.getD_eq_getElem?_getD, List.getElem?_eq_getElem h2]

theorem partialBuf_full {F : Type} (A : Arith F) (n : Nat) (new : Nat → F) (old : List F) :
    partialBuf A n n new old = (List.range (4 * n)).map new := by
  apply List.ext_getElem
  · simp [partialBuf]
  · intro k h1 h2
    have hk : k < 4 * n := by simpa [partialBuf] using h1
    simp [partialBuf, hk]

theorem elem_partialBuf {F : Type} (A : Arith F) (n m : Nat) (new : Nat → F) (old : List F)
    (k : Nat) (hk : k < 4 * n) :
    elem A (partialBuf A n m new old) k = if k < 4 * m then new k else elem A old k := by
  have h : k < (partialBuf A n m new old).length := by simp [partialBuf, hk]
  have := elem_eq A (partialBuf A n m new old) k h
  rw [List.getElem?_eq_getElem h] at this
  rw [← Option.some.inj this]
  simp [partialBuf]

theorem velEntry_eq {F : Type} (A : Arith F) (src : Source) (P : Params F)
    (positions velocities : List F) (m : Nat) :
    velEntry A src P positions velocities (4 * m) =
        (velocityAfter A src P positions velocities m).1 ∧
    velEntry A src P positions velocities (4 * m + 1) =
        (velocityAfter A src P positions velocities m).2.1 ∧
    velEntry A src P positions velocities (4 * m + 2) =
        (velocityAfter A src P positions velocities m).2.2 ∧
    velEntry A src P positions velocities (4 * m + 3) = elem A velocities (4 * m + 3) := by
  have d0 : 4 * m / 4 = m := by omega
  have d1 : (4 * m + 1) / 4 = m := by omega
  have d2 : (4 * m + 2) / 4 = m := by omega
  have r0 : 4 * m % 4 = 0 := by omega
  have r1 : (4 * m + 1) % 4 = 1 := by omega
  have r2 : (4 * m + 2) % 4 = 2 := by omega
  have r3 : (4 * m + 3) % 4 = 3 := by omega
  simp only [velEntry, d0, d1, d2, r0, r1, r2, r3, and_self]

theorem posEntry_eq {F : Type} (A : Arith F) (src : Source) (P : Params F)
    (positions velocities : List F) (m : Nat) :
    posEntry A src P positions velocities (4 * m) =
        (positionAfter A src P positions velocities m).1 ∧
    posEntry A src P positions velocities (4 * m + 1) =
        (positionAfter A src P positions velocities m).2.1 ∧
    posEntry A src P positions velocities (4 * m + 2) =
        (positionAfter A src P positions velocities m).2.2 ∧
    posEntry A src P positions velocities (4 * m + 3) = elem A positions (4 * m + 3) := by
  have d0 : 4 * m / 4 = m := by omega
  have d1 : (4 * m + 1) / 4 = m := by omega
  have d2 : (4 * m + 2) / 4 = m := by omega
  have r0 : 4 * m % 4 = 0 := by omega
  have r1 : (4 * m + 1) % 4 = 1 := by omega
  have r2 : (4 * m + 2) % 4 = 2 := by omega
  have r3 : (4 * m + 3) % 4 = 3 := by omega
  simp only [posEntry, d0, d1, d2, r0, r1, r2, r3, and_self]

/-- Writing three new elements of body `m` advances a partially written buffer, provided
the fourth element of the body is not changed by `new`. -/
theorem partialBuf_set3 {F : Type} (A : Arith F) (n m : Nat) (new : Nat → F) (old : List F)
    (h3 : new (4 * m + 3) = elem A old (4 * m + 3)) :
    (((partialBuf A n m new old).set (4 * m) (new (4 * m))).set (4 * m + 1)
        (new (4 * m + 1))).set (4 * m + 2) (new (4 * m + 2)) =
      partialBuf A n (m + 1) new old := by
  apply List.ext_getElem
  · simp [partialBuf]
  · intro k h1 h2
    have hk : k < 4 * n := by simpa [partialBuf] using h2
    simp only [List.getElem_set, partialBuf, List.getElem_map, List.getElem_range]
    by_cases c2 : 4 * m + 2 = k
    · subst c2
      have : 4 * m + 2 < 4 * (m + 1) := by omega
      simp [this]
    · by_cases c1 : 4 * m + 1 = k
      · subst c1
        have : 4 * m + 1 < 4 * (m + 1) := by omega
        simp [this]
      · by_cases c0 : 4 * m = k
        · subst c0
          have : 4 * m < 4 * (m + 1) := by omega
          simp [this]
        · by_cases c3 : 4 * m + 3 = k
          · subst c3
            have : 4 * m + 3 < 4 * (m + 1) := by omega
            simp [this, h3]
          · simp only [c2, c1, c0, if_false]
            by_cases hlt : k < 4 * m
            · rw [if_pos hlt, if_pos (by omega)]
            · rw [if_neg hlt, if_neg (by omega)]

/-- Writing all four elements of body `m` advances a partially written buffer. -/
theorem partialBuf_set4 {F : Type} (A : Arith F) (n m : Nat) (new : Nat → F) (old : List F) :
    ((((partialBuf A n m new old).set (4 * m) (new (4 * m))).set (4 * m + 1)
        (new (4 * m + 1))).set (4 * m + 2) (new (4 * m + 2))).set (4 * m + 3)
        (new (4 * m + 3)) =
      partialBuf A n (m + 1) new old := by
  apply List.ext_getElem
  · simp [partialBuf]
  · intro k h1 h2
    have hk : k < 4 * n := by simpa [partialBuf] using h2
    simp only [List.getElem_set, partialBuf, List.getElem_map, List.getElem_range]
    by_cases c3 : 4 * m + 3 = k
    · subst c3
      have : 4 * m + 3 < 4 * (m + 1) := by omega
      simp [this]
    · by_cases c2 : 4 * m + 2 = k
      · subst c2
        have : 4 * m + 2 < 4 * (m + 1) := by omega
        simp [this]
      · by_cases c1 : 4 * m + 1 = k
        · subst c1
          have : 4 * m + 1 < 4 * (m + 1) := by omega
          simp [this]
        · by_cases c0 : 4 * m = k
          · subst c0
            have : 4 * m < 4 * (m + 1) := by omega
            simp [this]
          · simp only [c3, c2, c1, c0, if_false]
            by_cases hlt : k < 4 * m
            · rw [if_pos hlt, if_pos (by omega)]
            · rw [if_neg hlt, if_neg (by omega)]

theorem write3_eq {F : Type} (src : Source) (buf : List F) (n i : Nat) (x y z : F)
    (hn : n ≤ maxBodies src) (hlen : buf.length = 4 * n) (hi : i < n) :
    write3 src buf i x y z =
      some (((buf.set (4 * i) x).set (4 * i + 1) y).set (4 * i + 2) z) := by
  have h0 := writeAt_eq src buf n i 0 x hn hlen hi (by omega)
  have h1 := writeAt_eq src (buf.set (4 * i) x) n i 1 y hn (by simp [hlen]) hi (by omega)
  have h2 := writeAt_eq src ((buf.set (4 * i) x).set (4 * i + 1) y) n i 2 z hn
    (by simp [hlen]) hi (by omega)
  simp only [Nat.add_zero] at h0
  simp [write3, h0, h1, h2]

theorem write4_eq {F : Type} (src : Source) (buf : List F) (n i : Nat) (x y z w : F)
    (hn : n ≤ maxBodies src) (hlen : buf.length = 4 * n) (hi : i < n) :
    write4 src buf i x y z w =
      some ((((buf.set (4 * i) x).set (4 * i + 1) y).set (4 * i + 2) z).set (4 * i + 3) w) := by
  have h3 := writeAt_eq src (((buf.set (4 * i) x).set (4 * i + 1) y).set (4 * i + 2) z) n i 3 w
    hn (by simp [hlen]) hi (by omega)
  simp [write4, write3_eq src buf n i x y z hn hlen hi, h3]

theorem xyzAt_partialBuf {F : Type} (A : Arith F) (n m : Nat) (new : Nat → F) (old : List F)
    (hm : m < n) : xyzAt A (partialBuf A n m new old) m = xyzAt A old m := by
  simp only [xyzAt]
  rw [elem_partialBuf A n m new old (4 * m) (by omega),
    elem_partialBuf A n m new old (4 * m + 1) (by omega),
    elem_partialBuf A n m new old (4 * m + 2) (by omega)]
  simp

/-- The body of the loop over `i`, run for body `m` on buffers in which the bodies before `m`
have been written, writes body `m`. -/
theorem bodyUpdate_eq {F : Type} (A : Arith F) (src : Source) (P : Params F)
    (positionsIn velocities positionsOut : List F) (m : Nat)
    (hn : P.numBodies ≤ maxBodies src) (hpin : positionsIn.length = 4 * P.numBodies)
    (hm : m < P.numBodies) :
    bodyUpdate A src P positionsIn
        (partialBuf A P.numBodies m (velEntry A src P positionsIn velocities) velocities,
         partialBuf A P.numBodies m (posEntry A src P positionsIn velocities) positionsOut) m =
      some
        (partialBuf A P.numBodies (m + 1) (velEntry A src P positionsIn velocities) velocities,
         partialBuf A P.numBodies (m + 1) (posEntry A src P positionsIn velocities)
          positionsOut) := by
  obtain ⟨v0, v1, v2, v3⟩ := velEntry_eq A src P positionsIn velocities m
  obtain ⟨p0, p1, p2, p3⟩ := posEntry_eq A src P positionsIn velocities m
  have hw3 := write3_eq src
    (partialBuf A P.numBodies m (velEntry A src P positionsIn velocities) velocities)
    P.numBodies m (velEntry A src P positionsIn velocities (4 * m))
    (velEntry A src P positionsIn velocities (4 * m + 1))
    (velEntry A src P positionsIn velocities (4 * m + 2)) hn (partialBuf_length _ _ _ _ _) hm
  have hw4 := write4_eq src
    (partialBuf A P.numBodies m (posEntry A src P positionsIn velocities) positionsOut)
    P.numBodies m (posEntry A src P positionsIn velocities (4 * m))
    (posEntry A src P positionsIn velocities (4 * m + 1))
    (posEntry A src P positionsIn velocities (4 * m + 2))
    (posEntry A src P positionsIn velocities (4 * m + 3)) hn (partialBuf_length _ _ _ _ _) hm
  rw [partialBuf_set3 A P.numBodies m _ velocities v3] at hw3
  rw [partialBuf_set4 A P.numBodies m _ positionsOut] at hw4
  rw [v0, v1, v2] at hw3
  rw [p0, p1, p2, p3] at hw4
  simp only [bodyUpdate, read4_eq A src positionsIn P.numBodies m hn hpin hm, bodyAt,
    Option.some_bind, forceLoop_eq A src P positionsIn m hn hpin,
    read3_eq A src _ P.numBodies m hn (partialBuf_length _ _ _ _ _) hm,
    xyzAt_partialBuf A P.numBodies m _ velocities hm]
  have e1 : newVelocity A P.delta (xyzAt A velocities m) (force A src P positionsIn m) =
      velocityAfter A src P positionsIn velocities m := rfl
  have e2 : newPosition A P.delta
      (elem A positionsIn (4 * m), elem A positionsIn (4 * m + 1),
        elem A positionsIn (4 * m + 2))
      (velocityAfter A src P positionsIn velocities m) =
      positionAfter A src P positionsIn velocities m := rfl
  rw [e1, e2, hw3]
  simp only [Option.some_bind, hw4]

/-- The loop over the bodies runs to completion and computes the single-step update:
the new velocities and the new positions as functions of the input state alone. -/
theorem bodyLoop_eq {F : Type} (A : Arith F) (src : Source) (P : Params F)
    (positionsIn velocities positionsOut : List F)
    (hn : P.numBodies ≤ maxBodies src) (hpin : positionsIn.length = 4 * P.numBodies)
    (hvel : velocities.length = 4 * P.numBodies)
    (hpout : positionsOut.length = 4 * P.numBodies) :
    bodyLoop A src P positionsIn velocities positionsOut =
      some ((integrate A src P (positionsIn, velocities)).2,
            (integrate A src P (positionsIn, velocities)).1) := by
  have key : ∀ m, m ≤ P.numBodies →
      (List.range m).foldlM (bodyUpdate A src P positionsIn) (velocities, positionsOut) =
        some
          (partialBuf A P.numBodies m (velEntry A src P positionsIn velocities) velocities,
           partialBuf A P.numBodies m (posEntry A src P positionsIn velocities)
            positionsOut) := by
    intro m
    induction m with
    | zero =>
      intro _
      simp [partialBuf_zero A P.numBodies _ velocities hvel,
        partialBuf_zero A P.numBodies _ positionsOut hpout]
    | succ m ih =>
      intro hm
      rw [List.range_succ, List.foldlM_append, ih (by omega)]
      simp [bodyUpdate_eq A src P positionsIn velocities positionsOut m hn hpin (by omega)]
  simp only [bodyLoop, key P.numBodies (le_refl _), partialBuf_full, integrate]

/-! ## The single-step update -/

theorem elem_map_range {F : Type} (A : Arith F) (n : Nat) (f : Nat → F) (k : Nat)
    (hk : k < n) : elem A ((List.range n).map f) k = f k := by
  have h : k < ((List.range n).map f).length := by simp [hk]
  have := elem_eq A ((List.range n).map f) k h
  rw [List.getElem?_eq_getElem h] at this
  rw [← Option.some.inj this]
  simp

theorem integrate_length {F : Type} (A : Arith F) (src : Source) (P : Params F)
    (s : List F × List F) :
    (integrate A src P s).1.length = 4 * P.numBodies ∧
      (integrate A src P s).2.length = 4 * P.numBodies := by
  simp [integrate]

/-- Entry `i` of the single-step update: velocity, position, and the two kept fourth
components. -/
theorem integrate_entry {F : Type} (A : Arith F) (src : Source) (P : Params F)
    (s : List F × List F) (i : Nat) (hi : i < P.numBodies) :
    xyzAt A (integrate A src P s).2 i = velocityAfter A src P s.1 s.2 i ∧
    xyzAt A (integrate A src P s).1 i = positionAfter A src P s.1 s.2 i ∧
    elem A (integrate A src P s).2 (4 * i + 3) = elem A s.2 (4 * i + 3) ∧
    elem A (integrate A src P s).1 (4 * i + 3) = elem A s.1 (4 * i + 3) := by
  obtain ⟨v0, v1, v2, v3⟩ := velEntry_eq A src P s.1 s.2 i
  obtain ⟨p0, p1, p2, p3⟩ := posEntry_eq A src P s.1 s.2 i
  simp only [integrate, xyzAt]
  rw [elem_map_range A _ _ (4 * i) (by omega), elem_map_range A _ _ (4 * i + 1) (by omega),
    elem_map_range A _ _ (4 * i + 2) (by omega), elem_map_range A _ _ (4 * i + 3) (by omega),
    elem_map_range A _ _ (4 * i) (by omega), elem_map_range A _ _ (4 * i + 1) (by omega),
    elem_map_range A _ _ (4 * i + 2) (by omega), elem_map_range A _ _ (4 * i + 3) (by omega),
    v0, v1, v2, v3, p0, p1, p2, p3]
  exact ⟨rfl, rfl, rfl, rfl⟩

/-- One pass of the C++ loop over `itr`: both position vectors end up holding the new
positions. -/
theorem iterationCpp_eq {F : Type} (A : Arith F) (P : Params F) (s : RefState F)
    (hn : P.numBodies ≤ maxBodies .cpp) (h0 : s.positions0.length = 4 * P.numBodies)
    (h1 : s.positions1.length = 4 * P.numBodies)
    (hv : s.velocities.length = 4 * P.numBodies) :
    iterationCpp A P s =
      some { positions0 := (integrate A .cpp P (s.positions0, s.velocities)).1
             positions1 := (integrate A .cpp P (s.positions0, s.velocities)).1
             velocities := (integrate A .cpp P (s.positions0, s.velocities)).2 } := by
  simp [iterationCpp, bodyLoop_eq A .cpp P s.positions0 s.velocities s.positions1 hn h0 hv h1]

/-- One pass of the C loop over `itr`: the pointers are exchanged. -/
theorem iterationC_eq {F : Type} (A : Arith F) (P : Params F) (s : RefStateC F)
    (hn : P.numBodies ≤ maxBodies .c) (h0 : s.positionsIn.length = 4 * P.numBodies)
    (h1 : s.positionsOut.length = 4 * P.numBodies)
    (hv : s.velocities.length = 4 * P.numBodies) :
    iterationC A P s =
      some { positionsIn := (integrate A .c P (s.positionsIn, s.velocities)).1
             positionsOut := s.positionsIn
             velocities := (integrate A .c P (s.positionsIn, s.velocities)).2 } := by
  simp [iterationC, bodyLoop_eq A .c P s.positionsIn s.velocities s.positionsOut hn h0 hv h1]

/-- The C++ loop over `itr` runs to completion; after `k` passes `positions0` and
`velocities` hold the `k`-fold single-step update of the state it started from. -/
theorem iterateCpp_eq {F : Type} (A : Arith F) (P : Params F) (k : Nat) (s : RefState F)
    (hn : P.numBodies ≤ maxBodies .cpp) (h0 : s.positions0.length = 4 * P.numBodies)
    (h1 : s.positions1.length = 4 * P.numBodies)
    (hv : s.velocities.length = 4 * P.numBodies) :
    ∃ s', iterateCpp A P k s = some s' ∧
      (s'.positions0, s'.velocities) = (integrate A .cpp P)^[k] (s.positions0, s.velocities) := by
  induction k generalizing s with
  | zero => exact ⟨s, rfl, rfl⟩
  | succ k ih =>
    obtain ⟨l1, l2⟩ := integrate_length A .cpp P (s.positions0, s.velocities)
    obtain ⟨s', e1, e2⟩ := ih
      { positions0 := (integrate A .cpp P (s.positions0, s.velocities)).1
        positions1 := (integrate A .cpp P (s.positions0, s.velocities)).1
        velocities := (integrate A .cpp P (s.positions0, s.velocities)).2 } l1 l1 l2
    refine ⟨s', ?_, ?_⟩
    · simp only [iterateCpp, iterationCpp_eq A P s hn h0 h1 hv, Option.some_bind]
      exact e1
    · rw [Function.iterate_succ_apply]
      exact e2

/-- The fourth components are kept by any number of single-step updates. -/
theorem iterate_integrate_w {F : Type} (A : Arith F) (src : Source) (P : Params F) (k : Nat)
    (s : List F × List F) (i : Nat) (hi : i < P.numBodies) :
    elem A ((integrate A src P)^[k] s).1 (4 * i + 3) = elem A s.1 (4 * i + 3) := by
  induction k generalizing s with
  | zero => rfl
  | succ k ih =>
    rw [Function.iterate_succ_apply, ih (integrate A src P s)]
    exact (integrate_entry A src P s i hi).2.2.2

/-! ## Claims on the reference integrator -/

theorem foldl_triple {α F : Type} (a b c : F → α → F) (l : List α) (x y z : F) :
    l.foldl (fun f j => (a f.1 j, b f.2.1 j, c f.2.2 j)) (x, y, z) =
      (l.foldl a x, l.foldl b y, l.foldl c z) := by
  induction l generalizing x y z with
  | nil => rfl
  | cons j l ih => simp only [List.foldl_cons, ih]

theorem force_eq_forceSum {F : Type} (A : Arith F) (P : Params F) (positions : List F)
    (i : Nat) :
    force A .c P positions i =
      (forceSum A P positions i 0, forceSum A P positions i 1, forceSum A P positions i 2) := by
  simp only [force, forceSum]
  rw [← foldl_triple]
  rfl

/-- C1. One pass over the bodies (either source text) runs to completion, and for every
body `i` it leaves in `velocities` the old velocity plus force times `delta`, and in
`positionsOut` the old position plus the velocity just stored times `delta`. -/
theorem step_updates_velocity_then_position {F : Type} (A : Arith F) (src : Source)
    (P : Params F) (positionsIn velocities positionsOut : List F)
    (hn : P.numBodies ≤ maxBodies src) (hpin : positionsIn.length = 4 * P.numBodies)
    (hvel : velocities.length = 4 * P.numBodies)
    (hpout : positionsOut.length = 4 * P.numBodies) :
    ∃ vel pos, bodyLoop A src P positionsIn velocities positionsOut = some (vel, pos) ∧
      ∀ i, i < P.numBodies →
        elem A vel (4 * i) =
          A.add (elem A velocities (4 * i)) (A.mul (force A src P positionsIn i).1 P.delta) ∧
        elem A vel (4 * i + 1) =
          A.add (elem A velocities (4 * i + 1))
            (A.mul (force A src P positionsIn i).2.1 P.delta) ∧
        elem A vel (4 * i + 2) =
          A.add (elem A velocities (4 * i + 2))
            (A.mul (force A src P positionsIn i).2.2 P.delta) ∧
        elem A pos (4 * i) =
          A.add (elem A positionsIn (4 * i)) (A.mul (elem A vel (4 * i)) P.delta) ∧
        elem A pos (4 * i + 1) =
          A.add (elem A positionsIn (4 * i + 1)) (A.mul (elem A vel (4 * i + 1)) P.delta) ∧
        elem A pos (4 * i + 2) =
          A.add (elem A positionsIn (4 * i + 2)) (A.mul (elem A vel (4 * i + 2)) P.delta) := by
  refine ⟨_, _, bodyLoop_eq A src P positionsIn velocities positionsOut hn hpin hvel hpout, ?_⟩
  intro i hi
  obtain ⟨hv, hp, _, _⟩ := integrate_entry A src P (positionsIn, velocities) i hi
  simp only [xyzAt, velocityAfter, positionAfter, newVelocity, newPosition, Prod.mk.injEq]
    at hv hp
  obtain ⟨hv0, hv1, hv2⟩ := hv
  obtain ⟨hp0, hp1, hp2⟩ := hp
  rw [hv0, hv1, hv2, hp0, hp1, hp2]
  simp only [xyzAt, and_self]

theorem step_updates_velocity_then_position_witness :
    (demoParams.numBodies ≤ maxBodies .cpp ∧
      demoPositions.length = 4 * demoParams.numBodies ∧
      demoZeros.length = 4 * demoParams.numBodies) ∧
    ∃ vel pos, bodyLoop ieee32 .cpp demoParams demoPositions demoZeros demoZeros =
        some (vel, pos) ∧
      ∀ i, i < demoParams.numBodies →
        elem ieee32 vel (4 * i) =
          ieee32.add (elem ieee32 demoZeros (4 * i))
            (ieee32.mul (force ieee32 .cpp demoParams demoPositions i).1 demoParams.delta) ∧
        elem ieee32 vel (4 * i + 1) =
          ieee32.add (elem ieee32 demoZeros (4 * i + 1))
            (ieee32.mul (force ieee32 .cpp demoParams demoPositions i).2.1 demoParams.delta) ∧
        elem ieee32 vel (4 * i + 2) =
          ieee32.add (elem ieee32 demoZeros (4 * i + 2))
            (ieee32.mul (force ieee32 .cpp demoParams demoPositions i).2.2 demoParams.delta) ∧
        elem ieee32 pos (4 * i) =
          ieee32.add (elem ieee32 demoPositions (4 * i))
            (ieee32.mul (elem ieee32 vel (4 * i)) demoParams.delta) ∧
        elem ieee32 pos (4 * i + 1) =
          ieee32.add (elem ieee32 demoPositions (4 * i + 1))
            (ieee32.mul (elem ieee32 vel (4 * i + 1)) demoParams.delta) ∧
        elem ieee32 pos (4 * i + 2) =
          ieee32.add (elem ieee32 demoPositions (4 * i + 2))
            (ieee32.mul (elem ieee32 vel (4 * i + 2)) demoParams.delta) :=
  ⟨by decide,
    step_updates_velocity_then_position ieee32 .cpp demoParams demoPositions demoZeros demoZeros
      (by decide) (by decide) (by decide) (by decide)⟩

/-- C2. In the C text, for a position buffer of `numBodies` bodies and every body `i`, the
inner loop runs to completion and the force it accumulates is, in each component, the sum
over all `j` from `0` to `numBodies-1` (with `j = i`) of `(w_j / dist_ij^3) * (pos_j - pos_i)`;
this is the force the step uses for body `i`. -/
theorem force_is_sum_over_all_bodies {F : Type} (A : Arith F) (P : Params F)
    (positionsIn : List F) (i : Nat) (hn : P.numBodies ≤ maxBodies .c)
    (hpin : positionsIn.length = 4 * P.numBodies) :
    forceLoop A .c P positionsIn (elem A positionsIn (4 * i)) (elem A positionsIn (4 * i + 1))
        (elem A positionsIn (4 * i + 2)) =
      some (forceSum A P positionsIn i 0, forceSum A P positionsIn i 1,
        forceSum A P positionsIn i 2) ∧
    force A .c P positionsIn i =
      (forceSum A P positionsIn i 0, forceSum A P positionsIn i 1,
        forceSum A P positionsIn i 2) := by
  refine ⟨?_, force_eq_forceSum A P positionsIn i⟩
  rw [forceLoop_eq A .c P positionsIn i hn hpin, force_eq_forceSum]

theorem force_is_sum_over_all_bodies_witness :
    (demoParams.numBodies ≤ maxBodies .c ∧
      demoPositions.length = 4 * demoParams.numBodies) ∧
    (forceLoop ieee32 .c demoParams demoPositions (elem ieee32 demoPositions (4 * 0))
        (elem ieee32 demoPositions (4 * 0 + 1)) (elem ieee32 demoPositions (4 * 0 + 2)) =
      some (forceSum ieee32 demoParams demoPositions 0 0,
        forceSum ieee32 demoParams demoPositions 0 1,
        forceSum ieee32 demoParams demoPositions 0 2) ∧
    force ieee32 .c demoParams demoPositions 0 =
      (forceSum ieee32 demoParams demoPositions 0 0,
        forceSum ieee32 demoParams demoPositions 0 1,
        forceSum ieee32 demoParams demoPositions 0 2)) :=
  ⟨by decide, force_is_sum_over_all_bodies ieee32 demoParams demoPositions 0
    (by decide) (by decide)⟩

/-- The function `runReference` (C++ text) runs to completion and returns the positions of
the iterated single-step update. -/
theorem runReference_eq {F : Type} (A : Arith F) (P : Params F)
    (initialPositions initialVelocities : List F)
    (hn : P.numBodies ≤ maxBodies .cpp)
    (hpos : initialPositions.length = 4 * P.numBodies)
    (hvel : initialVelocities.length = 4 * P.numBodies) :
    runReference A P initialPositions initialVelocities =
      some ((integrate A .cpp P)^[P.iterations] (initialPositions, initialVelocities)).1 := by
  have h30 : (2 : Nat) ^ 30 = 1073741824 := by norm_num
  have h32 : (2 : Nat) ^ 32 = 4294967296 := by norm_num
  have hlt : 4 * P.numBodies < 4294967296 := by
    simp only [maxBodies, h30] at hn
    omega
  have hrep : (List.replicate ((4 * P.numBodies) % 2 ^ 32) A.zero).length =
      4 * P.numBodies := by
    rw [List.length_replicate, h32, Nat.mod_eq_of_lt hlt]
  obtain ⟨s', e1, e2⟩ := iterateCpp_eq A P P.iterations
    { positions0 := initialPositions
      positions1 := List.replicate ((4 * P.numBodies) % 2 ^ 32) A.zero
      velocities := initialVelocities } hn hpos hrep hvel
  simp only [runReference, e1, Option.map_some']
  rw [← e2]

/-- C6. `runReference` (C++ text) runs to completion and returns the positions of the state
obtained from the initial positions and velocities by `iterations` single-step updates; with
zero iterations it returns the initial positions. -/
theorem runReference_is_iterated_step {F : Type} (A : Arith F) (P : Params F)
    (initialPositions initialVelocities : List F)
    (hn : P.numBodies ≤ maxBodies .cpp)
    (hpos : initialPositions.length = 4 * P.numBodies)
    (hvel : initialVelocities.length = 4 * P.numBodies) :
    runReference A P initialPositions initialVelocities =
        some ((integrate A .cpp P)^[P.iterations] (initialPositions, initialVelocities)).1 ∧
    (P.iterations = 0 →
      runReference A P initialPositions initialVelocities = some initialPositions) := by
  have main := runReference_eq A P initialPositions initialVelocities hn hpos hvel
  refine ⟨main, ?_⟩
  intro h0
  rw [main, h0]
  rfl

theorem runReference_is_iterated_step_witness :
    (demoParams.numBodies ≤ maxBodies .cpp ∧
      demoPositions.length = 4 * demoParams.numBodies ∧
      demoZeros.length = 4 * demoParams.numBodies) ∧
    (runReference ieee32 demoParams demoPositions demoZeros =
        some ((integrate ieee32 .cpp demoParams)^[demoParams.iterations]
          (demoPositions, demoZeros)).1 ∧
    (demoParams.iterations = 0 →
      runReference ieee32 demoParams demoPositions demoZeros = some demoPositions)) :=
  ⟨by decide, runReference_is_iterated_step ieee32 demoParams demoPositions demoZeros
    (by decide) (by decide) (by decide)⟩

/-- C8. `runReference` (C++ text) runs to completion, returns `4*numBodies` elements, and
the `w` component of every body in the result is that body's `w` in the initial positions,
for any `delta`, `softening` and number of iterations. -/
theorem runReference_keeps_w {F : Type} (A : Arith F) (P : Params F)
    (initialPositions initialVelocities : List F)
    (hn : P.numBodies ≤ maxBodies .cpp)
    (hpos : initialPositions.length = 4 * P.numBodies)
    (hvel : initialVelocities.length = 4 * P.numBodies) :
    ∃ finalPositions,
      runReference A P initialPositions initialVelocities = some finalPositions ∧
      finalPositions.length = 4 * P.numBodies ∧
      ∀ i, i < P.numBodies →
        elem A finalPositions (4 * i + 3) = elem A initialPositions (4 * i + 3) := by
  refine ⟨_, runReference_eq A P initialPositions initialVelocities hn hpos hvel, ?_, ?_⟩
  · cases hk : P.iterations with
    | zero => exact hpos
    | succ k =>
      rw [Function.iterate_succ_apply']
      exact (integrate_length A .cpp P _).1
  · intro i hi
    exact iterate_integrate_w A .cpp P P.iterations (initialPositions, initialVelocities) i hi

theorem runReference_keeps_w_witness :
    (demoParams.numBodies ≤ maxBodies .cpp ∧
      demoPositions.length = 4 * demoParams.numBodies ∧
      demoZeros.length = 4 * demoParams.numBodies) ∧
    ∃ finalPositions,
      runReference ieee32 demoParams demoPositions demoZeros = some finalPositions ∧
      finalPositions.length = 4 * demoParams.numBodies ∧
      ∀ i, i < demoParams.numBodies →
        elem ieee32 finalPositions (4 * i + 3) = elem ieee32 demoPositions (4 * i + 3) :=
  ⟨by decide, runReference_keeps_w ieee32 demoParams demoPositions demoZeros
    (by decide) (by decide) (by decide)⟩

/-! ## Buffer roles in the simulation loops -/

theorem simulationLoop_roles (k : Nat) (s : LoopState) :
    (simulationLoop k s).d_positionsIn =
        (if k % 2 = 0 then s.d_positionsIn else s.d_positionsOut) ∧
    (simulationLoop k s).d_positionsOut =
        (if k % 2 = 0 then s.d_positionsOut else s.d_positionsIn) := by
  induction k generalizing s with
  | zero => simp [simulationLoop]
  | succ k ih =>
    simp only [simulationLoop]
    obtain ⟨h1, h2⟩ := ih (loopPass s)
    rw [h1, h2]
    simp only [loopPass]
    rcases Nat.mod_two_eq_zero_or_one k with h | h
    · have : (k + 1) % 2 = 1 := by omega
      simp [h, this]
    · have : (k + 1) % 2 = 0 := by omega
      simp [h, this]

theorem indexLoop_roles (k : Nat) (s : IndexState) :
    (indexLoop (List.replicate k false) s).INDEX_IN =
        (if k % 2 = 0 then s.INDEX_IN else s.INDEX_OUT) ∧
    (indexLoop (List.replicate k false) s).INDEX_OUT =
        (if k % 2 = 0 then s.INDEX_OUT else s.INDEX_IN) := by
  induction k generalizing s with
  | zero => simp [indexLoop]
  | succ k ih =>
    simp only [List.replicate_succ, indexLoop, Bool.false_eq_true, if_false]
    obtain ⟨h1, h2⟩ := ih
      { INDEX_IN := s.INDEX_OUT, INDEX_OUT := s.INDEX_IN,
        launches := s.launches ++ [(s.INDEX_IN, s.INDEX_OUT)] }
    rw [h1, h2]
    rcases Nat.mod_two_eq_zero_or_one k with h | h
    · have : (k + 1) % 2 = 1 := by omega
      simp [h, this]
    · have : (k + 1) % 2 = 0 := by omega
      simp [h, this]

/-- C7. After `k` completed passes of the simulation loop the input role is held by
`d_positions0` when `k` is even and by `d_positions1` when `k` is odd, and the output role by
the other buffer; two passes from any state give back the roles it started with; the two
roles are never held by the same buffer.  The same holds for `INDEX_IN` / `INDEX_OUT` of the
VBO program after `k` passes that did not leave the loop. -/
theorem roles_alternate_with_parity (k : Nat) :
    ((simulationLoop k loopInit).d_positionsIn =
        (if k % 2 = 0 then Buffer.d_positions0 else Buffer.d_positions1) ∧
     (simulationLoop k loopInit).d_positionsOut =
        (if k % 2 = 0 then Buffer.d_positions1 else Buffer.d_positions0) ∧
     (simulationLoop k loopInit).d_positionsIn ≠ (simulationLoop k loopInit).d_positionsOut) ∧
    (∀ s : LoopState, (simulationLoop 2 s).d_positionsIn = s.d_positionsIn ∧
      (simulationLoop 2 s).d_positionsOut = s.d_positionsOut) ∧
    ((indexLoop (List.replicate k false) indexInit).INDEX_IN = k % 2 ∧
     (indexLoop (List.replicate k false) indexInit).INDEX_OUT = (k + 1) % 2 ∧
     (indexLoop (List.replicate k false) indexInit).INDEX_IN ≠
       (indexLoop (List.replicate k false) indexInit).INDEX_OUT) ∧
    (∀ s : IndexState, (indexLoop [false, false] s).INDEX_IN = s.INDEX_IN ∧
      (indexLoop [false, false] s).INDEX_OUT = s.INDEX_OUT) := by
  obtain ⟨a1, a2⟩ := simulationLoop_roles k loopInit
  obtain ⟨b1, b2⟩ := indexLoop_roles k indexInit
  refine ⟨⟨a1, a2, ?_⟩, fun s => ⟨rfl, rfl⟩, ⟨?_, ?_, ?_⟩, fun s => ⟨rfl, rfl⟩⟩
  · rw [a1, a2]
    split_ifs <;> simp [loopInit]
  · rw [b1]
    rcases Nat.mod_two_eq_zero_or_one k with h | h <;> simp [h, indexInit]
  · rw [b2]
    rcases Nat.mod_two_eq_zero_or_one k with h | h
    · have : (k + 1) % 2 = 1 := by omega
      simp [h, this, indexInit]
    · have : (k + 1) % 2 = 0 := by omega
      simp [h, this, indexInit]
  · rw [b1, b2]
    split_ifs <;> simp [indexInit]

/-! ## The verification loop -/

theorem verifyBody_eq {F : Type} (A : Arith F) (tolerance : F) (n : Nat)
    (h_positions h_reference : List F) (s : VerifyState F) (i : Nat)
    (hn : n ≤ maxBodies .cpp) (hp : h_positions.length = 4 * n)
    (hr : h_reference.length = 4 * n) (hi : i < n) :
    verifyBody A tolerance h_positions h_reference s i =
      some (record A tolerance s i (distAt A h_positions h_reference i)) := by
  simp [verifyBody, read3_eq A .cpp h_positions n i hn hp hi,
    read3_eq A .cpp h_reference n i hn hr hi, distAt]

theorem loopLines_nil {F : Type} (A : Arith F) (hp hr : List F) :
    loopLines A hp hr [] = [] := by
  simp [loopLines]

/-- The lines after one more failing body. -/
theorem loopLines_snoc {F : Type} (A : Arith F) (hp hr : List F) (L : List Nat) (m : Nat) :
    loopLines A hp hr (L ++ [m]) =
      (if L.length < 8 then
        (if L.length = 0 then loopLines A hp hr L ++ [Line.failed] else loopLines A hp hr L) ++
          [Line.positionError m (distAt A hp hr m)]
       else if L.length = 0 then loopLines A hp hr L ++ [Line.failed]
       else loopLines A hp hr L) := by
  by_cases h8 : L.length < 8
  · rw [if_pos h8]
    have ht : (L ++ [m]).take 8 = L ++ [m] := List.take_of_length_le (by simp; omega)
    have ht' : L.take 8 = L := List.take_of_length_le (by omega)
    cases L with
    | nil => simp [loopLines]
    | cons a L =>
      simp only [loopLines, ht, ht']
      simp
  · rw [if_neg h8]
    have hne : L.length ≠ 0 := by omega
    rw [if_neg hne]
    have ht : (L ++ [m]).take 8 = L.take 8 := by
      rw [List.take_append_of_le_length (by omega)]
    cases L with
    | nil => simp at hne
    | cons a L => simp only [loopLines, ht]; simp

/-- The loop body, run on the state that records the failing bodies `L`. -/
theorem record_eq {F : Type} (A : Arith F) (tolerance : F) (hp hr : List F) (L : List Nat)
    (m : Nat) (hL : L.length + 1 < 2 ^ 32) :
    record A tolerance { errors := L.length, out := loopLines A hp hr L } m (distAt A hp hr m) =
      (if exceeds A tolerance (distAt A hp hr m) then
        { errors := (L ++ [m]).length, out := loopLines A hp hr (L ++ [m]) }
       else { errors := L.length, out := loopLines A hp hr L }) := by
  by_cases hx : exceeds A tolerance (distAt A hp hr m) = true
  · simp only [record, hx, if_true, List.length_append, List.length_singleton,
      Nat.mod_eq_of_lt hL, loopLines_snoc]
  · simp only [record, hx, if_false, Bool.false_eq_true]

/-- The verification loop runs to completion; after the first `m` bodies the counter is the
number of failing bodies among them and the printed lines are the heading and the first
eight items. -/
theorem verifyLoop_eq {F : Type} (A : Arith F) (tolerance : F) (n : Nat)
    (h_positions h_reference : List F) (hn : n ≤ maxBodies .cpp)
    (hp : h_positions.length = 4 * n) (hr : h_reference.length = 4 * n) (m : Nat)
    (hm : m ≤ n) :
    (List.range m).foldlM (verifyBody A tolerance h_positions h_reference)
        { errors := 0, out := [] } =
      some { errors := (failing A tolerance m h_positions h_reference).length
             out := loopLines A h_positions h_reference
              (failing A tolerance m h_positions h_reference) } := by
  induction m with
  | zero => simp [failing, loopLines_nil]
  | succ m ih =>
    have h30 : (2 : Nat) ^ 30 = 1073741824 := by norm_num
    have h32 : (2 : Nat) ^ 32 = 4294967296 := by norm_num
    have hlen : (failing A tolerance m h_positions h_reference).length ≤ m := by
      simpa [failing] using
        List.length_filter_le (fun i => exceeds A tolerance (distAt A h_positions h_reference i))
          (List.range m)
    have hL : (failing A tolerance m h_positions h_reference).length + 1 < 2 ^ 32 := by
      simp only [maxBodies, h30] at hn
      rw [h32]
      omega
    rw [List.range_succ, List.foldlM_append, ih (by omega)]
    simp only [Option.bind_eq_bind, Option.some_bind, Option.pure_def, List.foldlM_cons,
      List.foldlM_nil,
      verifyBody_eq A tolerance n h_positions h_reference _ m hn hp hr (by omega)]
    rw [record_eq A tolerance h_positions h_reference _ m hL]
    have hf : failing A tolerance (m + 1) h_positions h_reference =
        failing A tolerance m h_positions h_reference ++
          (if exceeds A tolerance (distAt A h_positions h_reference m) then [m] else []) := by
      simp only [failing, List.range_succ, List.filter_append, List.filter_cons,
        List.filter_nil]
    rw [hf]
    by_cases hx : exceeds A tolerance (distAt A h_positions h_reference m) = true
    · simp [hx]
    · simp [hx]

theorem itemised_loopLines {F : Type} (A : Arith F) (hp hr : List F) (L : List Nat) :
    itemised (loopLines A hp hr L) = (L.take 8).map fun i => (i, distAt A hp hr i) := by
  have h1 : ∀ M : List Nat,
      itemised (M.map fun i => Line.positionError i (distAt A hp hr i)) =
        M.map fun i => (i, distAt A hp hr i) := by
    intro M
    induction M with
    | nil => rfl
    | cons a M ih =>
      simp only [List.map_cons]
      simp only [itemised, List.filterMap_cons] at ih ⊢
      rw [ih]
  simp only [loopLines]
  cases L with
  | nil => rfl
  | cons a L =>
    have : itemised ([Line.failed] ++ (List.take 8 (a :: L)).map
        fun i => Line.positionError i (distAt A hp hr i)) =
        itemised ((List.take 8 (a :: L)).map
          fun i => Line.positionError i (distAt A hp hr i)) := by
      simp [itemised, List.filterMap_cons]
    simp only [List.isEmpty_cons, Bool.false_eq_true, if_false]
    rw [this, h1]

theorem take_min_length {α : Type} (L : List α) (k : Nat) :
    L.take (min L.length k) = L.take k := by
  by_cases h : L.length ≤ k
  · rw [Nat.min_eq_left h, List.take_length, List.take_of_length_le h]
  · rw [Nat.min_eq_right (by omega)]

theorem mem_failing {F : Type} (A : Arith F) (tolerance : F) (n : Nat) (hp hr : List F)
    (i : Nat) :
    i ∈ failing A tolerance n hp hr ↔ i < n ∧ exceeds A tolerance (distAt A hp hr i) = true := by
  simp [failing]

theorem verify_eq {F : Type} (A : Arith F) (tolerance : F) (n : Nat)
    (h_positions h_reference : List F) (hn : n ≤ maxBodies .cpp)
    (hp : h_positions.length = 4 * n) (hr : h_reference.length = 4 * n) :
    verify A tolerance n h_positions h_reference =
      some
        { errors := (failing A tolerance n h_positions h_reference).length
          out := loopLines A h_positions h_reference
              (failing A tolerance n h_positions h_reference) ++
            [if (failing A tolerance n h_positions h_reference).length ≠ 0 then
              Line.totalErrors (failing A tolerance n h_positions h_reference).length
             else Line.passed] } := by
  simp only [verify, verifyLoop_eq A tolerance n h_positions h_reference hn hp hr n (le_refl n),
    Option.map_some']
  by_cases h : (failing A tolerance n h_positions h_reference).length = 0
  · simp [h]
  · simp [h]

/-- C4. The verification runs to completion; the counter it reports is the number of failing
bodies among all `numBodies` bodies, and the itemised lines are the failing bodies with the
`min(total, 8)` smallest indices, in increasing index order, each with its distance. -/
theorem verify_counts_all_and_itemises_first_eight {F : Type} (A : Arith F) (tolerance : F)
    (numBodies : Nat) (h_positions h_reference : List F) (hn : numBodies ≤ maxBodies .cpp)
    (hp : h_positions.length = 4 * numBodies) (hr : h_reference.length = 4 * numBodies) :
    ∃ s, verify A tolerance numBodies h_positions h_reference = some s ∧
      s.errors = (failing A tolerance numBodies h_positions h_reference).length ∧
      itemised s.out =
        ((failing A tolerance numBodies h_positions h_reference).take (min s.errors 8)).map
          (fun i => (i, distAt A h_positions h_reference i)) ∧
      (∀ i, i ∈ failing A tolerance numBodies h_positions h_reference ↔
        i < numBodies ∧ exceeds A tolerance (distAt A h_positions h_reference i) = true) ∧
      List.Pairwise (fun a b => a < b)
        (failing A tolerance numBodies h_positions h_reference) := by
  refine ⟨_, verify_eq A tolerance numBodies h_positions h_reference hn hp hr, rfl, ?_,
    mem_failing A tolerance numBodies h_positions h_reference, ?_⟩
  · have h : ∀ (l : List (Line F)) (x : Line F), (x = Line.passed ∨ ∃ k, x = Line.totalErrors k) →
        itemised (l ++ [x]) = itemised l := by
      intro l x hx
      rcases hx with hx | ⟨k, hx⟩ <;> subst hx <;> simp [itemised, List.filterMap_append]
    rw [h, itemised_loopLines, take_min_length]
    by_cases h0 : (failing A tolerance numBodies h_positions h_reference).length ≠ 0
    · rw [if_pos h0]; exact Or.inr ⟨_, rfl⟩
    · rw [if_neg h0]; exact Or.inl rfl
  · exact List.Pairwise.filter _ (List.pairwise_lt_range _)

theorem verify_counts_all_and_itemises_first_eight_witness :
    ((1 : Nat) ≤ maxBodies .cpp ∧ nanPositions.length = 4 * 1 ∧
      originPositions.length = 4 * 1) ∧
    ∃ s, verify ieee32 F32.one 1 nanPositions originPositions = some s ∧
      s.errors = (failing ieee32 F32.one 1 nanPositions originPositions).length ∧
      itemised s.out =
        ((failing ieee32 F32.one 1 nanPositions originPositions).take (min s.errors 8)).map
          (fun i => (i, distAt ieee32 nanPositions originPositions i)) ∧
      (∀ i, i ∈ failing ieee32 F32.one 1 nanPositions originPositions ↔
        i < 1 ∧ exceeds ieee32 F32.one (distAt ieee32 nanPositions originPositions i) = true) ∧
      List.Pairwise (fun a b => a < b)
        (failing ieee32 F32.one 1 nanPositions originPositions) :=
  ⟨by decide, verify_counts_all_and_itemises_first_eight ieee32 F32.one 1 nanPositions
    originPositions (by decide) (by decide) (by decide)⟩

/-- C5. The verification runs to completion and prints `Verification passed.` exactly when
no body fails, in which case it prints nothing else; otherwise it prints the heading
`Verification failed:` first and `Total errors:` with the number of failing bodies last. -/
theorem verify_passes_iff_no_errors {F : Type} (A : Arith F) (tolerance : F)
    (numBodies : Nat) (h_positions h_reference : List F) (hn : numBodies ≤ maxBodies .cpp)
    (hp : h_positions.length = 4 * numBodies) (hr : h_reference.length = 4 * numBodies) :
    ∃ s, verify A tolerance numBodies h_positions h_reference = some s ∧
      s.errors = (failing A tolerance numBodies h_positions h_reference).length ∧
      (Line.passed ∈ s.out ↔ s.errors = 0) ∧
      (s.errors = 0 → s.out = [Line.passed]) ∧
      (s.errors ≠ 0 →
        s.out.head? = some Line.failed ∧
        s.out.getLast? = some (Line.totalErrors s.errors)) := by
  refine ⟨_, verify_eq A tolerance numBodies h_positions h_reference hn hp hr, rfl, ?_, ?_, ?_⟩
  · cases hL : failing A tolerance numBodies h_positions h_reference with
    | nil => simp [loopLines]
    | cons a L =>
      have hnot : Line.passed ∉ List.take 7
          (List.map (fun i => Line.positionError i (distAt A h_positions h_reference i)) L) := by
        intro hmem
        have := List.mem_of_mem_take hmem
        simp at this
      simp [loopLines, hnot]
  · intro h0
    have hL : failing A tolerance numBodies h_positions h_reference = [] :=
      List.length_eq_zero.mp h0
    simp [hL, loopLines]
  · intro h0
    cases hL : failing A tolerance numBodies h_positions h_reference with
    | nil => simp [hL] at h0
    | cons a L =>
      refine ⟨by simp [loopLines], ?_⟩
      simp only [List.length_cons, ne_eq, Nat.add_one_ne_zero, not_false_eq_true, if_true]
      exact List.getLast?_concat _

theorem verify_passes_iff_no_errors_witness :
    ((1 : Nat) ≤ maxBodies .cpp ∧ originPositions.length = 4 * 1 ∧
      originPositions.length = 4 * 1) ∧
    ∃ s, verify ieee32 F32.one 1 originPositions originPositions = some s ∧
      s.errors = (failing ieee32 F32.one 1 originPositions originPositions).length ∧
      (Line.passed ∈ s.out ↔ s.errors = 0) ∧
      (s.errors = 0 → s.out = [Line.passed]) ∧
      (s.errors ≠ 0 →
        s.out.head? = some Line.failed ∧
        s.out.getLast? = some (Line.totalErrors s.errors)) :=
  ⟨by decide, verify_passes_iff_no_errors ieee32 F32.one 1 originPositions originPositions
    (by decide) (by decide) (by decide)⟩

/-! ## Facts about binary32 -/

theorem F32.cmpFin_self (s : Bool) (m : Nat) (e : Int) : F32.cmpFin s m e s m e = 0 := by
  simp [F32.cmpFin]

/-- The comparison `x != x` holds exactly for NaN. -/
theorem F32.ne_self_iff (x : F32) : F32.ne x x = true ↔ x = F32.nan := by
  cases x with
  | nan => simp [F32.ne, F32.eq]
  | inf s => simp [F32.ne, F32.eq]
  | fin s m e => simp [F32.ne, F32.eq, F32.cmpFin_self]

theorem exceeds_ieee32_iff (tolerance dist : F32) :
    exceeds ieee32 tolerance dist = true ↔ (F32.gt dist tolerance = true ∨ dist = F32.nan) := by
  simp only [exceeds, ieee32, Bool.or_eq_true, F32.ne_self_iff]

/-- C3. In binary32 arithmetic the test of the verification loop holds for body `i` exactly
when its distance is greater than the tolerance or is NaN, and processing body `i` adds one
to the error counter in exactly that case (and leaves it otherwise).  On computed
`[NaN,0,0,1]`, reference `[0,0,0,1]` and tolerance `1.0` the verification reports one error,
itemised at index 0. -/
theorem error_iff_exceeds_or_nan (tolerance : F32) (numBodies : Nat)
    (h_positions h_reference : List F32) (i : Nat) (hn : numBodies ≤ maxBodies .cpp)
    (hp : h_positions.length = 4 * numBodies) (hr : h_reference.length = 4 * numBodies)
    (hi : i < numBodies) :
    (exceeds ieee32 tolerance (distAt ieee32 h_positions h_reference i) = true ↔
      (F32.gt (distAt ieee32 h_positions h_reference i) tolerance = true ∨
        distAt ieee32 h_positions h_reference i = F32.nan)) ∧
    (∃ s s',
      (List.range i).foldlM (verifyBody ieee32 tolerance h_positions h_reference)
        { errors := 0, out := [] } = some s ∧
      (List.range (i + 1)).foldlM (verifyBody ieee32 tolerance h_positions h_reference)
        { errors := 0, out := [] } = some s' ∧
      s'.errors = s.errors +
        (if F32.gt (distAt ieee32 h_positions h_reference i) tolerance = true ∨
            distAt ieee32 h_positions h_reference i = F32.nan then 1 else 0)) ∧
    verify ieee32 F32.one 1 nanPositions originPositions =
      some { errors := 1
             out := [Line.failed, Line.positionError 0 F32.nan, Line.totalErrors 1] } := by
  refine ⟨exceeds_ieee32_iff _ _, ⟨_, _,
    verifyLoop_eq ieee32 tolerance numBodies h_positions h_reference hn hp hr i (by omega),
    verifyLoop_eq ieee32 tolerance numBodies h_positions h_reference hn hp hr (i + 1)
      (by omega), ?_⟩, by decide⟩
  have hf : failing ieee32 tolerance (i + 1) h_positions h_reference =
      failing ieee32 tolerance i h_positions h_reference ++
        (if exceeds ieee32 tolerance (distAt ieee32 h_positions h_reference i) then [i]
         else []) := by
    simp only [failing, List.range_succ, List.filter_append, List.filter_cons,
      List.filter_nil]
  simp only [hf, List.length_append]
  by_cases hx : exceeds ieee32 tolerance (distAt ieee32 h_positions h_reference i) = true
  · rw [if_pos hx, if_pos ((exceeds_ieee32_iff _ _).mp hx)]
    rfl
  · rw [if_neg hx, if_neg (fun h => hx ((exceeds_ieee32_iff _ _).mpr h))]
    rfl

theorem error_iff_exceeds_or_nan_witness :
    ((1 : Nat) ≤ maxBodies .cpp ∧ nanPositions.length = 4 * 1 ∧
      originPositions.length = 4 * 1 ∧ 0 < 1) ∧
    ((exceeds ieee32 F32.one (distAt ieee32 nanPositions originPositions 0) = true ↔
      (F32.gt (distAt ieee32 nanPositions originPositions 0) F32.one = true ∨
        distAt ieee32 nanPositions originPositions 0 = F32.nan)) ∧
    (∃ s s',
      (List.range 0).foldlM (verifyBody ieee32 F32.one nanPositions originPositions)
        { errors := 0, out := [] } = some s ∧
      (List.range (0 + 1)).foldlM (verifyBody ieee32 F32.one nanPositions originPositions)
        { errors := 0, out := [] } = some s' ∧
      s'.errors = s.errors +
        (if F32.gt (distAt ieee32 nanPositions originPositions 0) F32.one = true ∨
            distAt ieee32 nanPositions originPositions 0 = F32.nan then 1 else 0)) ∧
    verify ieee32 F32.one 1 nanPositions originPositions =
      some { errors := 1
             out := [Line.failed, Line.positionError 0 F32.nan, Line.totalErrors 1] }) :=
  ⟨by decide, error_iff_exceeds_or_nan F32.one 1 nanPositions originPositions 0
    (by decide) (by decide) (by decide) (by decide)⟩

theorem F32.signed_add_not (s : Bool) (m : Nat) : F32.signed s m + F32.signed (!s) m = 0 := by
  cases s <;> simp [F32.signed]

/-- The difference `x - x` is `+0` for every finite `x`. -/
theorem F32.sub_self_fin (s : Bool) (m : Nat) (e : Int) :
    F32.sub (F32.fin s m e) (F32.fin s m e) = F32.zero false := by
  by_cases hm : m = 0
  · subst hm
    simp [F32.sub, F32.neg, F32.add]
  · simp [F32.sub, F32.neg, F32.add, hm, F32.signed_add_not]

theorem F32.sub_self_of_isFinite (x : F32) (hx : F32.isFinite x = true) :
    F32.sub x x = F32.zero false := by
  cases x with
  | nan => simp [F32.isFinite] at hx
  | inf s => simp [F32.isFinite] at hx
  | fin s m e => exact F32.sub_self_fin s m e

/-- The distance the verification computes between a finite point and itself is `+0`. -/
theorem errorDist_self (p : F32 × F32 × F32) (h1 : F32.isFinite p.1 = true)
    (h2 : F32.isFinite p.2.1 = true) (h3 : F32.isFinite p.2.2 = true) :
    errorDist ieee32 p p = F32.zero false := by
  simp only [errorDist, ieee32, F32.sub_self_of_isFinite _ h1, F32.sub_self_of_isFinite _ h2,
    F32.sub_self_of_isFinite _ h3]
  decide

/-- C10, as amended. For any array `X` of `numBodies` bodies whose spatial components are
all finite (neither NaN nor infinite), the verification with computed `X`, reference `X` and
tolerance `0.0` runs to completion, reports zero errors and prints `Verification passed.`. -/
theorem verify_self_passes_when_finite (numBodies : Nat) (X : List F32)
    (hn : numBodies ≤ maxBodies .cpp) (hX : X.length = 4 * numBodies)
    (hfin : ∀ i, i < numBodies →
      F32.isFinite (elem ieee32 X (4 * i)) = true ∧
      F32.isFinite (elem ieee32 X (4 * i + 1)) = true ∧
      F32.isFinite (elem ieee32 X (4 * i + 2)) = true) :
    verify ieee32 (F32.zero false) numBodies X X =
      some { errors := 0, out := [Line.passed] } := by
  have hnone : failing ieee32 (F32.zero false) numBodies X X = [] := by
    simp only [failing, List.filter_eq_nil_iff, List.mem_range]
    intro i hi
    obtain ⟨h1, h2, h3⟩ := hfin i hi
    rw [distAt, errorDist_self (xyzAt ieee32 X i) h1 h2 h3]
    decide
  rw [verify_eq ieee32 (F32.zero false) numBodies X X hn hX hX, hnone]
  rfl

theorem verify_self_passes_when_finite_witness :
    ((1 : Nat) ≤ maxBodies .cpp ∧ originPositions.length = 4 * 1 ∧
      (∀ i, i < 1 →
        F32.isFinite (elem ieee32 originPositions (4 * i)) = true ∧
        F32.isFinite (elem ieee32 originPositions (4 * i + 1)) = true ∧
        F32.isFinite (elem ieee32 originPositions (4 * i + 2)) = true)) ∧
    verify ieee32 (F32.zero false) 1 originPositions originPositions =
      some { errors := 0, out := [Line.passed] } :=
  ⟨by decide, verify_self_passes_when_finite 1 originPositions (by decide) (by decide)
    (by decide)⟩

/-- C10 as stated fails: with `X = [NaN,0,0,1]` the verification of `X` against itself at
tolerance `0.0` reports one error (`NaN - NaN` is NaN, and NaN is counted); so does
`X = [+inf,0,0,1]` (`inf - inf` is NaN). -/
theorem verify_self_fails_on_nan :
    verify ieee32 (F32.zero false) 1 nanPositions nanPositions =
      some { errors := 1
             out := [Line.failed, Line.positionError 0 F32.nan, Line.totalErrors 1] } ∧
    verify ieee32 (F32.zero false) 1
        [F32.inf false, F32.zero false, F32.zero false, F32.one]
        [F32.inf false, F32.zero false, F32.zero false, F32.one] =
      some { errors := 1
             out := [Line.failed, Line.positionError 0 F32.nan, Line.totalErrors 1] } := by
  constructor <;> decide

/-! ## A single body -/

theorem F32.mul_fin_zero (s : Bool) (m : Nat) (e : Int) (t : Bool) :
    F32.mul (F32.fin s m e) (F32.zero t) = F32.zero (xor s t) := by
  simp [F32.mul, F32.zero, F32.round]

theorem F32.mul_zero_fin (t : Bool) (s : Bool) (m : Nat) (e : Int) :
    F32.mul (F32.zero t) (F32.fin s m e) = F32.zero (xor t s) := by
  simp [F32.mul, F32.zero, F32.round]

theorem F32.add_zero_zero (s t : Bool) :
    F32.add (F32.zero s) (F32.zero t) = F32.zero (s && t) := by
  simp [F32.add, F32.zero]

theorem F32.add_fin_zero (s : Bool) (m : Nat) (e : Int) (t : Bool) :
    F32.add (F32.fin s m e) (F32.zero t) =
      if m = 0 then F32.zero (s && t) else F32.fin s m e := by
  by_cases hm : m = 0
  · subst hm
    simp [F32.add, F32.zero]
  · simp [F32.add, F32.zero, hm]

/-- Numbers that are the same up to the sign of a zero compare equal, when finite. -/
theorem F32.eq_of_same (a b : F32) (hb : F32.isFinite b = true) (h : F32.same a b) :
    F32.isFinite a = true ∧ F32.eq a b = true := by
  rcases h with h | ⟨ha, hb0⟩
  · subst h
    refine ⟨hb, ?_⟩
    cases a with
    | nan => simp [F32.isFinite] at hb
    | inf s => simp [F32.isFinite] at hb
    | fin s m e => simp [F32.eq, F32.cmpFin_self]
  · cases a with
    | nan => simp [F32.isZero] at ha
    | inf s => simp [F32.isZero] at ha
    | fin s m e =>
      cases b with
      | nan => simp [F32.isZero] at hb0
      | inf s => simp [F32.isZero] at hb0
      | fin s2 m2 e2 =>
        cases m with
        | succ m => simp [F32.isZero] at ha
        | zero =>
          cases m2 with
          | succ m2 => simp [F32.isZero] at hb0
          | zero => simp [F32.isFinite, F32.eq, F32.cmpFin, F32.signed]

/-- Adding a zero keeps a number the same up to the sign of a zero. -/
theorem F32.same_add_zero (a b : F32) (t : Bool) (hb : F32.isFinite b = true)
    (h : F32.same a b) : F32.same (F32.add a (F32.zero t)) b := by
  have ha := (F32.eq_of_same a b hb h).1
  cases a with
  | nan => simp [F32.isFinite] at ha
  | inf s => simp [F32.isFinite] at ha
  | fin s m e =>
    rw [F32.add_fin_zero]
    by_cases hm : m = 0
    · subst hm
      rw [if_pos rfl]
      rcases h with h | ⟨_, hb0⟩
      · right
        subst h
        exact ⟨rfl, rfl⟩
      · right
        exact ⟨rfl, hb0⟩
    · rw [if_neg hm]
      exact h

/-- The self term adds nothing: with finite coordinates and a finite self coefficient the
contribution of a body to its own force leaves `(+0, +0, +0)` unchanged. -/
theorem interact_self (softening x y z w : F32) (hx : F32.isFinite x = true)
    (hy : F32.isFinite y = true) (hz : F32.isFinite z = true)
    (hc : F32.isFinite (selfCoeff w softening) = true) :
    interact ieee32 .cpp softening x y z (F32.zero false, F32.zero false, F32.zero false)
        (x, y, z, w) =
      (F32.zero false, F32.zero false, F32.zero false) := by
  have h : ∀ c : F32, F32.isFinite c = true →
      F32.add (F32.zero false) (F32.mul c (F32.zero false)) = F32.zero false := by
    intro c hcf
    cases c with
    | nan => simp [F32.isFinite] at hcf
    | inf s => simp [F32.isFinite] at hcf
    | fin s m e => rw [F32.mul_fin_zero, F32.add_zero_zero]; rfl
  simp only [interact, ieee32, F32.sub_self_of_isFinite _ hx, F32.sub_self_of_isFinite _ hy,
    F32.sub_self_of_isFinite _ hz]
  have hc' := h _ hc
  simp only [selfCoeff, ieee32] at hc'
  simp only [hc']

/-- With one body the force is the self term alone. -/
theorem force_single (delta softening : F32) (iterations : Nat) (x y z w : F32)
    (hx : F32.isFinite x = true) (hy : F32.isFinite y = true) (hz : F32.isFinite z = true)
    (hc : F32.isFinite (selfCoeff w softening) = true) :
    force ieee32 .cpp (singleBody delta softening iterations) [x, y, z, w] 0 =
      (F32.zero false, F32.zero false, F32.zero false) := by
  have e : force ieee32 .cpp (singleBody delta softening iterations) [x, y, z, w] 0 =
      interact ieee32 .cpp softening x y z (F32.zero false, F32.zero false, F32.zero false)
        (x, y, z, w) := rfl
  rw [e, interact_self softening x y z w hx hy hz hc]

/-- One single-step update of a single body at rest. -/
theorem integrate_single (delta softening : F32) (iterations : Nat) (x y z w vw : F32)
    (hx : F32.isFinite x = true) (hy : F32.isFinite y = true) (hz : F32.isFinite z = true)
    (hd : F32.isFinite delta = true) (hc : F32.isFinite (selfCoeff w softening) = true) :
    ∃ t, integrate ieee32 .cpp (singleBody delta softening iterations)
        ([x, y, z, w], [F32.zero false, F32.zero false, F32.zero false, vw]) =
      ([F32.add x (F32.zero t), F32.add y (F32.zero t), F32.add z (F32.zero t), w],
       [F32.zero false, F32.zero false, F32.zero false, vw]) := by
  cases delta with
  | nan => simp [F32.isFinite] at hd
  | inf s => simp [F32.isFinite] at hd
  | fin s m e =>
    refine ⟨xor false s, ?_⟩
    have hf := force_single (F32.fin s m e) softening iterations x y z w hx hy hz hc
    have hv : velocityAfter ieee32 .cpp (singleBody (F32.fin s m e) softening iterations)
        [x, y, z, w] [F32.zero false, F32.zero false, F32.zero false, vw] 0 =
        (F32.zero false, F32.zero false, F32.zero false) := by
      simp only [velocityAfter, hf, newVelocity]
      simp only [ieee32, singleBody, xyzAt, elem, F32.mul_zero_fin, F32.add_zero_zero]
      rfl
    have hp : positionAfter ieee32 .cpp (singleBody (F32.fin s m e) softening iterations)
        [x, y, z, w] [F32.zero false, F32.zero false, F32.zero false, vw] 0 =
        (F32.add x (F32.zero (xor false s)), F32.add y (F32.zero (xor false s)),
          F32.add z (F32.zero (xor false s))) := by
      simp only [positionAfter, hv, newPosition]
      simp only [ieee32, singleBody, xyzAt, elem, F32.mul_zero_fin]
      rfl
    have e : integrate ieee32 .cpp (singleBody (F32.fin s m e) softening iterations)
        ([x, y, z, w], [F32.zero false, F32.zero false, F32.zero false, vw]) =
      ([(positionAfter ieee32 .cpp (singleBody (F32.fin s m e) softening iterations)
          [x, y, z, w] [F32.zero false, F32.zero false, F32.zero false, vw] 0).1,
        (positionAfter ieee32 .cpp (singleBody (F32.fin s m e) softening iterations)
          [x, y, z, w] [F32.zero false, F32.zero false, F32.zero false, vw] 0).2.1,
        (positionAfter ieee32 .cpp (singleBody (F32.fin s m e) softening iterations)
          [x, y, z, w] [F32.zero false, F32.zero false, F32.zero false, vw] 0).2.2, w],
       [(velocityAfter ieee32 .cpp (singleBody (F32.fin s m e) softening iterations)
          [x, y, z, w] [F32.zero false, F32.zero false, F32.zero false, vw] 0).1,
        (velocityAfter ieee32 .cpp (singleBody (F32.fin s m e) softening iterations)
          [x, y, z, w] [F32.zero false, F32.zero false, F32.zero false, vw] 0).2.1,
        (velocityAfter ieee32 .cpp (singleBody (F32.fin s m e) softening iterations)
          [x, y, z, w] [F32.zero false, F32.zero false, F32.zero false, vw] 0).2.2, vw]) := rfl
    rw [e, hv, hp]

/-- The state of a single body at rest after `k` single-step updates: the velocity is still
`+0`, the position is the same up to the sign of a zero, and the force there is `+0`. -/
theorem iterate_single (delta softening : F32) (iterations : Nat) (x y z w vw : F32)
    (hx : F32.isFinite x = true) (hy : F32.isFinite y = true) (hz : F32.isFinite z = true)
    (hd : F32.isFinite delta = true) (hc : F32.isFinite (selfCoeff w softening) = true)
    (k : Nat) :
    ∃ x' y' z',
      (integrate ieee32 .cpp (singleBody delta softening iterations))^[k]
          ([x, y, z, w], [F32.zero false, F32.zero false, F32.zero false, vw]) =
        ([x', y', z', w], [F32.zero false, F32.zero false, F32.zero false, vw]) ∧
      F32.same x' x ∧ F32.same y' y ∧ F32.same z' z := by
  induction k with
  | zero => exact ⟨x, y, z, rfl, Or.inl rfl, Or.inl rfl, Or.inl rfl⟩
  | succ k ih =>
    obtain ⟨x', y', z', e, sx, sy, sz⟩ := ih
    obtain ⟨t, ht⟩ := integrate_single delta softening iterations x' y' z' w vw
      (F32.eq_of_same x' x hx sx).1 (F32.eq_of_same y' y hy sy).1 (F32.eq_of_same z' z hz sz).1
      hd hc
    refine ⟨_, _, _, ?_, F32.same_add_zero x' x t hx sx, F32.same_add_zero y' y t hy sy,
      F32.same_add_zero z' z t hz sz⟩
    rw [Function.iterate_succ_apply', e, ht]

/-- C9 as stated fails.  With softening `0` the self term is `(1/0)^3 * 0`, which is NaN: the
force on a single body at the origin is NaN in every component and one step moves the body
to NaN.  The force is also NaN for a body with an infinite coordinate, the new velocity is
NaN for an infinite `delta`, and a moving body whose position overflows has a NaN velocity
after the second step.  A body at `-0` at rest is moved to `+0`. -/
theorem single_body_force_nan_without_softening :
    force ieee32 .cpp (singleBody F32.one (F32.zero false) 1) originPositions 0 =
        (F32.nan, F32.nan, F32.nan) ∧
    runReference ieee32 (singleBody F32.one (F32.zero false) 1) originPositions
        [F32.zero false, F32.zero false, F32.zero false, F32.zero false] =
      some [F32.nan, F32.nan, F32.nan, F32.one] ∧
    force ieee32 .cpp (singleBody F32.one F32.one 1)
        [F32.inf false, F32.zero false, F32.zero false, F32.one] 0 =
      (F32.nan, F32.nan, F32.nan) ∧
    (integrate ieee32 .cpp (singleBody (F32.inf false) F32.one 1)
        (originPositions, [F32.zero false, F32.zero false, F32.zero false, F32.zero false])).2 =
      [F32.nan, F32.nan, F32.nan, F32.zero false] ∧
    ((integrate ieee32 .cpp (singleBody F32.one F32.one 2))^[2]
        ([maxFinite, F32.zero false, F32.zero false, F32.one],
         [maxFinite, F32.zero false, F32.zero false, F32.zero false])).2 =
      [F32.nan, F32.nan, F32.nan, F32.zero false] ∧
    runReference ieee32 (singleBody F32.one F32.one 1)
        [F32.zero true, F32.zero false, F32.zero false, F32.one]
        [F32.zero false, F32.zero false, F32.zero false, F32.zero false] =
      some [F32.zero false, F32.zero false, F32.zero false, F32.one] := by
  refine ⟨by decide, by decide, by decide, ?_, ?_, ?_⟩
  · set_option maxRecDepth 100000 in decide
  · set_option maxRecDepth 100000 in decide
  · set_option maxRecDepth 100000 in decide

/-! ## The two coefficient forms over exact arithmetic -/

theorem coeff_exact {K : Type} [LinearOrderedField K] (sqrt : K → K) (w d : K) :
    coeff (exactArith K sqrt) .cpp w d = coeff (exactArith K sqrt) .c w d := by
  simp only [coeff, exactArith]
  ring

theorem integrate_exact {K : Type} [LinearOrderedField K] (sqrt : K → K) (P : Params K) :
    integrate (exactArith K sqrt) .cpp P = integrate (exactArith K sqrt) .c P := by
  have hi : ∀ s x y z f pj, interact (exactArith K sqrt) .cpp s x y z f pj =
      interact (exactArith K sqrt) .c s x y z f pj := by
    intro s x y z f pj
    simp only [interact, coeff_exact]
  have hf : ∀ pos i, force (exactArith K sqrt) .cpp P pos i =
      force (exactArith K sqrt) .c P pos i := by
    intro pos i
    simp only [force, hi]
  have hv : ∀ pos vel i, velocityAfter (exactArith K sqrt) .cpp P pos vel i =
      velocityAfter (exactArith K sqrt) .c P pos vel i := by
    intro pos vel i
    simp only [velocityAfter, hf]
  have hp : ∀ pos vel i, positionAfter (exactArith K sqrt) .cpp P pos vel i =
      positionAfter (exactArith K sqrt) .c P pos vel i := by
    intro pos vel i
    simp only [positionAfter, hv]
  funext s
  have e1 : posEntry (exactArith K sqrt) .cpp P s.1 s.2 =
      posEntry (exactArith K sqrt) .c P s.1 s.2 := by
    funext k
    simp only [posEntry, hp]
  have e2 : velEntry (exactArith K sqrt) .cpp P s.1 s.2 =
      velEntry (exactArith K sqrt) .c P s.1 s.2 := by
    funext k
    simp only [velEntry, hv]
  simp only [integrate, e1, e2]

/-- The C loop over `itr` runs to completion; after `k` passes `positionsIn` and
`velocities` hold the `k`-fold single-step update of the state it started from. -/
theorem iterateC_eq {F : Type} (A : Arith F) (P : Params F) (k : Nat) (s : RefStateC F)
    (hn : P.numBodies ≤ maxBodies .c) (h0 : s.positionsIn.length = 4 * P.numBodies)
    (h1 : s.positionsOut.length = 4 * P.numBodies)
    (hv : s.velocities.length = 4 * P.numBodies) :
    ∃ s', iterateC A P k s = some s' ∧
      (s'.positionsIn, s'.velocities) = (integrate A .c P)^[k] (s.positionsIn, s.velocities) := by
  induction k generalizing s with
  | zero => exact ⟨s, rfl, rfl⟩
  | succ k ih =>
    obtain ⟨l1, l2⟩ := integrate_length A .c P (s.positionsIn, s.velocities)
    obtain ⟨s', e1, e2⟩ := ih
      { positionsIn := (integrate A .c P (s.positionsIn, s.velocities)).1
        positionsOut := s.positionsIn
        velocities := (integrate A .c P (s.positionsIn, s.velocities)).2 } l1 h0 l2
    refine ⟨s', ?_, ?_⟩
    · simp only [iterateC, iterationC_eq A P s hn h0 h1 hv, Option.some_bind]
      exact e1
    · rw [Function.iterate_succ_apply]
      exact e2

theorem iterate_integrate_length {F : Type} (A : Arith F) (src : Source) (P : Params F)
    (k : Nat) (s : List F × List F) (h1 : s.1.length = 4 * P.numBodies)
    (h2 : s.2.length = 4 * P.numBodies) :
    ((integrate A src P)^[k] s).1.length = 4 * P.numBodies ∧
      ((integrate A src P)^[k] s).2.length = 4 * P.numBodies := by
  cases k with
  | zero => exact ⟨h1, h2⟩
  | succ k =>
    rw [Function.iterate_succ_apply']
    exact integrate_length A src P _

/-- The function `runReference` of the C text runs to completion and returns the positions
of the iterated single-step update. -/
theorem runReferenceC_eq {F : Type} (A : Arith F) (P : Params F)
    (initialPositions initialVelocities scratch : List F)
    (hn : P.numBodies ≤ maxBodies .c)
    (hpos : initialPositions.length = 4 * P.numBodies)
    (hvel : initialVelocities.length = 4 * P.numBodies)
    (hscr : scratch.length = 4 * P.numBodies) :
    runReferenceC A P initialPositions initialVelocities scratch =
      some ((integrate A .c P)^[P.iterations] (initialPositions, initialVelocities)).1 := by
  have h29 : (2 : Nat) ^ 29 = 536870912 := by norm_num
  have h32 : (2 : Nat) ^ 32 = 4294967296 := by norm_num
  have hn4 : (P.numBodies * 4) % 2 ^ 32 = 4 * P.numBodies := by
    simp only [maxBodies, h29] at hn
    rw [h32]
    omega
  have ht1 : initialPositions.take (4 * P.numBodies) = initialPositions :=
    List.take_of_length_le (by omega)
  have ht2 : initialVelocities.take (4 * P.numBodies) = initialVelocities :=
    List.take_of_length_le (by omega)
  obtain ⟨s', e1, e2⟩ := iterateC_eq A P P.iterations
    { positionsIn := initialPositions, positionsOut := scratch,
      velocities := initialVelocities } hn hpos hscr hvel
  have hl := (iterate_integrate_length A .c P P.iterations
    (initialPositions, initialVelocities) hpos hvel).1
  have e3 : s'.positionsIn =
      ((integrate A .c P)^[P.iterations] (initialPositions, initialVelocities)).1 := by
    rw [← e2]
  simp only [runReferenceC, hn4, hpos, hvel, hscr, le_refl, and_self, if_true, ht1, ht2, e1,
    Option.map_some']
  rw [e3, List.take_of_length_le (by omega)]

theorem maxBodies_c_le_cpp : maxBodies .c ≤ maxBodies .cpp := by
  decide

/-- C13. Over exact arithmetic the two coefficient forms are equal, so the C++ loop (with
`jw * (1/dist)^3`) and the C loop (with `jw / (dist*dist*dist)`) both run to completion and
hold identical positions and velocities after every number of passes, and the two functions
`runReference` return the same positions. -/
theorem coefficient_forms_agree_over_exact_arithmetic {K : Type} [LinearOrderedField K]
    (sqrt : K → K) (P : Params K) (positions velocities scratch : List K)
    (hn : P.numBodies ≤ maxBodies .c) (hpos : positions.length = 4 * P.numBodies)
    (hvel : velocities.length = 4 * P.numBodies)
    (hscr : scratch.length = 4 * P.numBodies) :
    (∀ w d : K, coeff (exactArith K sqrt) .cpp w d = w / (d * d * d) ∧
      coeff (exactArith K sqrt) .c w d = w / (d * d * d)) ∧
    (∀ k, ∃ s sC,
      iterateCpp (exactArith K sqrt) P k
          { positions0 := positions
            positions1 := List.replicate ((4 * P.numBodies) % 2 ^ 32) (exactArith K sqrt).zero
            velocities := velocities } = some s ∧
      iterateC (exactArith K sqrt) P k
          { positionsIn := positions, positionsOut := scratch, velocities := velocities } =
        some sC ∧
      s.positions0 = sC.positionsIn ∧ s.velocities = sC.velocities) ∧
    (∃ final, runReference (exactArith K sqrt) P positions velocities = some final ∧
      runReferenceC (exactArith K sqrt) P positions velocities scratch = some final) := by
  have hn' : P.numBodies ≤ maxBodies .cpp := le_trans hn maxBodies_c_le_cpp
  have h30 : (2 : Nat) ^ 30 = 1073741824 := by norm_num
  have h32 : (2 : Nat) ^ 32 = 4294967296 := by norm_num
  have hrep : (List.replicate ((4 * P.numBodies) % 2 ^ 32) (exactArith K sqrt).zero).length =
      4 * P.numBodies := by
    simp only [maxBodies, h30] at hn'
    rw [List.length_replicate, h32]
    omega
  refine ⟨?_, ?_, ?_⟩
  · intro w d
    constructor
    · rw [coeff_exact]; rfl
    · rfl
  · intro k
    obtain ⟨s, e1, e2⟩ := iterateCpp_eq (exactArith K sqrt) P k
      { positions0 := positions
        positions1 := List.replicate ((4 * P.numBodies) % 2 ^ 32) (exactArith K sqrt).zero
        velocities := velocities } hn' hpos hrep hvel
    obtain ⟨sC, c1, c2⟩ := iterateC_eq (exactArith K sqrt) P k
      { positionsIn := positions, positionsOut := scratch, velocities := velocities }
      hn hpos hscr hvel
    refine ⟨s, sC, e1, c1, ?_⟩
    rw [integrate_exact] at e2
    have h := e2.trans c2.symm
    exact ⟨congrArg Prod.fst h, congrArg Prod.snd h⟩
  · refine ⟨_, runReference_eq (exactArith K sqrt) P positions velocities hn' hpos hvel, ?_⟩
    rw [runReferenceC_eq (exactArith K sqrt) P positions velocities scratch hn hpos hvel hscr,
      integrate_exact]

theorem coefficient_forms_agree_over_exact_arithmetic_witness :
    (demoParamsQ.numBodies ≤ maxBodies .c ∧ demoPositionsQ.length = 4 * demoParamsQ.numBodies ∧
      demoZerosQ.length = 4 * demoParamsQ.numBodies) ∧
    ((∀ w d : ℚ, coeff (exactArith ℚ ratSqrt) .cpp w d = w / (d * d * d) ∧
      coeff (exactArith ℚ ratSqrt) .c w d = w / (d * d * d)) ∧
    (∀ k, ∃ s sC,
      iterateCpp (exactArith ℚ ratSqrt) demoParamsQ k
          { positions0 := demoPositionsQ
            positions1 := List.replicate ((4 * demoParamsQ.numBodies) % 2 ^ 32)
              (exactArith ℚ ratSqrt).zero
            velocities := demoZerosQ } = some s ∧
      iterateC (exactArith ℚ ratSqrt) demoParamsQ k
          { positionsIn := demoPositionsQ, positionsOut := demoZerosQ,
            velocities := demoZerosQ } = some sC ∧
      s.positions0 = sC.positionsIn ∧ s.velocities = sC.velocities) ∧
    (∃ final, runReference (exactArith ℚ ratSqrt) demoParamsQ demoPositionsQ demoZerosQ =
        some final ∧
      runReferenceC (exactArith ℚ ratSqrt) demoParamsQ demoPositionsQ demoZerosQ demoZerosQ =
        some final)) :=
  ⟨by decide, coefficient_forms_agree_over_exact_arithmetic ratSqrt demoParamsQ demoPositionsQ
    demoZerosQ demoZerosQ (by decide) (by decide) (by decide) (by decide)⟩

/-! ## Two bodies over exact arithmetic -/

/-- Over exact arithmetic, the positions of two bodies of equal weight `w`, at rest, after
one single-step update of the C text: each body has moved by `k` times the connecting
vector, in opposite directions. -/
theorem positionAfter_two_exact {K : Type} [LinearOrderedField K] (sqrt : K → K)
    (delta softening : K) (iterations : Nat) (x0 y0 z0 x1 y1 z1 w vw0 vw1 k : K)
    (hk : k = w / (sqrt ((x1 - x0) * (x1 - x0) + (y1 - y0) * (y1 - y0) +
          (z1 - z0) * (z1 - z0) + softening * softening) *
        sqrt ((x1 - x0) * (x1 - x0) + (y1 - y0) * (y1 - y0) +
          (z1 - z0) * (z1 - z0) + softening * softening) *
        sqrt ((x1 - x0) * (x1 - x0) + (y1 - y0) * (y1 - y0) +
          (z1 - z0) * (z1 - z0) + softening * softening)) * delta * delta) :
    positionAfter (exactArith K sqrt) .c (twoBodies delta softening iterations)
        [x0, y0, z0, w, x1, y1, z1, w] [0, 0, 0, vw0, 0, 0, 0, vw1] 0 =
      (x0 + k * (x1 - x0), y0 + k * (y1 - y0), z0 + k * (z1 - z0)) ∧
    positionAfter (exactArith K sqrt) .c (twoBodies delta softening iterations)
        [x0, y0, z0, w, x1, y1, z1, w] [0, 0, 0, vw0, 0, 0, 0, vw1] 1 =
      (x1 - k * (x1 - x0), y1 - k * (y1 - y0), z1 - k * (z1 - z0)) := by
  have hr2 : List.range 2 = [0, 1] := by decide
  have hd : sqrt ((x0 - x1) * (x0 - x1) + (y0 - y1) * (y0 - y1) + (z0 - z1) * (z0 - z1) +
      softening * softening) =
      sqrt ((x1 - x0) * (x1 - x0) + (y1 - y0) * (y1 - y0) + (z1 - z0) * (z1 - z0) +
      softening * softening) := congrArg sqrt (by ring)
  have p0 : elem (exactArith K sqrt) [x0, y0, z0, w, x1, y1, z1, w] (4 * 0) = x0 := rfl
  have p1 : elem (exactArith K sqrt) [x0, y0, z0, w, x1, y1, z1, w] (4 * 0 + 1) = y0 := rfl
  have p2 : elem (exactArith K sqrt) [x0, y0, z0, w, x1, y1, z1, w] (4 * 0 + 2) = z0 := rfl
  have p3 : elem (exactArith K sqrt) [x0, y0, z0, w, x1, y1, z1, w] (4 * 0 + 3) = w := rfl
  have p4 : elem (exactArith K sqrt) [x0, y0, z0, w, x1, y1, z1, w] (4 * 1) = x1 := rfl
  have p5 : elem (exactArith K sqrt) [x0, y0, z0, w, x1, y1, z1, w] (4 * 1 + 1) = y1 := rfl
  have p6 : elem (exactArith K sqrt) [x0, y0, z0, w, x1, y1, z1, w] (4 * 1 + 2) = z1 := rfl
  have p7 : elem (exactArith K sqrt) [x0, y0, z0, w, x1, y1, z1, w] (4 * 1 + 3) = w := rfl
  have v0 : elem (exactArith K sqrt) [0, 0, 0, vw0, 0, 0, 0, vw1] (4 * 0) = 0 := rfl
  have v1 : elem (exactArith K sqrt) [0, 0, 0, vw0, 0, 0, 0, vw1] (4 * 0 + 1) = 0 := rfl
  have v2 : elem (exactArith K sqrt) [0, 0, 0, vw0, 0, 0, 0, vw1] (4 * 0 + 2) = 0 := rfl
  have v4 : elem (exactArith K sqrt) [0, 0, 0, vw0, 0, 0, 0, vw1] (4 * 1) = 0 := rfl
  have v5 : elem (exactArith K sqrt) [0, 0, 0, vw0, 0, 0, 0, vw1] (4 * 1 + 1) = 0 := rfl
  have v6 : elem (exactArith K sqrt) [0, 0, 0, vw0, 0, 0, 0, vw1] (4 * 1 + 2) = 0 := rfl
  constructor
  · simp only [positionAfter, velocityAfter, newPosition, newVelocity, force, twoBodies, hr2,
      List.foldl_cons, List.foldl_nil, interact, bodyAt, xyzAt, p0, p1, p2, p3, p4, p5, p6, p7,
      v0, v1, v2, softDist, coeff]
    simp only [exactArith, Prod.mk.injEq, hk]
    refine ⟨?_, ?_, ?_⟩ <;> ring
  · simp only [positionAfter, velocityAfter, newPosition, newVelocity, force, twoBodies, hr2,
      List.foldl_cons, List.foldl_nil, interact, bodyAt, xyzAt, p0, p1, p2, p3, p4, p5, p6, p7,
      v4, v5, v6, softDist, coeff]
    simp only [exactArith, Prod.mk.injEq, hk, hd]
    refine ⟨?_, ?_, ?_⟩ <;> ring

/-- C11, as amended. Over exact arithmetic (an ordered field with a square root that is
non-zero on positive numbers), for two bodies of equal weight `w` at rest, any `delta` and any
non-zero softening: the softened distances are non-zero, the first pass of the C text runs to
completion, and it moves body 0 by `k` times the vector from body 0 to body 1 and body 1 by
`-k` times that vector, where `k = w / dist^3 * delta * delta`; `w` is kept. -/
theorem two_bodies_move_along_connecting_line {K : Type} [LinearOrderedField K]
    (sqrt : K → K) (delta softening : K) (iterations : Nat)
    (x0 y0 z0 x1 y1 z1 w vw0 vw1 : K) (scratch : List K) (hscr : scratch.length = 8)
    (hs : softening ≠ 0) (hsqrt : ∀ x : K, 0 < x → sqrt x ≠ 0) :
    sqrt ((x1 - x0) * (x1 - x0) + (y1 - y0) * (y1 - y0) + (z1 - z0) * (z1 - z0) +
        softening * softening) ≠ 0 ∧
    sqrt ((x0 - x0) * (x0 - x0) + (y0 - y0) * (y0 - y0) + (z0 - z0) * (z0 - z0) +
        softening * softening) ≠ 0 ∧
    ∃ k vel pos,
      k = w / (sqrt ((x1 - x0) * (x1 - x0) + (y1 - y0) * (y1 - y0) +
            (z1 - z0) * (z1 - z0) + softening * softening) *
          sqrt ((x1 - x0) * (x1 - x0) + (y1 - y0) * (y1 - y0) +
            (z1 - z0) * (z1 - z0) + softening * softening) *
          sqrt ((x1 - x0) * (x1 - x0) + (y1 - y0) * (y1 - y0) +
            (z1 - z0) * (z1 - z0) + softening * softening)) * delta * delta ∧
      bodyLoop (exactArith K sqrt) .c (twoBodies delta softening iterations)
          [x0, y0, z0, w, x1, y1, z1, w] [0, 0, 0, vw0, 0, 0, 0, vw1] scratch =
        some (vel, pos) ∧
      pos = [x0 + k * (x1 - x0), y0 + k * (y1 - y0), z0 + k * (z1 - z0), w,
             x1 + -k * (x1 - x0), y1 + -k * (y1 - y0), z1 + -k * (z1 - z0), w] := by
  have hpos : ∀ a b c : K, 0 < a * a + b * b + c * c + softening * softening := by
    intro a b c
    have h1 := mul_self_nonneg a
    have h2 := mul_self_nonneg b
    have h3 := mul_self_nonneg c
    have h4 := mul_self_pos.mpr hs
    linarith
  obtain ⟨k, hk⟩ : ∃ k : K, k = w / (sqrt ((x1 - x0) * (x1 - x0) + (y1 - y0) * (y1 - y0) +
            (z1 - z0) * (z1 - z0) + softening * softening) *
          sqrt ((x1 - x0) * (x1 - x0) + (y1 - y0) * (y1 - y0) +
            (z1 - z0) * (z1 - z0) + softening * softening) *
          sqrt ((x1 - x0) * (x1 - x0) + (y1 - y0) * (y1 - y0) +
            (z1 - z0) * (z1 - z0) + softening * softening)) * delta * delta := ⟨_, rfl⟩
  refine ⟨hsqrt _ (hpos _ _ _), hsqrt _ (hpos _ _ _), k,
    (integrate (exactArith K sqrt) .c (twoBodies delta softening iterations)
      ([x0, y0, z0, w, x1, y1, z1, w], [0, 0, 0, vw0, 0, 0, 0, vw1])).2,
    (integrate (exactArith K sqrt) .c (twoBodies delta softening iterations)
      ([x0, y0, z0, w, x1, y1, z1, w], [0, 0, 0, vw0, 0, 0, 0, vw1])).1, hk, ?_, ?_⟩
  · exact bodyLoop_eq (exactArith K sqrt) .c (twoBodies delta softening iterations)
      [x0, y0, z0, w, x1, y1, z1, w] [0, 0, 0, vw0, 0, 0, 0, vw1] scratch
      (show (2 : Nat) ≤ maxBodies .c by decide) rfl rfl hscr
  · obtain ⟨h0, h1⟩ := positionAfter_two_exact sqrt delta softening iterations
      x0 y0 z0 x1 y1 z1 w vw0 vw1 k hk
    have e : (integrate (exactArith K sqrt) .c (twoBodies delta softening iterations)
        ([x0, y0, z0, w, x1, y1, z1, w], [0, 0, 0, vw0, 0, 0, 0, vw1])).1 =
      [(positionAfter (exactArith K sqrt) .c (twoBodies delta softening iterations)
          [x0, y0, z0, w, x1, y1, z1, w] [0, 0, 0, vw0, 0, 0, 0, vw1] 0).1,
       (positionAfter (exactArith K sqrt) .c (twoBodies delta softening iterations)
          [x0, y0, z0, w, x1, y1, z1, w] [0, 0, 0, vw0, 0, 0, 0, vw1] 0).2.1,
       (positionAfter (exactArith K sqrt) .c (twoBodies delta softening iterations)
          [x0, y0, z0, w, x1, y1, z1, w] [0, 0, 0, vw0, 0, 0, 0, vw1] 0).2.2, w,
       (positionAfter (exactArith K sqrt) .c (twoBodies delta softening iterations)
          [x0, y0, z0, w, x1, y1, z1, w] [0, 0, 0, vw0, 0, 0, 0, vw1] 1).1,
       (positionAfter (exactArith K sqrt) .c (twoBodies delta softening iterations)
          [x0, y0, z0, w, x1, y1, z1, w] [0, 0, 0, vw0, 0, 0, 0, vw1] 1).2.1,
       (positionAfter (exactArith K sqrt) .c (twoBodies delta softening iterations)
          [x0, y0, z0, w, x1, y1, z1, w] [0, 0, 0, vw0, 0, 0, 0, vw1] 1).2.2, w] := rfl
    rw [e, h0, h1]
    simp only [sub_eq_add_neg, neg_mul]

theorem two_bodies_move_along_connecting_line_witness :
    ((List.replicate 8 (0 : ℝ)).length = 8 ∧ (1 : ℝ) ≠ 0 ∧
      (∀ x : ℝ, 0 < x → Real.sqrt x ≠ 0)) ∧
    (Real.sqrt ((1 - 0) * (1 - 0) + (3 - 0) * (3 - 0) + (0 - 0) * (0 - 0) + 1 * 1) ≠ 0 ∧
    Real.sqrt ((0 - 0) * (0 - 0) + (0 - 0) * (0 - 0) + (0 - 0) * (0 - 0) + 1 * 1) ≠ 0 ∧
    ∃ k vel pos,
      k = 1 / (Real.sqrt ((1 - 0) * (1 - 0) + (3 - 0) * (3 - 0) +
            (0 - 0) * (0 - 0) + 1 * 1) *
          Real.sqrt ((1 - 0) * (1 - 0) + (3 - 0) * (3 - 0) +
            (0 - 0) * (0 - 0) + 1 * 1) *
          Real.sqrt ((1 - 0) * (1 - 0) + (3 - 0) * (3 - 0) +
            (0 - 0) * (0 - 0) + 1 * 1)) * 1 * 1 ∧
      bodyLoop (exactArith ℝ Real.sqrt) .c (twoBodies 1 1 1)
          [0, 0, 0, 1, 1, 3, 0, 1] [0, 0, 0, 0, 0, 0, 0, 0] (List.replicate 8 (0 : ℝ)) =
        some (vel, pos) ∧
      pos = [0 + k * (1 - 0), 0 + k * (3 - 0), 0 + k * (0 - 0), 1,
             1 + -k * (1 - 0), 3 + -k * (3 - 0), 0 + -k * (0 - 0), 1]) :=
  ⟨⟨rfl, one_ne_zero, fun _ hx => (Real.sqrt_pos.mpr hx).ne'⟩,
    two_bodies_move_along_connecting_line Real.sqrt 1 1 1 0 0 0 1 3 0 1 0 0
      (List.replicate 8 (0 : ℝ)) rfl one_ne_zero (fun _ hx => (Real.sqrt_pos.mpr hx).ne')⟩

theorem F32.eq_nan_right (x : F32) : F32.eq x F32.nan = false := by
  cases x <;> rfl

/-- C11 as stated fails in binary32.  With softening `0` the self term is `(1/0) * 0`, which
is NaN: after the first pass of the C text both bodies are at NaN, and no scalar multiple of
the connecting vector compares equal to a NaN displacement.  With softening `1` and bodies at
the origin and at `(1, 3, 0)` the rounded update moves body 1 by `(-459866, -1379596, 0)`
units of `2^-24`, which is not a multiple of `(1, 3, 0)`. -/
theorem two_bodies_leave_connecting_line_in_binary32 :
    bodyLoop ieee32 .c (twoBodies F32.one (F32.zero false) 1) demoPositions demoZeros
        demoZeros =
      some ([F32.nan, F32.nan, F32.nan, F32.zero false,
             F32.nan, F32.nan, F32.nan, F32.zero false],
            [F32.nan, F32.nan, F32.nan, F32.one, F32.nan, F32.nan, F32.nan, F32.one]) ∧
    (∀ k : F32, F32.eq (F32.mul k (F32.sub F32.one (F32.zero false)))
      (F32.sub F32.nan (F32.zero false)) = false) ∧
    (bodyLoop ieee32 .c (twoBodies F32.one F32.one 1) skewPositions demoZeros demoZeros).map
        (fun r => r.2) =
      some [F32.fin false 14715696 (-29), F32.fin false 11036772 (-27), F32.zero false,
            F32.one,
            F32.fin false 16317350 (-24), F32.fin false 12238013 (-22), F32.zero false,
            F32.one] ∧
    (∀ k : ℚ, ¬ (k * (F32.toRat F32.one - F32.toRat (F32.zero false)) =
          F32.toRat (F32.fin false 16317350 (-24)) - F32.toRat F32.one ∧
        k * (F32.toRat F32.three - F32.toRat (F32.zero false)) =
          F32.toRat (F32.fin false 12238013 (-22)) - F32.toRat F32.three)) := by
  refine ⟨?_, ?_, ?_, ?_⟩
  · set_option maxRecDepth 100000 in decide
  · intro k
    exact F32.eq_nan_right _
  · set_option maxRecDepth 100000 in decide
  · rintro k ⟨h1, h2⟩
    norm_num [F32.toRat, F32.one, F32.zero, F32.three] at h1 h2
    linarith

/-! ## Symmetry of the pair distance and of the pair force in binary32 -/

theorem F32.signed_not (s : Bool) (m : Nat) : F32.signed (!s) m = -F32.signed s m := by
  cases s <;> simp [F32.signed]

theorem F32.round_not (s : Bool) (m : Nat) (e : Int) :
    F32.round (!s) m e = F32.neg (F32.round s m e) := by
  have h1 : ∀ t m' e', F32.neg (F32.fin t m' e') = F32.fin (!t) m' e' := fun _ _ _ => rfl
  have h2 : ∀ t, F32.neg (F32.inf t) = F32.inf (!t) := fun _ => rfl
  simp only [F32.round, F32.zero, apply_ite F32.neg, h1, h2]

theorem F32.neg_neg (x : F32) : F32.neg (F32.neg x) = x := by
  cases x <;> simp [F32.neg]

theorem F32.mul_neg_right (c x : F32) : F32.mul c (F32.neg x) = F32.neg (F32.mul c x) := by
  cases c with
  | nan => cases x <;> rfl
  | inf a =>
    cases x with
    | nan => rfl
    | inf b =>
      show F32.inf (xor a (!b)) = F32.inf (!(xor a b))
      cases a <;> cases b <;> rfl
    | fin s m e =>
      show (if m = 0 then F32.nan else F32.inf (xor a (!s))) =
        F32.neg (if m = 0 then F32.nan else F32.inf (xor a s))
      by_cases hm : m = 0
      · rw [if_pos hm, if_pos hm]; rfl
      · rw [if_neg hm, if_neg hm]
        cases a <;> cases s <;> rfl
  | fin s1 m1 e1 =>
    cases x with
    | nan => rfl
    | inf b =>
      show (if m1 = 0 then F32.nan else F32.inf (xor s1 (!b))) =
        F32.neg (if m1 = 0 then F32.nan else F32.inf (xor s1 b))
      by_cases hm : m1 = 0
      · rw [if_pos hm, if_pos hm]; rfl
      · rw [if_neg hm, if_neg hm]
        cases s1 <;> cases b <;> rfl
    | fin s2 m2 e2 =>
      show F32.round (xor s1 (!s2)) (m1 * m2) (e1 + e2) =
        F32.neg (F32.round (xor s1 s2) (m1 * m2) (e1 + e2))
      rw [← F32.round_not]
      cases s1 <;> cases s2 <;> rfl

theorem F32.mul_neg_neg (x : F32) : F32.mul (F32.neg x) (F32.neg x) = F32.mul x x := by
  cases x with
  | nan => rfl
  | inf s => cases s <;> rfl
  | fin s m e =>
    show F32.round (xor (!s) (!s)) (m * m) (e + e) = F32.round (xor s s) (m * m) (e + e)
    cases s <;> rfl

theorem F32.mul_self_of_isZero (z : F32) (h : F32.isZero z = true) :
    F32.mul z z = F32.zero false := by
  cases z with
  | nan => simp [F32.isZero] at h
  | inf s => simp [F32.isZero] at h
  | fin s m e =>
    cases m with
    | zero => simp [F32.mul, F32.round]
    | succ m => simp [F32.isZero] at h

theorem F32.add_fin_fin (s1 : Bool) (m1 : Nat) (e1 : Int) (s2 : Bool) (m2 : Nat) (e2 : Int) :
    F32.add (F32.fin s1 m1 e1) (F32.fin s2 m2 e2) =
      if m1 = 0 ∧ m2 = 0 then F32.zero (s1 && s2)
      else if m2 = 0 then F32.fin s1 m1 e1
      else if m1 = 0 then F32.fin s2 m2 e2
      else
        if F32.signed s1 (m1 * 2 ^ (e1 - min e1 e2).toNat) +
            F32.signed s2 (m2 * 2 ^ (e2 - min e1 e2).toNat) = 0 then F32.zero false
        else F32.round
          (decide (F32.signed s1 (m1 * 2 ^ (e1 - min e1 e2).toNat) +
            F32.signed s2 (m2 * 2 ^ (e2 - min e1 e2).toNat) < 0))
          (F32.signed s1 (m1 * 2 ^ (e1 - min e1 e2).toNat) +
            F32.signed s2 (m2 * 2 ^ (e2 - min e1 e2).toNat)).natAbs (min e1 e2) := rfl

theorem F32.add_nan_right (b : F32) : F32.add b F32.nan = F32.nan := by
  cases b <;> rfl

/-- Swapping the operands of a subtraction negates the result, except that a zero result is
`+0` both ways. -/
theorem F32.sub_swap (a b : F32) :
    F32.sub b a = F32.neg (F32.sub a b) ∨
      (F32.isZero (F32.sub a b) = true ∧ F32.isZero (F32.sub b a) = true) := by
  cases a with
  | nan => left; cases b <;> rfl
  | inf a' =>
    cases b with
    | nan => left; rfl
    | inf b' => left; cases a' <;> cases b' <;> rfl
    | fin s m e => left; rfl
  | fin s1 m1 e1 =>
    cases b with
    | nan => left; rfl
    | inf b' => left; cases b' <;> rfl
    | fin s2 m2 e2 =>
      show F32.add (F32.fin s2 m2 e2) (F32.fin (!s1) m1 e1) =
          F32.neg (F32.add (F32.fin s1 m1 e1) (F32.fin (!s2) m2 e2)) ∨
        (F32.isZero (F32.add (F32.fin s1 m1 e1) (F32.fin (!s2) m2 e2)) = true ∧
          F32.isZero (F32.add (F32.fin s2 m2 e2) (F32.fin (!s1) m1 e1)) = true)
      rw [F32.add_fin_fin, F32.add_fin_fin]
      by_cases h1 : m1 = 0
      · by_cases h2 : m2 = 0
        · right
          simp [h1, h2, F32.zero, F32.isZero]
        · left
          simp [h1, h2, F32.neg]
      · by_cases h2 : m2 = 0
        · left
          simp [h1, h2, F32.neg]
        · have hsum : F32.signed s2 (m2 * 2 ^ (e2 - min e1 e2).toNat) +
              F32.signed (!s1) (m1 * 2 ^ (e1 - min e1 e2).toNat) =
              -(F32.signed s1 (m1 * 2 ^ (e1 - min e1 e2).toNat) +
                F32.signed (!s2) (m2 * 2 ^ (e2 - min e1 e2).toNat)) := by
            rw [F32.signed_not, F32.signed_not]
            ring
          rw [min_comm e2 e1]
          simp only [h1, h2, false_and, and_false, if_false, hsum, neg_eq_zero, Int.natAbs_neg]
          by_cases h0 : F32.signed s1 (m1 * 2 ^ (e1 - min e1 e2).toNat) +
              F32.signed (!s2) (m2 * 2 ^ (e2 - min e1 e2).toNat) = 0
          · right
            simp [h0, F32.zero, F32.isZero]
          · left
            rw [if_neg h0, if_neg h0, ← F32.round_not]
            congr 1
            have : ∀ x : Int, x ≠ 0 → decide (-x < 0) = !decide (x < 0) := by
              intro x hx
              by_cases hlt : x < 0
              · have : ¬ (-x < 0) := by omega
                simp [hlt, this]
              · have : -x < 0 := by omega
                simp [hlt, this]
            exact this _ h0

theorem F32.mul_self_swap (a b : F32) :
    F32.mul (F32.sub b a) (F32.sub b a) = F32.mul (F32.sub a b) (F32.sub a b) := by
  rcases F32.sub_swap a b with h | ⟨h1, h2⟩
  · rw [h, F32.mul_neg_neg]
  · rw [F32.mul_self_of_isZero _ h1, F32.mul_self_of_isZero _ h2]

theorem pairDist_symm (softening : F32) (positions : List F32) (i j : Nat) :
    pairDist ieee32 softening positions i j = pairDist ieee32 softening positions j i := by
  have h : ∀ a b : F32, ieee32.mul (ieee32.sub b a) (ieee32.sub b a) =
      ieee32.mul (ieee32.sub a b) (ieee32.sub a b) := F32.mul_self_swap
  simp only [pairDist]
  rw [h (elem ieee32 positions (4 * i)) (elem ieee32 positions (4 * j)),
    h (elem ieee32 positions (4 * i + 1)) (elem ieee32 positions (4 * j + 1)),
    h (elem ieee32 positions (4 * i + 2)) (elem ieee32 positions (4 * j + 2))]

theorem F32.isZero_iff (z : F32) : F32.isZero z = true ↔ ∃ s e, z = F32.fin s 0 e := by
  cases z with
  | nan => simp [F32.isZero]
  | inf s => simp [F32.isZero]
  | fin s m e =>
    cases m with
    | zero => simp [F32.isZero]
    | succ m => simp [F32.isZero]

/-- Numbers that are the same up to the sign of a zero compare equal unless they are NaN. -/
theorem F32.eq_of_same_of_ne_nan (a b : F32) (h : F32.same a b) (hn : a ≠ F32.nan) :
    F32.eq a b = true := by
  rcases h with h | ⟨ha, hb⟩
  · subst h
    cases a with
    | nan => exact absurd rfl hn
    | inf s => simp [F32.eq]
    | fin s m e => simp [F32.eq, F32.cmpFin_self]
  · obtain ⟨s1, e1, rfl⟩ := (F32.isZero_iff a).mp ha
    obtain ⟨s2, e2, rfl⟩ := (F32.isZero_iff b).mp hb
    simp [F32.eq, F32.cmpFin, F32.signed]

/-- Multiplying by the two differences `b - a` and `a - b` gives results that are negations of
each other up to the sign of a zero. -/
theorem F32.mul_sub_swap (c a b : F32) :
    F32.same (F32.mul c (F32.sub b a)) (F32.neg (F32.mul c (F32.sub a b))) := by
  rcases F32.sub_swap a b with h | ⟨h1, h2⟩
  · left
    rw [h, F32.mul_neg_right]
  · obtain ⟨s1, e1, z1⟩ := (F32.isZero_iff _).mp h1
    obtain ⟨s2, e2, z2⟩ := (F32.isZero_iff _).mp h2
    rw [z1, z2]
    cases c with
    | nan => left; rfl
    | inf t => left; rfl
    | fin t m e =>
      right
      have hm : ∀ s' e', F32.mul (F32.fin t m e) (F32.fin s' 0 e') = F32.fin (xor t s') 0 0 := by
        intro s' e'
        simp [F32.mul, F32.round, F32.zero]
      rw [hm, hm]
      exact ⟨rfl, rfl⟩


theorem interact_eq_pairForce {F : Type} (A : Arith F) (src : Source) (softening : F)
    (positions : List F) (i j : Nat) (f : F × F × F) :
    interact A src softening (elem A positions (4 * i)) (elem A positions (4 * i + 1))
        (elem A positions (4 * i + 2)) f (bodyAt A positions j) =
      (A.add f.1 (pairForce A src softening positions i j 0),
       A.add f.2.1 (pairForce A src softening positions i j 1),
       A.add f.2.2 (pairForce A src softening positions i j 2)) := rfl

/-- C12, as amended. In binary32, for every pair of bodies `i`, `j`, every softening value and
every coefficient form: the softened distance the loop computes for `(i, j)` is the one it
computes for `(j, i)` (they compare equal unless NaN); and, when the two bodies have equal
`w`, each component of the force contribution of `j` on `i` is the negation of the
contribution of `i` on `j`, up to the sign of a zero (so they compare equal unless NaN).  The
contributions are the terms the loop body adds to the force. -/
theorem pair_distance_symmetric_and_force_opposite (src : Source) (softening : F32)
    (positions : List F32) (i j : Nat)
    (hw : elem ieee32 positions (4 * i + 3) = elem ieee32 positions (4 * j + 3)) :
    pairDist ieee32 softening positions i j = pairDist ieee32 softening positions j i ∧
    (pairDist ieee32 softening positions i j ≠ F32.nan →
      F32.eq (pairDist ieee32 softening positions i j)
        (pairDist ieee32 softening positions j i) = true) ∧
    (∀ c, F32.same (pairForce ieee32 src softening positions i j c)
        (F32.neg (pairForce ieee32 src softening positions j i c)) ∧
      (pairForce ieee32 src softening positions i j c ≠ F32.nan →
        F32.eq (pairForce ieee32 src softening positions i j c)
          (F32.neg (pairForce ieee32 src softening positions j i c)) = true)) ∧
    (∀ f, interact ieee32 src softening (elem ieee32 positions (4 * i))
        (elem ieee32 positions (4 * i + 1)) (elem ieee32 positions (4 * i + 2)) f
        (bodyAt ieee32 positions j) =
      (F32.add f.1 (pairForce ieee32 src softening positions i j 0),
       F32.add f.2.1 (pairForce ieee32 src softening positions i j 1),
       F32.add f.2.2 (pairForce ieee32 src softening positions i j 2))) := by
  have hd := pairDist_symm softening positions i j
  have hsame : ∀ c, F32.same (pairForce ieee32 src softening positions i j c)
      (F32.neg (pairForce ieee32 src softening positions j i c)) := by
    intro c
    have h := F32.mul_sub_swap
      (coeff ieee32 src (elem ieee32 positions (4 * j + 3))
        (pairDist ieee32 softening positions i j))
      (elem ieee32 positions (4 * i + c)) (elem ieee32 positions (4 * j + c))
    simp only [pairForce, ← hd, hw]
    exact h
  refine ⟨hd, ?_, ?_, fun f => interact_eq_pairForce ieee32 src softening positions i j f⟩
  · intro hn
    exact F32.eq_of_same_of_ne_nan _ _ (Or.inl hd) hn
  · intro c
    exact ⟨hsame c, fun hn => F32.eq_of_same_of_ne_nan _ _ (hsame c) hn⟩

/-- C12, amended, an instance: the bodies at the origin and at `(1, 3, 0)`. -/
theorem pair_distance_symmetric_and_force_opposite_witness :
    (elem ieee32 skewPositions (4 * 0 + 3) = elem ieee32 skewPositions (4 * 1 + 3)) ∧
    (pairDist ieee32 F32.one skewPositions 0 1 = pairDist ieee32 F32.one skewPositions 1 0 ∧
    (pairDist ieee32 F32.one skewPositions 0 1 ≠ F32.nan →
      F32.eq (pairDist ieee32 F32.one skewPositions 0 1)
        (pairDist ieee32 F32.one skewPositions 1 0) = true) ∧
    (∀ c, F32.same (pairForce ieee32 .cpp F32.one skewPositions 0 1 c)
        (F32.neg (pairForce ieee32 .cpp F32.one skewPositions 1 0 c)) ∧
      (pairForce ieee32 .cpp F32.one skewPositions 0 1 c ≠ F32.nan →
        F32.eq (pairForce ieee32 .cpp F32.one skewPositions 0 1 c)
          (F32.neg (pairForce ieee32 .cpp F32.one skewPositions 1 0 c)) = true)) ∧
    (∀ f, interact ieee32 .cpp F32.one (elem ieee32 skewPositions (4 * 0))
        (elem ieee32 skewPositions (4 * 0 + 1)) (elem ieee32 skewPositions (4 * 0 + 2)) f
        (bodyAt ieee32 skewPositions 1) =
      (F32.add f.1 (pairForce ieee32 .cpp F32.one skewPositions 0 1 0),
       F32.add f.2.1 (pairForce ieee32 .cpp F32.one skewPositions 0 1 1),
       F32.add f.2.2 (pairForce ieee32 .cpp F32.one skewPositions 0 1 2)))) :=
  ⟨by decide, pair_distance_symmetric_and_force_opposite .cpp F32.one skewPositions 0 1
    (by decide)⟩

set_option maxRecDepth 100000 in
/-- C12 fails as stated.  For the bodies at the origin and at `(1, 3, 0)` with unit softening
the `z` contribution of body 1 on body 0 is `+0` and the negation of the contribution of
body 0 on body 1 is `-0`: the two compare equal but are not the same datum.  For two
bodies at the same place with softening `0` the contributions are NaN, and a NaN softening
makes both distances NaN; a NaN does not compare equal to itself. -/
theorem pair_force_is_not_the_exact_negation :
    (pairForce ieee32 .cpp F32.one skewPositions 0 1 2 = F32.zero false ∧
      F32.neg (pairForce ieee32 .cpp F32.one skewPositions 1 0 2) = F32.zero true ∧
      pairForce ieee32 .cpp F32.one skewPositions 0 1 2 ≠
        F32.neg (pairForce ieee32 .cpp F32.one skewPositions 1 0 2)) ∧
    (pairForce ieee32 .cpp (F32.zero false)
        [F32.one, F32.one, F32.one, F32.one, F32.one, F32.one, F32.one, F32.one] 0 1 0 =
        F32.nan ∧
      F32.eq
        (pairForce ieee32 .cpp (F32.zero false)
          [F32.one, F32.one, F32.one, F32.one, F32.one, F32.one, F32.one, F32.one] 0 1 0)
        (F32.neg (pairForce ieee32 .cpp (F32.zero false)
          [F32.one, F32.one, F32.one, F32.one, F32.one, F32.one, F32.one, F32.one] 1 0 0)) =
        false) ∧
    (pairDist ieee32 F32.nan skewPositions 0 1 = F32.nan ∧
      F32.eq (pairDist ieee32 F32.nan skewPositions 0 1)
        (pairDist ieee32 F32.nan skewPositions 1 0) = false) := by
  decide

/-! ## The buffer swaps and the buffer lengths -/

theorem iterationCpp_eq_swapCpp {F : Type} (A : Arith F) (P : Params F) (s : RefState F) :
    iterationCpp A P s =
      (bodyLoop A .cpp P s.positions0 s.velocities s.positions1).bind fun r =>
        some (swapCpp { positions0 := s.positions0, positions1 := r.2, velocities := r.1 }) :=
  rfl

theorem iterationC_eq_swapC {F : Type} (A : Arith F) (P : Params F) (s : RefStateC F) :
    iterationC A P s =
      (bodyLoop A .c P s.positionsIn s.velocities s.positionsOut).bind fun r =>
        some (swapC { positionsIn := s.positionsIn, positionsOut := r.2, velocities := r.1 }) :=
  rfl

/-- C14 fails on the C++ `runReference`.  Its swap overwrites the elements of `positions0`
with those of `positions1` and leaves both vectors with the same contents; one pass over the
demonstration input ends with both vectors holding the new positions, the input positions
being lost.  The swap of the C text exchanges the two blocks untouched, and the swap of
`main` exchanges two handles. -/
theorem cpp_swap_copies_elements :
    (∀ s : RefState F32,
      (swapCpp s).positions0 = s.positions1 ∧ (swapCpp s).positions1 = s.positions1) ∧
    (∀ A P, ∀ s : RefState F32, iterationCpp A P s =
      (bodyLoop A .cpp P s.positions0 s.velocities s.positions1).bind fun r =>
        some (swapCpp { positions0 := s.positions0, positions1 := r.2, velocities := r.1 })) ∧
    (∃ vel pos,
      bodyLoop ieee32 .cpp demoParams demoPositions demoZeros demoZeros = some (vel, pos) ∧
      pos ≠ demoPositions ∧
      swapCpp { positions0 := demoPositions, positions1 := pos, velocities := vel } =
        { positions0 := pos, positions1 := pos, velocities := vel } ∧
      iterationCpp ieee32 demoParams
          { positions0 := demoPositions, positions1 := demoZeros, velocities := demoZeros } =
        some { positions0 := pos, positions1 := pos, velocities := vel }) ∧
    (∀ s : RefStateC F32,
      (swapC s).positionsIn = s.positionsOut ∧ (swapC s).positionsOut = s.positionsIn) ∧
    (∀ s : LoopState, (loopPass s).d_positionsIn = s.d_positionsOut ∧
      (loopPass s).d_positionsOut = s.d_positionsIn) := by
  refine ⟨fun s => ⟨rfl, rfl⟩, fun A P s => rfl, ?_, fun s => ⟨rfl, rfl⟩, fun s => ⟨rfl, rfl⟩⟩
  have hb := bodyLoop_eq ieee32 .cpp demoParams demoPositions demoZeros demoZeros
    (by decide) (by decide) (by decide) (by decide)
  refine ⟨_, _, hb, ?_, rfl, ?_⟩
  · set_option maxRecDepth 100000 in decide
  · rw [iterationCpp_eq_swapCpp]
    simp only [hb, Option.some_bind]
    rfl

theorem bodyLoop_nil_eq_none {F : Type} (A : Arith F) (src : Source) (P : Params F)
    (velocities positionsOut : List F) (h : 0 < P.numBodies) :
    bodyLoop A src P [] velocities positionsOut = none := by
  obtain ⟨n, hn⟩ : ∃ n, P.numBodies = n + 1 := ⟨P.numBodies - 1, by omega⟩
  have hr : read4 src ([] : List F) 0 = none := by
    cases src <;> simp [read4, read3, readAt, index]
  simp only [bodyLoop, hn, List.range_succ_eq_map, List.foldlM_cons, bodyUpdate, hr,
    Option.none_bind, Option.bind_eq_bind]

/-- C20 fails for `numBodies = 2^30`, a count the 32-bit `cl_uint` holds.  The product
`4*numBodies` wraps to `0`, so the vectors `main` allocates and `positions1` of `runReference`
are empty instead of holding `2^30` 4-vectors, and the first pass of `runReference` reads
outside the (empty) input vector.  For `numBodies = 2^30 + 1` the vectors hold one 4-vector. -/
theorem host_vectors_wrap_at_two_pow_thirty :
    (hostVector ieee32 (2 ^ 30)).length = 0 ∧
    (hostVector ieee32 (2 ^ 30)).length ≠ 4 * 2 ^ 30 ∧
    (hostVector ieee32 (2 ^ 30 + 1)).length = 4 ∧
    (List.replicate ((4 * wrapParams.numBodies) % 2 ^ 32) ieee32.zero).length = 0 ∧
    runReference ieee32 wrapParams (hostVector ieee32 (2 ^ 30)) (hostVector ieee32 (2 ^ 30)) =
      none := by
  refine ⟨by decide, by decide, by decide, by decide, ?_⟩
  have h0 : hostVector ieee32 (2 ^ 30) = [] := by decide
  have hb := bodyLoop_nil_eq_none ieee32 .cpp wrapParams []
    (List.replicate ((4 * wrapParams.numBodies) % 2 ^ 32) ieee32.zero) (by decide)
  simp only [runReference, h0, wrapParams, iterateCpp, iterationCpp] at hb ⊢
  simp only [hb, Option.none_bind, Option.map_none']

/-! ## The command line -/

theorem parseArguments_nil {F : Type} (parseUInt : String → Option Nat)
    (strtod : String → F × String) (cfg : Config F) :
    parseArguments parseUInt strtod [] cfg = Parsed.returned cfg := by
  rw [parseArguments]

theorem parseArguments_exitsZero {F : Type} (parseUInt : String → Option Nat)
    (strtod : String → F × String) (a : String) (rest : List String) (cfg : Config F)
    (h : exitsZero a = true) :
    parseArguments parseUInt strtod (a :: rest) cfg = Parsed.exited 0 := by
  simp only [exitsZero, Bool.or_eq_true, decide_eq_true_eq] at h
  rcases h with (h | h) | h <;> subst h <;> unfold parseArguments <;> simp

theorem parseArguments_unrecognised {F : Type} (parseUInt : String → Option Nat)
    (strtod : String → F × String) (a : String) (rest : List String) (cfg : Config F)
    (h1 : exitsZero a = false) (h2 : takesValue a = false) :
    parseArguments parseUInt strtod (a :: rest) cfg = Parsed.exited 1 := by
  simp only [exitsZero, takesValue, Bool.or_eq_false_iff, decide_eq_false_iff_not] at h1 h2
  unfold parseArguments
  simp [h1, h2]

theorem parseArguments_missing_value {F : Type} (parseUInt : String → Option Nat)
    (strtod : String → F × String) (a : String) (cfg : Config F)
    (h : takesValue a = true) :
    parseArguments parseUInt strtod [a] cfg = Parsed.exited 1 := by
  simp only [takesValue, Bool.or_eq_true, decide_eq_true_eq] at h
  rcases h with (((((((h | h) | h) | h) | h) | h) | h) | h) | h <;> subst h <;>
    unfold parseArguments <;> simp

theorem parseArguments_value {F : Type} (parseUInt : String → Option Nat)
    (strtod : String → F × String) (a v : String) (rest : List String) (cfg : Config F)
    (h : takesValue a = true) :
    parseArguments parseUInt strtod (a :: v :: rest) cfg =
      match applyOption parseUInt strtod a v cfg with
      | none => Parsed.exited 1
      | some cfg' => parseArguments parseUInt strtod rest cfg' := by
  simp only [takesValue, Bool.or_eq_true, decide_eq_true_eq] at h
  rcases h with (((((((h | h) | h) | h) | h) | h) | h) | h) | h <;> subst h <;>
    rw [parseArguments.eq_def] <;> simp [applyOption] <;>
    first
      | (cases parseUInt v <;> simp)
      | (cases (parseFloat strtod v).1 <;> simp)

theorem takesValue_of_applyOption {F : Type} (parseUInt : String → Option Nat)
    (strtod : String → F × String) (a v : String) (cfg c : Config F)
    (h : applyOption parseUInt strtod a v cfg = some c) : takesValue a = true := by
  by_contra hn
  simp only [takesValue, Bool.or_eq_true, decide_eq_true_eq, not_or] at hn
  simp [applyOption, hn] at h

theorem parseArguments_spell_append {F : Type} (parseUInt : String → Option Nat)
    (strtod : String → F × String) (pairs : List (String × String)) (rest : List String)
    (cfg cfg' : Config F) (h : applyAll parseUInt strtod pairs cfg = some cfg') :
    parseArguments parseUInt strtod (spell pairs ++ rest) cfg =
      parseArguments parseUInt strtod rest cfg' := by
  induction pairs generalizing cfg with
  | nil =>
    simp only [applyAll, Option.some.injEq] at h
    subst h
    rfl
  | cons p ps ih =>
    simp only [applyAll, Option.bind_eq_some] at h
    obtain ⟨c, hc, hps⟩ := h
    have hv := takesValue_of_applyOption parseUInt strtod p.1 p.2 cfg c hc
    show parseArguments parseUInt strtod (p.1 :: p.2 :: (spell ps ++ rest)) cfg = _
    rw [parseArguments_value parseUInt strtod p.1 p.2 _ cfg hv, hc]
    exact ih c hps

/-- Every argument list is a sequence of option/value pairs that all parse, followed by
nothing or by a terminal argument. -/
theorem arguments_decompose {F : Type} (parseUInt : String → Option Nat)
    (strtod : String → F × String) (args : List String) (cfg : Config F) :
    ∃ pairs cfg', applyAll parseUInt strtod pairs cfg = some cfg' ∧
      (args = spell pairs ∨
        (∃ a rest, args = spell pairs ++ a :: rest ∧
          (exitsZero a = true ∨ (exitsZero a = false ∧ takesValue a = false))) ∨
        (∃ a, args = spell pairs ++ [a] ∧ takesValue a = true) ∨
        (∃ a v rest, args = spell pairs ++ a :: v :: rest ∧ takesValue a = true ∧
          applyOption parseUInt strtod a v cfg' = none)) := by
  obtain ⟨n, hn⟩ : ∃ n, args.length = n := ⟨_, rfl⟩
  induction n using Nat.strong_induction_on generalizing args cfg with
  | _ n ih =>
    match args, hn with
    | [], _ => exact ⟨[], cfg, rfl, Or.inl rfl⟩
    | [a], _ =>
      refine ⟨[], cfg, rfl, Or.inr ?_⟩
      cases hv : takesValue a with
      | true => exact Or.inr (Or.inl ⟨a, rfl, hv⟩)
      | false =>
        cases hz : exitsZero a with
        | true => exact Or.inl ⟨a, [], rfl, Or.inl hz⟩
        | false => exact Or.inl ⟨a, [], rfl, Or.inr ⟨hz, hv⟩⟩
    | a :: v :: rest, hlen =>
      cases hv : takesValue a with
      | false =>
        refine ⟨[], cfg, rfl, Or.inr (Or.inl ⟨a, v :: rest, rfl, ?_⟩)⟩
        cases hz : exitsZero a with
        | true => exact Or.inl rfl
        | false => exact Or.inr ⟨rfl, hv⟩
      | true =>
        cases ho : applyOption parseUInt strtod a v cfg with
        | none => exact ⟨[], cfg, rfl, Or.inr (Or.inr (Or.inr ⟨a, v, rest, rfl, hv, ho⟩))⟩
        | some c =>
          have hlt : rest.length < n := by
            rw [← hlen]; simp only [List.length_cons]; omega
          obtain ⟨ps, c', hps, hcase⟩ := ih rest.length hlt rest c rfl
          refine ⟨(a, v) :: ps, c', ?_, ?_⟩
          · simp only [applyAll, ho, Option.some_bind, hps]
          · rcases hcase with h | ⟨b, r, h, hb⟩ | ⟨b, h, hb⟩ | ⟨b, w, r, h, hb⟩
            · exact Or.inl (by rw [h]; rfl)
            · exact Or.inr (Or.inl ⟨b, r, by rw [h]; rfl, hb⟩)
            · exact Or.inr (Or.inr (Or.inl ⟨b, by rw [h]; rfl, hb⟩))
            · exact Or.inr (Or.inr (Or.inr ⟨b, w, r, by rw [h]; rfl, hb⟩))

/-- C15. The arguments are processed left to right and the first terminal argument decides
the exit status. After any sequence of value-taking options whose values all parse
(`applyAll ... = some cfg'`): with nothing left `parseArguments` returns normally, with the
variables as the options set them; a following `--help`, `-h` or `--list` exits with
status 0 whatever comes after it; a following unrecognised argument exits with status 1;
a following value-taking option that is the last argument, or whose value does not parse,
exits with status 1. Every argument list has one of these shapes. -/
theorem parseArguments_first_terminal_argument_decides {F : Type}
    (parseUInt : String → Option Nat) (strtod : String → F × String)
    (pairs : List (String × String)) (cfg cfg' : Config F)
    (h : applyAll parseUInt strtod pairs cfg = some cfg') :
    parseArguments parseUInt strtod (spell pairs) cfg = Parsed.returned cfg' ∧
    (∀ a rest, exitsZero a = true →
      parseArguments parseUInt strtod (spell pairs ++ a :: rest) cfg = Parsed.exited 0) ∧
    (∀ a rest, exitsZero a = false → takesValue a = false →
      parseArguments parseUInt strtod (spell pairs ++ a :: rest) cfg = Parsed.exited 1) ∧
    (∀ a, takesValue a = true →
      parseArguments parseUInt strtod (spell pairs ++ [a]) cfg = Parsed.exited 1) ∧
    (∀ a v rest, takesValue a = true → applyOption parseUInt strtod a v cfg' = none →
      parseArguments parseUInt strtod (spell pairs ++ a :: v :: rest) cfg = Parsed.exited 1) ∧
    (∀ args : List String, ∃ ps c, applyAll parseUInt strtod ps cfg = some c ∧
      (args = spell ps ∨
        (∃ a rest, args = spell ps ++ a :: rest ∧
          (exitsZero a = true ∨ (exitsZero a = false ∧ takesValue a = false))) ∨
        (∃ a, args = spell ps ++ [a] ∧ takesValue a = true) ∨
        (∃ a v rest, args = spell ps ++ a :: v :: rest ∧ takesValue a = true ∧
          applyOption parseUInt strtod a v c = none))) := by
  refine ⟨?_, ?_, ?_, ?_, ?_, ?_⟩
  · have h0 := parseArguments_spell_append parseUInt strtod pairs [] cfg cfg' h
    rw [List.append_nil] at h0
    rw [h0, parseArguments_nil]
  · intro a rest ha
    rw [parseArguments_spell_append parseUInt strtod pairs _ cfg cfg' h]
    exact parseArguments_exitsZero parseUInt strtod a rest cfg' ha
  · intro a rest h1 h2
    rw [parseArguments_spell_append parseUInt strtod pairs _ cfg cfg' h]
    exact parseArguments_unrecognised parseUInt strtod a rest cfg' h1 h2
  · intro a ha
    rw [parseArguments_spell_append parseUInt strtod pairs _ cfg cfg' h]
    exact parseArguments_missing_value parseUInt strtod a cfg' ha
  · intro a v rest ha hv
    rw [parseArguments_spell_append parseUInt strtod pairs _ cfg cfg' h,
      parseArguments_value parseUInt strtod a v rest cfg' ha, hv]
  · intro args
    exact arguments_decompose parseUInt strtod args cfg

/-- C15, an instance: `-n 12 --delta 3` sets the two variables and returns normally. -/
theorem parseArguments_first_terminal_argument_decides_witness :
    applyAll uintDemo strtodDemo [("-n", "12"), ("--delta", "3")] defaultConfig =
        some { defaultConfig with numBodies := 12, delta := F32.fin false 12582912 (-22) } ∧
      parseArguments uintDemo strtodDemo ["-n", "12", "--delta", "3"] defaultConfig =
        Parsed.returned
          { defaultConfig with numBodies := 12, delta := F32.fin false 12582912 (-22) } :=
  ⟨by decide,
    (parseArguments_first_terminal_argument_decides uintDemo strtodDemo
      [("-n", "12"), ("--delta", "3")] defaultConfig _ (by decide)).1⟩

/-- C17. The conversion `strtod` leaves the unconverted rest of its input; on the empty
string that rest is empty, so `parseFloat` reports success although nothing was converted,
and `--delta ""` and `--softening ""` are accepted (the variable takes what `strtod`
returned) where the claim has the program exit with status 1. On every string `parseFloat`
reports success exactly when `strtod` leaves no rest. -/
theorem parseFloat_accepts_the_empty_string {F : Type} (parseUInt : String → Option Nat)
    (strtod : String → F × String) (cfg : Config F) (hempty : (strtod "").2 = "") :
    (∀ s, (parseFloat strtod s).1 = true ↔ (strtod s).2.length = 0) ∧
    (parseFloat strtod "").1 = true ∧
    parseArguments parseUInt strtod ["--delta", ""] cfg =
      Parsed.returned { cfg with delta := (strtod "").1 } ∧
    parseArguments parseUInt strtod ["--softening", ""] cfg =
      Parsed.returned { cfg with softening := (strtod "").1 } := by
  have hp : (parseFloat strtod "").1 = true := by
    simp only [parseFloat, hempty]
    rfl
  have hd : applyOption parseUInt strtod "--delta" "" cfg =
      some { cfg with delta := (strtod "").1 } := by
    have h1 : applyOption parseUInt strtod "--delta" "" cfg =
        if (parseFloat strtod "").1 then some { cfg with delta := (parseFloat strtod "").2 }
        else none := by
      simp [applyOption]
    rw [h1, hp]
    rfl
  have hs : applyOption parseUInt strtod "--softening" "" cfg =
      some { cfg with softening := (strtod "").1 } := by
    have h1 : applyOption parseUInt strtod "--softening" "" cfg =
        if (parseFloat strtod "").1 then
          some { cfg with softening := (parseFloat strtod "").2 }
        else none := by
      simp [applyOption]
    rw [h1, hp]
    rfl
  refine ⟨fun s => by simp [parseFloat], hp, ?_, ?_⟩
  · rw [parseArguments_value parseUInt strtod "--delta" "" [] cfg (by decide), hd]
    exact parseArguments_nil parseUInt strtod _
  · rw [parseArguments_value parseUInt strtod "--softening" "" [] cfg (by decide), hs]
    exact parseArguments_nil parseUInt strtod _

/-- C17, an instance: with the demonstration `strtod`, `--delta ""` returns normally with
`delta` set to zero. -/
theorem parseFloat_accepts_the_empty_string_witness :
    (strtodDemo "").2 = "" ∧
      parseArguments uintDemo strtodDemo ["--delta", ""] defaultConfig =
        Parsed.returned { defaultConfig with delta := F32.zero false } :=
  ⟨by decide,
    (parseFloat_accepts_the_empty_string uintDemo strtodDemo defaultConfig (by decide)).2.2.1⟩

/-! ## The device check -/

theorem runStages_status_ne_one (env : Stage → Outcome) (henv : ∀ s, env s ≠ Outcome.exits 1)
    (stages done : List Stage) : (runStages env stages done).status ≠ 1 := by
  induction stages generalizing done with
  | nil => simp [runStages]
  | cons s rest ih =>
    rw [runStages]
    cases hs : env s with
    | returns => exact ih _
    | throws => simp
    | exits st =>
      have h1 : st ≠ 1 := fun h => henv s (by rw [hs, h])
      simpa using h1

/-! ## Host initialisation -/

theorem initEntry_four {F : Type} (A : Arith F) (H : HostMath F) (init2D : Bool)
    (sphereRadius : F) (draws : Nat → Nat) (i : Nat) :
    initEntry A H init2D sphereRadius draws (4 * i) =
        (initPoint A H init2D sphereRadius draws i).1 ∧
      initEntry A H init2D sphereRadius draws (4 * i + 1) =
        (initPoint A H init2D sphereRadius draws i).2.1 ∧
      initEntry A H init2D sphereRadius draws (4 * i + 2) =
        (initPoint A H init2D sphereRadius draws i).2.2.1 ∧
      initEntry A H init2D sphereRadius draws (4 * i + 3) =
        (initPoint A H init2D sphereRadius draws i).2.2.2 := by
  have d0 : 4 * i / 4 = i := by omega
  have d1 : (4 * i + 1) / 4 = i := by omega
  have d2 : (4 * i + 2) / 4 = i := by omega
  have d3 : (4 * i + 3) / 4 = i := by omega
  have m0 : 4 * i % 4 = 0 := by omega
  have m1 : (4 * i + 1) % 4 = 1 := by omega
  have m2 : (4 * i + 2) % 4 = 2 := by omega
  have m3 : (4 * i + 3) % 4 = 3 := by omega
  simp only [initEntry, d0, d1, d2, d3, m0, m1, m2, m3, and_self]

theorem initBody_eq {F : Type} (A : Arith F) (H : HostMath F) (src : Source) (init2D : Bool)
    (sphereRadius : F) (draws : Nat → Nat) (n m : Nat) (allocated : List F)
    (hn : n ≤ maxBodies src) (hm : m < n) :
    initBody A H src init2D sphereRadius draws
        (partialBuf A n m (initEntry A H init2D sphereRadius draws) allocated,
          if init2D then m else 2 * m) m =
      some (partialBuf A n (m + 1) (initEntry A H init2D sphereRadius draws) allocated,
        if init2D then m + 1 else 2 * (m + 1)) := by
  obtain ⟨e0, e1, e2, e3⟩ := initEntry_four A H init2D sphereRadius draws m
  have hw := write4_eq src
    (partialBuf A n m (initEntry A H init2D sphereRadius draws) allocated) n m
    (initEntry A H init2D sphereRadius draws (4 * m))
    (initEntry A H init2D sphereRadius draws (4 * m + 1))
    (initEntry A H init2D sphereRadius draws (4 * m + 2))
    (initEntry A H init2D sphereRadius draws (4 * m + 3)) hn (partialBuf_length _ _ _ _ _) hm
  rw [partialBuf_set4 A n m _ allocated, e0, e1, e2, e3] at hw
  cases init2D with
  | true =>
    simp only [initPoint, if_true] at hw
    simp only [initBody, if_true, hw, Option.map_some']
  | false =>
    simp only [initPoint, Bool.false_eq_true, if_false] at hw
    simp only [initBody, Bool.false_eq_true, if_false, hw, Option.map_some']
    rfl

/-- The initialisation loop runs to completion; the position array it leaves is given
element by element by `initEntry`. -/
theorem initHost_eq {F : Type} (A : Arith F) (H : HostMath F) (src : Source) (init2D : Bool)
    (sphereRadius : F) (draws : Nat → Nat) (n : Nat) (allocated : List F)
    (hn : n ≤ maxBodies src) (hlen : allocated.length = 4 * n) :
    initHost A H src init2D sphereRadius draws n allocated =
      some ((List.range (4 * n)).map (initEntry A H init2D sphereRadius draws),
        initialVelocities A src n) := by
  have key : ∀ m, m ≤ n →
      (List.range m).foldlM (initBody A H src init2D sphereRadius draws) (allocated, 0) =
        some (partialBuf A n m (initEntry A H init2D sphereRadius draws) allocated,
          if init2D then m else 2 * m) := by
    intro m
    induction m with
    | zero =>
      intro _
      simp [partialBuf_zero A n _ allocated hlen]
    | succ m ih =>
      intro hm
      rw [List.range_succ, List.foldlM_append, ih (by omega)]
      simp [initBody_eq A H src init2D sphereRadius draws n m allocated hn (by omega)]
  simp only [initHost, key n (le_refl _), partialBuf_full, Option.map_some']

theorem initialVelocities_eq {F : Type} (A : Arith F) (src : Source) (n : Nat)
    (hn : n ≤ maxBodies src) : initialVelocities A src n = List.replicate (4 * n) A.zero := by
  cases src with
  | c => rfl
  | cpp =>
    have h2 : (2 : Nat) ^ 30 = 1073741824 := by norm_num
    have h3 : (2 : Nat) ^ 32 = 4294967296 := by norm_num
    simp only [maxBodies, h2] at hn
    simp only [initialVelocities, hostVector, h3]
    congr 1
    omega
  | cppGL =>
    have h2 : (2 : Nat) ^ 30 = 1073741824 := by norm_num
    have h3 : (2 : Nat) ^ 32 = 4294967296 := by norm_num
    simp only [maxBodies, h2] at hn
    simp only [initialVelocities, hostVector, h3]
    congr 1
    omega

theorem initHost_entries {F : Type} (A : Arith F) (H : HostMath F) (init2D : Bool)
    (sphereRadius : F) (draws : Nat → Nat) (n i : Nat) (hi : i < n) :
    ((List.range (4 * n)).map (initEntry A H init2D sphereRadius draws))[4 * i]? =
        some (initPoint A H init2D sphereRadius draws i).1 ∧
      ((List.range (4 * n)).map (initEntry A H init2D sphereRadius draws))[4 * i + 1]? =
        some (initPoint A H init2D sphereRadius draws i).2.1 ∧
      ((List.range (4 * n)).map (initEntry A H init2D sphereRadius draws))[4 * i + 2]? =
        some (initPoint A H init2D sphereRadius draws i).2.2.1 ∧
      ((List.range (4 * n)).map (initEntry A H init2D sphereRadius draws))[4 * i + 3]? =
        some (initPoint A H init2D sphereRadius draws i).2.2.2 := by
  obtain ⟨e0, e1, e2, e3⟩ := initEntry_four A H init2D sphereRadius draws i
  have h : ∀ k, k < 4 * n →
      ((List.range (4 * n)).map (initEntry A H init2D sphereRadius draws))[k]? =
        some (initEntry A H init2D sphereRadius draws k) := by
    intro k hk
    rw [elem_eq A _ k (by simp [hk]), elem_map_range A (4 * n) _ k hk]
  rw [h _ (by omega), h _ (by omega), h _ (by omega), h _ (by omega), e0, e1, e2, e3]
  exact ⟨rfl, rfl, rfl, rfl⟩

/-- C18. For every body count within the subscript range, every sequence of draws, either
mode and whatever the allocated position array held, the host initialisation runs to
completion; afterwards every position entry has `w` equal to one, the velocity array is
`4*numBodies` zeros, and in the circle mode every position has `z` equal to zero. -/
theorem host_initialisation_w_one_velocities_zero {F : Type} (A : Arith F) (H : HostMath F)
    (src : Source) (init2D : Bool) (sphereRadius : F) (draws : Nat → Nat) (n : Nat)
    (allocated : List F) (hn : n ≤ maxBodies src) (hlen : allocated.length = 4 * n) :
    ∃ pos vel, initHost A H src init2D sphereRadius draws n allocated = some (pos, vel) ∧
      pos.length = 4 * n ∧
      (∀ i, i < n → pos[4 * i + 3]? = some A.one) ∧
      vel = List.replicate (4 * n) A.zero ∧
      (init2D = true → ∀ i, i < n → pos[4 * i + 2]? = some A.zero) := by
  refine ⟨_, _, initHost_eq A H src init2D sphereRadius draws n allocated hn hlen, by simp,
    ?_, initialVelocities_eq A src n hn, ?_⟩
  · intro i hi
    rw [(initHost_entries A H init2D sphereRadius draws n i hi).2.2.2]
    cases init2D <;> rfl
  · intro h2 i hi
    subst h2
    rw [(initHost_entries A H true sphereRadius draws n i hi).2.2.1]
    rfl

/-- C18, an instance: two bodies in circle mode, in binary32, in the C++ text. -/
theorem host_initialisation_w_one_velocities_zero_witness :
    2 ≤ maxBodies .cpp ∧ (hostVector ieee32 2).length = 4 * 2 ∧
      ∃ pos vel, initHost ieee32 demoMath .cpp true F32.three demoDraws 2
          (hostVector ieee32 2) = some (pos, vel) ∧
        pos.length = 4 * 2 ∧
        (∀ i, i < 2 → pos[4 * i + 3]? = some ieee32.one) ∧
        vel = List.replicate (4 * 2) ieee32.zero ∧
        (true = true → ∀ i, i < 2 → pos[4 * i + 2]? = some ieee32.zero) :=
  ⟨by decide, by decide,
    host_initialisation_w_one_velocities_zero ieee32 demoMath .cpp true F32.three demoDraws 2
      (hostVector ieee32 2) (by decide) (by decide)⟩

theorem spherePoint_exact (K : Type) [LinearOrderedField K] (sqrt : K → K) (H : HostMath K)
    (R : K) (r1 r2 : Nat) (htrig : ∀ t, H.sin t ^ 2 + H.cos t ^ 2 = 1) :
    (spherePoint (exactArith K sqrt) H R r1 r2).1 ^ 2 +
        (spherePoint (exactArith K sqrt) H R r1 r2).2.1 ^ 2 +
        (spherePoint (exactArith K sqrt) H R r1 r2).2.2.1 ^ 2 = R ^ 2 := by
  simp only [spherePoint, exactArith, unitDraw]
  linear_combination
    (R ^ 2 * H.sin (H.acos (H.two * ((H.ofInt r2) / (H.ofInt H.randMax)) - 1)) ^ 2) *
      htrig (H.two * H.pi * ((H.ofInt r1) / (H.ofInt H.randMax))) +
    R ^ 2 * htrig (H.acos (H.two * ((H.ofInt r2) / (H.ofInt H.randMax)) - 1))

theorem circlePoint_exact (K : Type) [LinearOrderedField K] (sqrt : K → K) (H : HostMath K)
    (R : K) (r : Nat) (htrig : ∀ t, H.sin t ^ 2 + H.cos t ^ 2 = 1) :
    (circlePoint (exactArith K sqrt) H R r).1 ^ 2 +
        (circlePoint (exactArith K sqrt) H R r).2.1 ^ 2 = R ^ 2 ∧
      (circlePoint (exactArith K sqrt) H R r).2.2.1 = 0 := by
  simp only [circlePoint, exactArith, unitDraw]
  refine ⟨?_, trivial⟩
  linear_combination R ^ 2 * htrig (H.two * H.pi * ((H.ofInt r) / (H.ofInt H.randMax)))

/-- C19. Over exact arithmetic (an ordered field with `sin` and `cos` that satisfy
`sin^2 + cos^2 = 1`), for every radius and every pair of draws the point generated in sphere
mode has `x^2 + y^2 + z^2 = sphereRadius^2`, and the point generated in circle mode has
`x^2 + y^2 = sphereRadius^2` and `z = 0`; the initialisation loop stores such a point for
every body. -/
theorem initial_positions_on_sphere_or_circle (K : Type) [LinearOrderedField K]
    (sqrt : K → K) (H : HostMath K) (src : Source) (init2D : Bool) (R : K)
    (draws : Nat → Nat) (n : Nat) (allocated : List K)
    (hn : n ≤ maxBodies src) (hlen : allocated.length = 4 * n)
    (htrig : ∀ t, H.sin t ^ 2 + H.cos t ^ 2 = 1) :
    (∀ r1 r2,
      (spherePoint (exactArith K sqrt) H R r1 r2).1 ^ 2 +
        (spherePoint (exactArith K sqrt) H R r1 r2).2.1 ^ 2 +
        (spherePoint (exactArith K sqrt) H R r1 r2).2.2.1 ^ 2 = R ^ 2) ∧
    (∀ r,
      (circlePoint (exactArith K sqrt) H R r).1 ^ 2 +
          (circlePoint (exactArith K sqrt) H R r).2.1 ^ 2 = R ^ 2 ∧
        (circlePoint (exactArith K sqrt) H R r).2.2.1 = 0) ∧
    ∃ pos vel,
      initHost (exactArith K sqrt) H src init2D R draws n allocated = some (pos, vel) ∧
      ∀ i, i < n → ∃ x y z,
        pos[4 * i]? = some x ∧ pos[4 * i + 1]? = some y ∧ pos[4 * i + 2]? = some z ∧
        if init2D = true then x ^ 2 + y ^ 2 = R ^ 2 ∧ z = 0
        else x ^ 2 + y ^ 2 + z ^ 2 = R ^ 2 := by
  refine ⟨fun r1 r2 => spherePoint_exact K sqrt H R r1 r2 htrig,
    fun r => circlePoint_exact K sqrt H R r htrig,
    _, _, initHost_eq (exactArith K sqrt) H src init2D R draws n allocated hn hlen, ?_⟩
  intro i hi
  obtain ⟨e0, e1, e2, _⟩ := initHost_entries (exactArith K sqrt) H init2D R draws n i hi
  refine ⟨_, _, _, e0, e1, e2, ?_⟩
  cases init2D with
  | true =>
    simp only [if_true, initPoint]
    exact circlePoint_exact K sqrt H R _ htrig
  | false =>
    simp only [Bool.false_eq_true, if_false, initPoint]
    exact spherePoint_exact K sqrt H R _ _ htrig

/-- C19, an instance over the reals, with the real sine, cosine and arc cosine: every
sphere-mode point of radius 128 lies on the sphere of radius 128. -/
theorem initial_positions_on_sphere_or_circle_witness :
    2 ≤ maxBodies .c ∧ (List.replicate 8 (0 : ℝ)).length = 4 * 2 ∧
      (∀ t : ℝ, Real.sin t ^ 2 + Real.cos t ^ 2 = 1) ∧
      ∀ r1 r2,
        (spherePoint (exactArith ℝ Real.sqrt)
            { two := 2, pi := Real.pi, ofInt := fun k => (k : ℝ), randMax := 2147483647,
              sin := Real.sin, cos := Real.cos, acos := Real.arccos } 128 r1 r2).1 ^ 2 +
          (spherePoint (exactArith ℝ Real.sqrt)
            { two := 2, pi := Real.pi, ofInt := fun k => (k : ℝ), randMax := 2147483647,
              sin := Real.sin, cos := Real.cos, acos := Real.arccos } 128 r1 r2).2.1 ^ 2 +
          (spherePoint (exactArith ℝ Real.sqrt)
            { two := 2, pi := Real.pi, ofInt := fun k => (k : ℝ), randMax := 2147483647,
              sin := Real.sin, cos := Real.cos, acos := Real.arccos } 128 r1 r2).2.2.1 ^ 2 =
          (128 : ℝ) ^ 2 :=
  ⟨by decide, by decide, Real.sin_sq_add_cos_sq,
    (initial_positions_on_sphere_or_circle ℝ Real.sqrt
      { two := 2, pi := Real.pi, ofInt := fun k => (k : ℝ), randMax := 2147483647,
        sin := Real.sin, cos := Real.cos, acos := Real.arccos } .c false 128 (fun k => k) 2
      (List.replicate 8 (0 : ℝ)) (by decide) (by decide) Real.sin_sq_add_cos_sq).1⟩

/-! ## Window events -/

theorem handleSDLEvents_cons (e : SDL_Event) (pending : List SDL_Event) :
    handleSDLEvents (e :: pending) =
      if e.stops = true then (1, pending) else handleSDLEvents pending := by
  rw [handleSDLEvents]
  obtain ⟨t, k⟩ := e
  cases t <;> cases k <;> simp [SDL_Event.stops]

theorem handleSDLEvents_no_stop (events : List SDL_Event)
    (h : ∀ e ∈ events, e.stops = false) : handleSDLEvents events = (0, []) := by
  induction events with
  | nil => rfl
  | cons e es ih =>
    rw [handleSDLEvents_cons, h e (List.mem_cons_self _ _)]
    simpa using ih (fun x hx => h x (List.mem_cons_of_mem _ hx))

theorem handleSDLEvents_first_stop (before after : List SDL_Event) (e : SDL_Event)
    (hb : ∀ x ∈ before, x.stops = false) (he : e.stops = true) :
    handleSDLEvents (before ++ e :: after) = (1, after) := by
  induction before with
  | nil => simp [handleSDLEvents_cons, he]
  | cons b bs ih =>
    rw [List.cons_append, handleSDLEvents_cons, hb b (List.mem_cons_self _ _)]
    simpa using ih (fun x hx => hb x (List.mem_cons_of_mem _ hx))

/-- C30. For every finite sequence of pending events, `handleSDLEvents` returns `1`
exactly when the sequence contains a stop event (release of Q, release of Escape, or quit)
and `0` otherwise; a press of any key and a release of another key are not stop events;
when it returns `1` the events behind the first stop event are left in the queue, and
when it returns `0` the queue has been emptied. -/
theorem handleSDLEvents_returns_one_iff_stop_event (events : List SDL_Event) :
    ((handleSDLEvents events).1 = 1 ↔ ∃ e ∈ events, e.stops = true) ∧
    ((handleSDLEvents events).1 = 0 ↔ ¬ ∃ e ∈ events, e.stops = true) ∧
    (∀ e : SDL_Event, e.stops = true ↔
      ((e.type = EventType.SDL_KEYUP ∧ e.scancode = Scancode.SDL_SCANCODE_Q) ∨
        (e.type = EventType.SDL_KEYUP ∧ e.scancode = Scancode.SDL_SCANCODE_ESCAPE) ∨
        e.type = EventType.SDL_QUIT)) ∧
    (∀ k : Scancode, (SDL_Event.mk EventType.SDL_KEYDOWN k).stops = false) ∧
    (∀ k : Nat, (SDL_Event.mk EventType.SDL_KEYUP (Scancode.other k)).stops = false) ∧
    (∀ before after e, (∀ x ∈ before, x.stops = false) → e.stops = true →
      events = before ++ e :: after → handleSDLEvents events = (1, after)) ∧
    ((∀ e ∈ events, e.stops = false) → handleSDLEvents events = (0, [])) := by
  have hsplit : (∀ e ∈ events, e.stops = false) ∨
      ∃ before e after, events = before ++ e :: after ∧ (∀ x ∈ before, x.stops = false) ∧
        e.stops = true := by
    induction events with
    | nil => exact Or.inl (fun e he => absurd he (List.not_mem_nil e))
    | cons a as ih =>
      cases ha : a.stops with
      | true => exact Or.inr ⟨[], a, as, rfl, fun x hx => absurd hx (List.not_mem_nil x), ha⟩
      | false =>
        rcases ih with h | ⟨b, e, af, h1, h2, h3⟩
        · left
          intro e he
          rcases List.mem_cons.1 he with h0 | h0
          · rw [h0]; exact ha
          · exact h e h0
        · right
          refine ⟨a :: b, e, af, by rw [h1]; rfl, ?_, h3⟩
          intro x hx
          rcases List.mem_cons.1 hx with h0 | h0
          · rw [h0]; exact ha
          · exact h2 x h0
  have hone : (handleSDLEvents events).1 = 1 ↔ ∃ e ∈ events, e.stops = true := by
    rcases hsplit with h | ⟨b, e, af, h1, h2, h3⟩
    · rw [handleSDLEvents_no_stop events h]
      constructor
      · intro h0; exact absurd h0 (by decide)
      · rintro ⟨e, he, hs⟩
        rw [h e he] at hs
        exact absurd hs (by decide)
    · rw [h1, handleSDLEvents_first_stop b af e h2 h3]
      exact ⟨fun _ => ⟨e, by simp, h3⟩, fun _ => rfl⟩
  have hzero : (handleSDLEvents events).1 = 0 ↔ ¬ ∃ e ∈ events, e.stops = true := by
    rw [← hone]
    rcases hsplit with h | ⟨b, e, af, h1, h2, h3⟩
    · rw [handleSDLEvents_no_stop events h]
      simp
    · rw [h1, handleSDLEvents_first_stop b af e h2 h3]
      simp
  refine ⟨hone, hzero, ?_, ?_, ?_, ?_, handleSDLEvents_no_stop events⟩
  · intro e
    obtain ⟨t, k⟩ := e
    cases t <;> cases k <;> simp [SDL_Event.stops]
  · intro k
    simp [SDL_Event.stops]
  · intro k
    simp [SDL_Event.stops]
  · intro before after e hb he hev
    rw [hev]
    exact handleSDLEvents_first_stop before after e hb he

/-! ## Subscripts and the frame of one step -/

/-- C28. For every `numBodies < 2^30` and arrays of `4*numBodies` elements, every subscript
`i*4 + c` with `i < numBodies` and `c < 4`, evaluated in 32-bit unsigned arithmetic, is
`4*i + c` and lies below `4*numBodies`; `runReference` therefore runs to completion without
an access outside a vector (such an access is `none` in the embedding) and returns
`4*numBodies` elements. -/
theorem runReference_subscripts_in_bounds {F : Type} (A : Arith F) (P : Params F)
    (initialPositions initialVelocities : List F) (hn : P.numBodies < 2 ^ 30)
    (hpos : initialPositions.length = 4 * P.numBodies)
    (hvel : initialVelocities.length = 4 * P.numBodies) :
    (∀ i c, i < P.numBodies → c < 4 →
      index .cpp i c = some (4 * i + c) ∧ 4 * i + c < 4 * P.numBodies) ∧
    (∀ i c v, i < P.numBodies → c < 4 →
      (readAt .cpp initialPositions i c).isSome = true ∧
      (readAt .cpp initialVelocities i c).isSome = true ∧
      (writeAt .cpp initialVelocities i c v).isSome = true) ∧
    ∃ finalPositions, runReference A P initialPositions initialVelocities =
        some finalPositions ∧ finalPositions.length = 4 * P.numBodies := by
  have hm : P.numBodies ≤ maxBodies .cpp := by
    have h30 : (2 : Nat) ^ 30 = 1073741824 := by norm_num
    simp only [maxBodies, h30] at hn ⊢
    omega
  refine ⟨?_, ?_, _, runReference_eq A P initialPositions initialVelocities hm hpos hvel,
    (iterate_integrate_length A .cpp P P.iterations (initialPositions, initialVelocities)
      hpos hvel).1⟩
  · intro i c hi hc
    exact ⟨index_eq .cpp P.numBodies i c hm hi hc, by omega⟩
  · intro i c v hi hc
    rw [readAt_eq A .cpp initialPositions P.numBodies i c hm hpos hi hc,
      readAt_eq A .cpp initialVelocities P.numBodies i c hm hvel hi hc,
      writeAt_eq .cpp initialVelocities P.numBodies i c v hm hvel hi hc]
    exact ⟨rfl, rfl, rfl⟩

/-- C28, an instance: the two-body demonstration input. -/
theorem runReference_subscripts_in_bounds_witness :
    demoParams.numBodies < 2 ^ 30 ∧ demoPositions.length = 4 * demoParams.numBodies ∧
      demoZeros.length = 4 * demoParams.numBodies ∧
      ∃ finalPositions, runReference ieee32 demoParams demoPositions demoZeros =
        some finalPositions ∧ finalPositions.length = 4 * demoParams.numBodies :=
  ⟨by decide, by decide, by decide,
    (runReference_subscripts_in_bounds ieee32 demoParams demoPositions demoZeros
      (by decide) (by decide) (by decide)).2.2⟩

/-- C24. One pass over the bodies runs to completion, and every one of the `4*numBodies`
entries of the output buffer then holds the value that the step computes from the input
positions and the velocities alone (`posEntry`): the result is the same for any two initial
contents of the output buffer.  The pass takes the input positions as a value it only
reads; in the C++ text the state handed to the swap still has them in `positions0`, and in
the C text the buffer that leaves the input role holds them unchanged. -/
theorem step_writes_every_output_entry {F : Type} (A : Arith F) (src : Source) (P : Params F)
    (positionsIn velocities positionsOut positionsOut' : List F)
    (hn : P.numBodies ≤ maxBodies src) (hpin : positionsIn.length = 4 * P.numBodies)
    (hvel : velocities.length = 4 * P.numBodies)
    (hout : positionsOut.length = 4 * P.numBodies)
    (hout' : positionsOut'.length = 4 * P.numBodies) :
    (∃ vel out, bodyLoop A src P positionsIn velocities positionsOut = some (vel, out) ∧
      out.length = 4 * P.numBodies ∧ vel.length = 4 * P.numBodies ∧
      (∀ k, k < 4 * P.numBodies → out[k]? = some (posEntry A src P positionsIn velocities k)) ∧
      (∀ k, k < 4 * P.numBodies →
        vel[k]? = some (velEntry A src P positionsIn velocities k))) ∧
    bodyLoop A src P positionsIn velocities positionsOut =
      bodyLoop A src P positionsIn velocities positionsOut' ∧
    (∀ s : RefState F, iterationCpp A P s =
      (bodyLoop A .cpp P s.positions0 s.velocities s.positions1).bind fun r =>
        some (swapCpp { positions0 := s.positions0, positions1 := r.2, velocities := r.1 })) ∧
    (∀ s s' : RefStateC F, iterationC A P s = some s' → s'.positionsOut = s.positionsIn) := by
  have h1 := bodyLoop_eq A src P positionsIn velocities positionsOut hn hpin hvel hout
  have h2 := bodyLoop_eq A src P positionsIn velocities positionsOut' hn hpin hvel hout'
  refine ⟨⟨_, _, h1, (integrate_length A src P _).1, (integrate_length A src P _).2, ?_, ?_⟩,
    by rw [h1, h2], fun s => rfl, ?_⟩
  · intro k hk
    have hl : k < ((List.range (4 * P.numBodies)).map
        (posEntry A src P positionsIn velocities)).length := by simp [hk]
    show ((List.range (4 * P.numBodies)).map (posEntry A src P positionsIn velocities))[k]? = _
    rw [elem_eq A _ k hl, elem_map_range A _ _ k hk]
  · intro k hk
    have hl : k < ((List.range (4 * P.numBodies)).map
        (velEntry A src P positionsIn velocities)).length := by simp [hk]
    show ((List.range (4 * P.numBodies)).map (velEntry A src P positionsIn velocities))[k]? = _
    rw [elem_eq A _ k hl, elem_map_range A _ _ k hk]
  · intro s s' h
    rw [iterationC_eq_swapC] at h
    cases hb : bodyLoop A .c P s.positionsIn s.velocities s.positionsOut with
    | none => rw [hb] at h; exact absurd h (by simp)
    | some r =>
      rw [hb] at h
      simp only [Option.some_bind, Option.some.injEq] at h
      rw [← h]
      rfl

/-- C24, an instance: the same pass started from a zeroed and from a NaN-filled output
buffer. -/
theorem step_writes_every_output_entry_witness :
    demoParams.numBodies ≤ maxBodies .cpp ∧
      bodyLoop ieee32 .cpp demoParams demoPositions demoZeros demoZeros =
        bodyLoop ieee32 .cpp demoParams demoPositions demoZeros (List.replicate 8 F32.nan) :=
  ⟨by decide,
    (step_writes_every_output_entry ieee32 .cpp demoParams demoPositions demoZeros demoZeros
      (List.replicate 8 F32.nan) (by decide) (by decide) (by decide) (by decide)
      (by decide)).2.1⟩

/-! ## The bodies in any order -/

theorem doneBuf_length {F : Type} (A : Arith F) (n : Nat) (done : Nat → Bool) (new : Nat → F)
    (old : List F) : (doneBuf A n done new old).length = 4 * n := by
  simp [doneBuf]

theorem doneBuf_congr {F : Type} (A : Arith F) (n : Nat) (d1 d2 : Nat → Bool) (new : Nat → F)
    (old : List F) (h : ∀ i, i < n → d1 i = d2 i) :
    doneBuf A n d1 new old = doneBuf A n d2 new old := by
  apply List.ext_getElem
  · simp [doneBuf]
  · intro k h1 h2
    have hk : k < 4 * n := by simpa [doneBuf] using h1
    simp only [doneBuf, List.getElem_map, List.getElem_range]
    rw [h (k / 4) (by omega)]

theorem doneBuf_none {F : Type} (A : Arith F) (n : Nat) (new : Nat → F) (old : List F)
    (hlen : old.length = 4 * n) : doneBuf A n (fun _ => false) new old = old := by
  apply List.ext_getElem
  · simp [doneBuf, hlen]
  · intro k h1 h2
    simp [doneBuf, elem, List.getD_eq_getElem?_getD, List.getElem?_eq_getElem h2]

theorem doneBuf_all {F : Type} (A : Arith F) (n : Nat) (done : Nat → Bool) (new : Nat → F)
    (old : List F) (h : ∀ i, i < n → done i = true) :
    doneBuf A n done new old = (List.range (4 * n)).map new := by
  apply List.ext_getElem
  · simp [doneBuf]
  · intro k h1 h2
    have hk : k < 4 * n := by simpa [doneBuf] using h1
    simp [doneBuf, h (k / 4) (by omega)]

theorem elem_doneBuf {F : Type} (A : Arith F) (n : Nat) (done : Nat → Bool) (new : Nat → F)
    (old : List F) (k : Nat) (hk : k < 4 * n) :
    elem A (doneBuf A n done new old) k = if done (k / 4) then new k else elem A old k := by
  have h : k < (doneBuf A n done new old).length := by simp [doneBuf, hk]
  have := elem_eq A (doneBuf A n done new old) k h
  rw [List.getElem?_eq_getElem h] at this
  rw [← Option.some.inj this]
  simp [doneBuf]

theorem doneBuf_set4 {F : Type} (A : Arith F) (n m : Nat) (done : Nat → Bool)
    (new : Nat → F) (old : List F) :
    ((((doneBuf A n done new old).set (4 * m) (new (4 * m))).set (4 * m + 1)
        (new (4 * m + 1))).set (4 * m + 2) (new (4 * m + 2))).set (4 * m + 3)
        (new (4 * m + 3)) =
      doneBuf A n (fun i => decide (i = m) || done i) new old := by
  apply List.ext_getElem
  · simp [doneBuf]
  · intro k h1 h2
    have hk : k < 4 * n := by simpa [doneBuf] using h2
    simp only [List.getElem_set, doneBuf, List.getElem_map, List.getElem_range]
    by_cases c3 : 4 * m + 3 = k
    · subst c3
      have : (4 * m + 3) / 4 = m := by omega
      simp [this]
    · by_cases c2 : 4 * m + 2 = k
      · subst c2
        have : (4 * m + 2) / 4 = m := by omega
        simp [this]
      · by_cases c1 : 4 * m + 1 = k
        · subst c1
          have : (4 * m + 1) / 4 = m := by omega
          simp [this]
        · by_cases c0 : 4 * m = k
          · subst c0
            have : 4 * m / 4 = m := by omega
            simp [this]
          · have hne : k / 4 ≠ m := by omega
            simp [c3, c2, c1, c0, hne]

theorem doneBuf_set3 {F : Type} (A : Arith F) (n m : Nat) (done : Nat → Bool)
    (new : Nat → F) (old : List F) (hd : done m = false)
    (h3 : new (4 * m + 3) = elem A old (4 * m + 3)) :
    (((doneBuf A n done new old).set (4 * m) (new (4 * m))).set (4 * m + 1)
        (new (4 * m + 1))).set (4 * m + 2) (new (4 * m + 2)) =
      doneBuf A n (fun i => decide (i = m) || done i) new old := by
  apply List.ext_getElem
  · simp [doneBuf]
  · intro k h1 h2
    have hk : k < 4 * n := by simpa [doneBuf] using h2
    simp only [List.getElem_set, doneBuf, List.getElem_map, List.getElem_range]
    by_cases c2 : 4 * m + 2 = k
    · subst c2
      have : (4 * m + 2) / 4 = m := by omega
      simp [this]
    · by_cases c1 : 4 * m + 1 = k
      · subst c1
        have : (4 * m + 1) / 4 = m := by omega
        simp [this]
      · by_cases c0 : 4 * m = k
        · subst c0
          have : 4 * m / 4 = m := by omega
          simp [this]
        · by_cases c3 : 4 * m + 3 = k
          · subst c3
            have : (4 * m + 3) / 4 = m := by omega
            simp [this, hd, h3]
          · have hne : k / 4 ≠ m := by omega
            simp [c2, c1, c0, hne]

theorem xyzAt_doneBuf {F : Type} (A : Arith F) (n m : Nat) (done : Nat → Bool)
    (new : Nat → F) (old : List F) (hm : m < n) (hd : done m = false) :
    xyzAt A (doneBuf A n done new old) m = xyzAt A old m := by
  have d0 : 4 * m / 4 = m := by omega
  have d1 : (4 * m + 1) / 4 = m := by omega
  have d2 : (4 * m + 2) / 4 = m := by omega
  simp only [xyzAt]
  rw [elem_doneBuf A n done new old (4 * m) (by omega),
    elem_doneBuf A n done new old (4 * m + 1) (by omega),
    elem_doneBuf A n done new old (4 * m + 2) (by omega), d0, d1, d2, hd]
  simp

/-- The body of the loop over `i`, run for a body `m` not yet written on buffers in which
the bodies marked `done` have been written, writes body `m`. -/
theorem bodyUpdate_done {F : Type} (A : Arith F) (src : Source) (P : Params F)
    (positionsIn velocities positionsOut : List F) (done : Nat → Bool) (m : Nat)
    (hn : P.numBodies ≤ maxBodies src) (hpin : positionsIn.length = 4 * P.numBodies)
    (hm : m < P.numBodies) (hd : done m = false) :
    bodyUpdate A src P positionsIn
        (doneBuf A P.numBodies done (velEntry A src P positionsIn velocities) velocities,
         doneBuf A P.numBodies done (posEntry A src P positionsIn velocities) positionsOut)
        m =
      some
        (doneBuf A P.numBodies (fun i => decide (i = m) || done i)
          (velEntry A src P positionsIn velocities) velocities,
         doneBuf A P.numBodies (fun i => decide (i = m) || done i)
          (posEntry A src P positionsIn velocities) positionsOut) := by
  obtain ⟨v0, v1, v2, v3⟩ := velEntry_eq A src P positionsIn velocities m
  obtain ⟨p0, p1, p2, p3⟩ := posEntry_eq A src P positionsIn velocities m
  have hw3 := write3_eq src
    (doneBuf A P.numBodies done (velEntry A src P positionsIn velocities) velocities)
    P.numBodies m (velEntry A src P positionsIn velocities (4 * m))
    (velEntry A src P positionsIn velocities (4 * m + 1))
    (velEntry A src P positionsIn velocities (4 * m + 2)) hn (doneBuf_length _ _ _ _ _) hm
  have hw4 := write4_eq src
    (doneBuf A P.numBodies done (posEntry A src P positionsIn velocities) positionsOut)
    P.numBodies m (posEntry A src P positionsIn velocities (4 * m))
    (posEntry A src P positionsIn velocities (4 * m + 1))
    (posEntry A src P positionsIn velocities (4 * m + 2))
    (posEntry A src P positionsIn velocities (4 * m + 3)) hn (doneBuf_length _ _ _ _ _) hm
  rw [doneBuf_set3 A P.numBodies m done _ velocities hd v3] at hw3
  rw [doneBuf_set4 A P.numBodies m done _ positionsOut] at hw4
  rw [v0, v1, v2] at hw3
  rw [p0, p1, p2, p3] at hw4
  simp only [bodyUpdate, read4_eq A src positionsIn P.numBodies m hn hpin hm, bodyAt,
    Option.some_bind, forceLoop_eq A src P positionsIn m hn hpin,
    read3_eq A src _ P.numBodies m hn (doneBuf_length _ _ _ _ _) hm,
    xyzAt_doneBuf A P.numBodies m done _ velocities hm hd]
  have e1 : newVelocity A P.delta (xyzAt A velocities m) (force A src P positionsIn m) =
      velocityAfter A src P positionsIn velocities m := rfl
  have e2 : newPosition A P.delta
      (elem A positionsIn (4 * m), elem A positionsIn (4 * m + 1),
        elem A positionsIn (4 * m + 2))
      (velocityAfter A src P positionsIn velocities m) =
      positionAfter A src P positionsIn velocities m := rfl
  rw [e1, e2, hw3]
  simp only [Option.some_bind, hw4]

/-- Any list of distinct bodies not yet written is processed to completion, and marks
exactly these bodies as written. -/
theorem foldlM_bodyUpdate_done {F : Type} (A : Arith F) (src : Source) (P : Params F)
    (positionsIn velocities positionsOut : List F)
    (hn : P.numBodies ≤ maxBodies src) (hpin : positionsIn.length = 4 * P.numBodies)
    (order : List Nat) (done : Nat → Bool) (hnd : order.Nodup)
    (hord : ∀ i ∈ order, i < P.numBodies ∧ done i = false) :
    order.foldlM (bodyUpdate A src P positionsIn)
        (doneBuf A P.numBodies done (velEntry A src P positionsIn velocities) velocities,
         doneBuf A P.numBodies done (posEntry A src P positionsIn velocities) positionsOut) =
      some
        (doneBuf A P.numBodies (fun i => done i || decide (i ∈ order))
          (velEntry A src P positionsIn velocities) velocities,
         doneBuf A P.numBodies (fun i => done i || decide (i ∈ order))
          (posEntry A src P positionsIn velocities) positionsOut) := by
  induction order generalizing done with
  | nil => simp
  | cons a l ih =>
    have ha := hord a (List.mem_cons_self a l)
    have hnd' := List.nodup_cons.1 hnd
    rw [List.foldlM_cons,
      bodyUpdate_done A src P positionsIn velocities positionsOut done a hn hpin ha.1 ha.2]
    simp only [Option.some_bind, Option.bind_eq_bind]
    rw [ih (fun i => decide (i = a) || done i) hnd'.2]
    · have hc : ∀ i, i < P.numBodies →
          ((decide (i = a) || done i) || decide (i ∈ l)) =
            (done i || decide (i ∈ a :: l)) := by
        intro i _
        by_cases h1 : i = a <;> by_cases h2 : i ∈ l <;> cases done i <;> simp [h1, h2]
      rw [doneBuf_congr A P.numBodies _ _ (velEntry A src P positionsIn velocities) velocities
          hc,
        doneBuf_congr A P.numBodies _ _ (posEntry A src P positionsIn velocities) positionsOut
          hc]
    · intro i hi
      have hia : i ≠ a := fun h => hnd'.1 (h ▸ hi)
      have := hord i (List.mem_cons_of_mem a hi)
      exact ⟨this.1, by simp [hia, this.2]⟩

/-- C23. For every input state and every permutation `order` of the body indices
`0..numBodies-1`, the loop over the bodies taken in that order runs to completion and gives
the same output positions and velocities as the loop in increasing order, namely those of
the single-step update; the new velocity and position of body `i` are computed from the
input positions and the velocity of body `i` alone (any velocity buffer that agrees on
body `i` gives the same). -/
theorem bodies_in_any_order_give_the_same_step {F : Type} (A : Arith F) (src : Source)
    (P : Params F) (positionsIn velocities positionsOut : List F) (order : List Nat)
    (hn : P.numBodies ≤ maxBodies src) (hpin : positionsIn.length = 4 * P.numBodies)
    (hvel : velocities.length = 4 * P.numBodies)
    (hout : positionsOut.length = 4 * P.numBodies)
    (hperm : order.Perm (List.range P.numBodies)) :
    bodyLoopIn A src P order positionsIn velocities positionsOut =
      bodyLoop A src P positionsIn velocities positionsOut ∧
    bodyLoopIn A src P order positionsIn velocities positionsOut =
      some ((integrate A src P (positionsIn, velocities)).2,
        (integrate A src P (positionsIn, velocities)).1) ∧
    (∀ i (velocities' : List F), xyzAt A velocities' i = xyzAt A velocities i →
      velocityAfter A src P positionsIn velocities' i =
          velocityAfter A src P positionsIn velocities i ∧
        positionAfter A src P positionsIn velocities' i =
          positionAfter A src P positionsIn velocities i) := by
  have hnd : order.Nodup := hperm.nodup_iff.2 (List.nodup_range _)
  have hmem : ∀ i, i ∈ order ↔ i < P.numBodies := by
    intro i
    rw [hperm.mem_iff, List.mem_range]
  have h := foldlM_bodyUpdate_done A src P positionsIn velocities positionsOut hn hpin order
    (fun _ => false) hnd (fun i hi => ⟨(hmem i).1 hi, rfl⟩)
  rw [doneBuf_none A P.numBodies _ velocities hvel,
    doneBuf_none A P.numBodies _ positionsOut hout,
    doneBuf_all A P.numBodies _ _ velocities (by intro i hi; simp [(hmem i).2 hi]),
    doneBuf_all A P.numBodies _ _ positionsOut (by intro i hi; simp [(hmem i).2 hi])] at h
  have hb := bodyLoop_eq A src P positionsIn velocities positionsOut hn hpin hvel hout
  refine ⟨?_, ?_, ?_⟩
  · rw [hb]
    exact h
  · exact h
  · intro i velocities' hv
    have h1 : velocityAfter A src P positionsIn velocities' i =
        velocityAfter A src P positionsIn velocities i := by
      simp only [velocityAfter, hv]
    exact ⟨h1, by simp only [positionAfter, h1]⟩

/-- C23, an instance: two bodies processed in the order 1, 0. -/
theorem bodies_in_any_order_give_the_same_step_witness :
    demoParams.numBodies ≤ maxBodies .c ∧ [1, 0].Perm (List.range demoParams.numBodies) ∧
      bodyLoopIn ieee32 .c demoParams [1, 0] demoPositions demoZeros demoZeros =
        bodyLoop ieee32 .c demoParams demoPositions demoZeros demoZeros :=
  ⟨by decide, by decide,
    (bodies_in_any_order_give_the_same_step ieee32 .c demoParams demoPositions demoZeros
      demoZeros [1, 0] (by decide) (by decide) (by decide) (by decide) (by decide)).1⟩

/-! ## The C++ and the C `runReference` -/

theorem iterationCppGL_eq {F : Type} (A : Arith F) (P : Params F) (s : RefState F)
    (hn : P.numBodies ≤ maxBodies .cppGL) (h0 : s.positions0.length = 4 * P.numBodies)
    (h1 : s.positions1.length = 4 * P.numBodies)
    (hv : s.velocities.length = 4 * P.numBodies) :
    iterationCppGL A P s =
      some { positions0 := (integrate A .cppGL P (s.positions0, s.velocities)).1
             positions1 := (integrate A .cppGL P (s.positions0, s.velocities)).1
             velocities := (integrate A .cppGL P (s.positions0, s.velocities)).2 } := by
  simp [iterationCppGL,
    bodyLoop_eq A .cppGL P s.positions0 s.velocities s.positions1 hn h0 hv h1]

theorem iterateCppGL_eq {F : Type} (A : Arith F) (P : Params F) (k : Nat) (s : RefState F)
    (hn : P.numBodies ≤ maxBodies .cppGL) (h0 : s.positions0.length = 4 * P.numBodies)
    (h1 : s.positions1.length = 4 * P.numBodies)
    (hv : s.velocities.length = 4 * P.numBodies) :
    ∃ s', iterateCppGL A P k s = some s' ∧
      (s'.positions0, s'.velocities) =
        (integrate A .cppGL P)^[k] (s.positions0, s.velocities) := by
  induction k generalizing s with
  | zero => exact ⟨s, rfl, rfl⟩
  | succ k ih =>
    obtain ⟨l1, l2⟩ := integrate_length A .cppGL P (s.positions0, s.velocities)
    obtain ⟨s', e1, e2⟩ := ih
      { positions0 := (integrate A .cppGL P (s.positions0, s.velocities)).1
        positions1 := (integrate A .cppGL P (s.positions0, s.velocities)).1
        velocities := (integrate A .cppGL P (s.positions0, s.velocities)).2 } l1 l1 l2
    refine ⟨s', ?_, ?_⟩
    · simp only [iterateCppGL, iterationCppGL_eq A P s hn h0 h1 hv, Option.some_bind]
      exact e1
    · rw [Function.iterate_succ_apply]
      exact e2

/-- The function `runReference` of `solutions/NBody-GL/nbody.cpp` runs to completion and
returns the positions of the iterated single-step update. -/
theorem runReferenceGL_eq {F : Type} (A : Arith F) (P : Params F)
    (initialPositions initialVelocities : List F)
    (hn : P.numBodies ≤ maxBodies .cppGL)
    (hpos : initialPositions.length = 4 * P.numBodies)
    (hvel : initialVelocities.length = 4 * P.numBodies) :
    runReferenceGL A P initialPositions initialVelocities =
      some ((integrate A .cppGL P)^[P.iterations] (initialPositions, initialVelocities)).1 := by
  have h30 : (2 : Nat) ^ 30 = 1073741824 := by norm_num
  have h32 : (2 : Nat) ^ 32 = 4294967296 := by norm_num
  have hlt : 4 * P.numBodies < 4294967296 := by
    simp only [maxBodies, h30] at hn
    omega
  have hrep : (List.replicate ((4 * P.numBodies) % 2 ^ 32) A.zero).length =
      4 * P.numBodies := by
    rw [List.length_replicate, h32, Nat.mod_eq_of_lt hlt]
  obtain ⟨s', e1, e2⟩ := iterateCppGL_eq A P P.iterations
    { positions0 := initialPositions
      positions1 := List.replicate ((4 * P.numBodies) % 2 ^ 32) A.zero
      velocities := initialVelocities } hn hpos hrep hvel
  simp only [runReferenceGL, e1, Option.map_some']
  rw [← e2]

/-- The single-step update depends on the source text through the coefficient only. -/
theorem integrate_of_coeff {F : Type} (A : Arith F) (s1 s2 : Source) (P : Params F)
    (h : ∀ w d, coeff A s1 w d = coeff A s2 w d) : integrate A s1 P = integrate A s2 P := by
  have hi : ∀ s x y z f pj, interact A s1 s x y z f pj = interact A s2 s x y z f pj := by
    intro s x y z f pj
    simp only [interact, h]
  have hf : ∀ pos i, force A s1 P pos i = force A s2 P pos i := by
    intro pos i
    simp only [force, hi]
  have hv : ∀ pos vel i, velocityAfter A s1 P pos vel i = velocityAfter A s2 P pos vel i := by
    intro pos vel i
    simp only [velocityAfter, hf]
  have hp : ∀ pos vel i, positionAfter A s1 P pos vel i = positionAfter A s2 P pos vel i := by
    intro pos vel i
    simp only [positionAfter, hv]
  funext s
  have e1 : posEntry A s1 P s.1 s.2 = posEntry A s2 P s.1 s.2 := by
    funext k
    simp only [posEntry, hp]
  have e2 : velEntry A s1 P s.1 s.2 = velEntry A s2 P s.1 s.2 := by
    funext k
    simp only [velEntry, hv]
  simp only [integrate, e1, e2]

/-- C26. For every initial state of `4*numBodies` elements and every iteration count, the
C++ `runReference` of `solutions/NBody-GL/nbody.cpp`, whose swap assigns vector contents,
and the C `runReference`, which swaps two pointers, both run to completion and return the
same final positions, whatever the block that `malloc` returned held; the same holds for
the C++ text of `exercises/NBody/nbody.cpp` when its coefficient form computes the same
values as that of the C text. -/
theorem cpp_and_c_runReference_return_the_same {F : Type} (A : Arith F) (P : Params F)
    (initialPositions initialVelocities scratch : List F)
    (hn : P.numBodies ≤ maxBodies .c)
    (hpos : initialPositions.length = 4 * P.numBodies)
    (hvel : initialVelocities.length = 4 * P.numBodies)
    (hscr : scratch.length = 4 * P.numBodies) :
    runReferenceGL A P initialPositions initialVelocities =
      runReferenceC A P initialPositions initialVelocities scratch ∧
    runReferenceGL A P initialPositions initialVelocities =
      some ((integrate A .c P)^[P.iterations] (initialPositions, initialVelocities)).1 ∧
    ((∀ w d, coeff A .cpp w d = coeff A .c w d) →
      runReference A P initialPositions initialVelocities =
        runReferenceC A P initialPositions initialVelocities scratch) := by
  have hgl : P.numBodies ≤ maxBodies .cppGL := le_trans hn (by decide)
  have hcpp : P.numBodies ≤ maxBodies .cpp := le_trans hn (by decide)
  have e1 := runReferenceGL_eq A P initialPositions initialVelocities hgl hpos hvel
  have e2 := runReferenceC_eq A P initialPositions initialVelocities scratch hn hpos hvel hscr
  have e3 : integrate A .cppGL P = integrate A .c P :=
    integrate_of_coeff A .cppGL .c P (fun _ _ => rfl)
  rw [e3] at e1
  refine ⟨by rw [e1, e2], e1, ?_⟩
  intro hc
  rw [runReference_eq A P initialPositions initialVelocities hcpp hpos hvel, e2,
    integrate_of_coeff A .cpp .c P hc]

/-- C26, an instance: the two-body demonstration input in binary32. -/
theorem cpp_and_c_runReference_return_the_same_witness :
    demoParams.numBodies ≤ maxBodies .c ∧
      demoPositions.length = 4 * demoParams.numBodies ∧
      demoZeros.length = 4 * demoParams.numBodies ∧
      (List.replicate 8 F32.nan).length = 4 * demoParams.numBodies ∧
      runReferenceGL ieee32 demoParams demoPositions demoZeros =
        runReferenceC ieee32 demoParams demoPositions demoZeros (List.replicate 8 F32.nan) :=
  ⟨by decide, by decide, by decide, by decide,
    (cpp_and_c_runReference_return_the_same ieee32 demoParams demoPositions demoZeros
      (List.replicate 8 F32.nan) (by decide) (by decide) (by decide) (by decide)).1⟩

/-! ## The interactive loops -/

theorem roleAt_succ {B : Type} (a b : B) (k : Nat) : roleAt a b (k + 1) = roleAt b a k := by
  simp only [roleAt]
  rcases Nat.mod_two_eq_zero_or_one k with h | h
  · have : (k + 1) % 2 = 1 := by omega
    simp [h, this]
  · have : (k + 1) % 2 = 0 := by omega
    simp [h, this]

theorem passOf_succ {B : Type} (body : B → B → List (Call B)) (a b : B) (n k : Nat) :
    passOf body a b (n + 1) (k + 1) = passOf body b a n k := by
  simp only [passOf, roleAt_succ, Nat.add_right_cancel_iff]

theorem range_map_passOf {B : Type} (body : B → B → List (Call B)) (a b : B) (n : Nat) :
    (List.range (n + 2)).map (passOf body a b (n + 1)) =
      (body a b ++ [Call.poll false, Call.swap]) ::
        (List.range (n + 1)).map (passOf body b a n) := by
  rw [List.range_succ_eq_map (n + 1), List.map_cons, List.map_map]
  have h0 : passOf body a b (n + 1) 0 = body a b ++ [Call.poll false, Call.swap] := by
    simp [passOf, roleAt]
  have h1 : (passOf body a b (n + 1)) ∘ Nat.succ = passOf body b a n := by
    funext k
    exact passOf_succ body a b n k
  rw [h0, h1]

/-- A run whose first stop is reported at the poll of pass `n` makes the passes
`0, 1, ..., n` and leaves the loop; the results after it are not asked for. -/
theorem interactiveLoop_stopped {B : Type} (body : B → B → List (Call B)) (n : Nat)
    (rest : List Bool) (s : Interactive B) :
    interactiveLoop body (List.replicate n false ++ true :: rest) s =
      { input := roleAt s.input s.output n, output := roleAt s.output s.input n,
        passes := s.passes ++ (List.range (n + 1)).map (passOf body s.input s.output n),
        stopped := true } := by
  induction n generalizing s with
  | zero =>
    have h : (List.range 1).map (passOf body s.input s.output 0) =
        [body s.input s.output ++ [Call.poll true]] := rfl
    simp [interactiveLoop, roleAt, h]
  | succ n ih =>
    rw [List.replicate_succ, List.cons_append, interactiveLoop]
    simp only [Bool.false_eq_true, if_false]
    rw [ih, range_map_passOf]
    simp only [roleAt_succ, List.append_assoc, List.singleton_append]

theorem flatten_map_dispatchesAndPolls {B : Type} (body : B → B → List (Call B)) (a b : B)
    (hbody : ∀ x y, dispatchesAndPolls (body x y) = [none]) (n m : Nat) (hm : m ≤ n) :
    dispatchesAndPolls ((List.range m).map (passOf body a b n)).flatten =
      (List.replicate m [none, some false]).flatten := by
  induction m with
  | zero => rfl
  | succ m ih =>
    have hne : m ≠ n := by omega
    have h1 : dispatchesAndPolls (passOf body a b n m) = [none, some false] := by
      have := hbody (roleAt a b m) (roleAt b a m)
      simp only [dispatchesAndPolls] at this
      simp [passOf, dispatchesAndPolls, List.filterMap_append, this, hne]
    have h2 : ∀ xs ys : List (Call B),
        dispatchesAndPolls (xs ++ ys) = dispatchesAndPolls xs ++ dispatchesAndPolls ys := by
      intro xs ys
      simp [dispatchesAndPolls, List.filterMap_append]
    rw [List.range_succ, List.map_append, List.flatten_append, h2, ih (by omega)]
    simp only [List.map_cons, List.map_nil, List.flatten_cons, List.flatten_nil,
      List.append_nil, h1]
    rw [List.replicate_succ']
    simp

/-- The dispatches and polls of a run stopped at the poll of pass `n`, for a loop body
that holds one dispatch and no poll: `n` times a dispatch and a poll that reports no stop,
then a dispatch and the poll that reports the stop. -/
theorem dispatchesAndPolls_stopped {B : Type} (body : B → B → List (Call B)) (a b : B)
    (hbody : ∀ x y, dispatchesAndPolls (body x y) = [none]) (n : Nat) :
    dispatchesAndPolls ((List.range (n + 1)).map (passOf body a b n)).flatten =
      (List.replicate n [none, some false]).flatten ++ [none, some true] := by
  have h2 : ∀ xs ys : List (Call B),
      dispatchesAndPolls (xs ++ ys) = dispatchesAndPolls xs ++ dispatchesAndPolls ys := by
    intro xs ys
    simp [dispatchesAndPolls, List.filterMap_append]
  have h1 : dispatchesAndPolls (passOf body a b n n) = [none, some true] := by
    have := hbody (roleAt a b n) (roleAt b a n)
    simp only [dispatchesAndPolls] at this
    simp [passOf, dispatchesAndPolls, List.filterMap_append, this]
  rw [List.range_succ, List.map_append, List.flatten_append, h2,
    flatten_map_dispatchesAndPolls body a b hbody n n (le_refl _)]
  simp [h1]

theorem dispatchesAndPolls_append {B : Type} (xs ys : List (Call B)) :
    dispatchesAndPolls (xs ++ ys) = dispatchesAndPolls xs ++ dispatchesAndPolls ys := by
  simp [dispatchesAndPolls, List.filterMap_append]

theorem dispatchesAndPolls_passOf {B : Type} (body : B → B → List (Call B)) (a b : B)
    (hbody : ∀ x y, dispatchesAndPolls (body x y) = [none]) (n k : Nat) :
    dispatchesAndPolls (passOf body a b n k) = [none, some (decide (k = n))] := by
  rw [passOf, dispatchesAndPolls_append, hbody]
  by_cases h : k = n <;> simp [h, dispatchesAndPolls]

theorem count_none_stopped (n : Nat) :
    ((List.replicate n [none, some false]).flatten ++
      [(none : Option Bool), some true]).count none = n + 1 := by
  induction n with
  | zero => rfl
  | succ n ih =>
    rw [List.replicate_succ, List.flatten_cons, List.append_assoc, List.count_append, ih]
    have : ([none, some false] : List (Option Bool)).count none = 1 := rfl
    omega

theorem dispatchesAndPolls_passGL (x y : Buffer) : dispatchesAndPolls (passGL x y) = [none] :=
  rfl

theorem dispatchesAndPolls_passVBOC (useGLInterop : Bool) (x y : Nat) :
    dispatchesAndPolls (passVBOC useGLInterop x y) = [none] := by
  cases useGLInterop <;> rfl

/-- C21. In a run of the interactive loop whose first stop is reported at the poll of pass
`n` (whatever later polls would report), the loop is left; it has made `n + 1` passes; each
pass holds exactly one dispatch and, after it, exactly one poll; the dispatches and polls
of the whole run (the read-back of `nbody.c` included) are `n` times a dispatch followed by
a poll without stop, then one dispatch followed by the poll that reports the stop, and
nothing after it: `n + 1` dispatches.  This holds for `solutions/NBody-GL/nbody.c` and for
`solutions/NBody-GL-VBO/nbody-c.cpp`, with and without GL interop. -/
theorem poll_follows_each_dispatch_and_stop_ends_the_run (n : Nat) (rest : List Bool)
    (useGLInterop : Bool) :
    ((glRun (List.replicate n false ++ true :: rest)).stopped = true ∧
      (glRun (List.replicate n false ++ true :: rest)).passes.length = n + 1 ∧
      (∀ p ∈ (glRun (List.replicate n false ++ true :: rest)).passes,
        ∃ stop, dispatchesAndPolls p = [none, some stop]) ∧
      dispatchesAndPolls (glCalls (List.replicate n false ++ true :: rest)) =
        (List.replicate n [none, some false]).flatten ++ [none, some true] ∧
      (dispatchesAndPolls (glCalls (List.replicate n false ++ true :: rest))).count none =
        n + 1) ∧
    ((vboCRun useGLInterop (List.replicate n false ++ true :: rest)).stopped = true ∧
      (vboCRun useGLInterop (List.replicate n false ++ true :: rest)).passes.length = n + 1 ∧
      (∀ p ∈ (vboCRun useGLInterop (List.replicate n false ++ true :: rest)).passes,
        ∃ stop, dispatchesAndPolls p = [none, some stop]) ∧
      dispatchesAndPolls
          (vboCRun useGLInterop (List.replicate n false ++ true :: rest)).passes.flatten =
        (List.replicate n [none, some false]).flatten ++ [none, some true] ∧
      (dispatchesAndPolls
          (vboCRun useGLInterop
            (List.replicate n false ++ true :: rest)).passes.flatten).count none = n + 1) := by
  have hg := interactiveLoop_stopped passGL n rest glInit
  have hv := interactiveLoop_stopped (passVBOC useGLInterop) n rest vboInit
  have hgd := dispatchesAndPolls_stopped passGL glInit.input glInit.output
    dispatchesAndPolls_passGL n
  have hvd := dispatchesAndPolls_stopped (passVBOC useGLInterop) vboInit.input vboInit.output
    (dispatchesAndPolls_passVBOC useGLInterop) n
  have hgp : (glRun (List.replicate n false ++ true :: rest)).passes =
      (List.range (n + 1)).map (passOf passGL glInit.input glInit.output n) := by
    simp only [glRun, hg]
    rfl
  have hvp : (vboCRun useGLInterop (List.replicate n false ++ true :: rest)).passes =
      (List.range (n + 1)).map
        (passOf (passVBOC useGLInterop) vboInit.input vboInit.output n) := by
    simp only [vboCRun, hv]
    rfl
  have hgc : dispatchesAndPolls (glCalls (List.replicate n false ++ true :: rest)) =
      (List.replicate n [none, some false]).flatten ++ [none, some true] := by
    have h0 : glCalls (List.replicate n false ++ true :: rest) =
        (glRun (List.replicate n false ++ true :: rest)).passes.flatten ++
          [Call.readBack (glRun (List.replicate n false ++ true :: rest)).input] := rfl
    rw [h0, dispatchesAndPolls_append, hgp, hgd]
    simp [dispatchesAndPolls]
  refine ⟨⟨?_, ?_, ?_, hgc, ?_⟩, ⟨?_, ?_, ?_, ?_, ?_⟩⟩
  · simp only [glRun, hg]
  · simp [hgp]
  · intro p hp
    rw [hgp, List.mem_map] at hp
    obtain ⟨k, _, hk⟩ := hp
    subst hk
    exact ⟨_, dispatchesAndPolls_passOf passGL _ _ dispatchesAndPolls_passGL n k⟩
  · rw [hgc]
    exact count_none_stopped n
  · simp only [vboCRun, hv]
  · simp [hvp]
  · intro p hp
    rw [hvp, List.mem_map] at hp
    obtain ⟨k, _, hk⟩ := hp
    subst hk
    exact ⟨_, dispatchesAndPolls_passOf (passVBOC useGLInterop) _ _
      (dispatchesAndPolls_passVBOC useGLInterop) n k⟩
  · rw [hvp, hvd]
  · rw [hvp, hvd]
    exact count_none_stopped n

theorem foldl_waitScan_none {B : Type} (calls : List (Call B)) :
    calls.foldl waitScan none = none := by
  induction calls with
  | nil => rfl
  | cons c cs ih => simpa [List.foldl_cons, waitScan] using ih

/-- An interactive loop whose body, started with no dispatch pending, ends with none pending
keeps this at the end of every pass, for every sequence of poll results. -/
theorem interactiveLoop_waits {B : Type} (body : B → B → List (Call B))
    (hbody : ∀ x y, (body x y).foldl waitScan (some false) = some false)
    (polls : List Bool) (s : Interactive B)
    (hs : s.passes.flatten.foldl waitScan (some false) = some false) :
    (interactiveLoop body polls s).passes.flatten.foldl waitScan (some false) =
      some false := by
  induction polls generalizing s with
  | nil => exact hs
  | cons stop polls ih =>
    rw [interactiveLoop]
    cases stop with
    | true =>
      simp only [if_true, List.flatten_append, List.foldl_append, hs, List.flatten_cons,
        List.flatten_nil, List.append_nil, hbody]
      rfl
    | false =>
      simp only [Bool.false_eq_true, if_false]
      apply ih
      simp only [List.flatten_append, List.foldl_append, hs, List.flatten_cons,
        List.flatten_nil, List.append_nil, hbody]
      rfl

theorem simulationLoop_launches (k : Nat) (s : LoopState) :
    (simulationLoop k s).launches =
      s.launches ++ (List.range k).map fun j =>
        (roleAt s.d_positionsIn s.d_positionsOut j, roleAt s.d_positionsOut s.d_positionsIn j) := by
  induction k generalizing s with
  | zero => simp [simulationLoop]
  | succ k ih =>
    rw [simulationLoop, ih, List.range_succ_eq_map, List.map_cons, List.map_map]
    simp only [loopPass, List.append_assoc, List.singleton_append]
    congr 2
    apply List.map_congr_left
    intro j _
    simp only [Function.comp, Nat.succ_eq_add_one, roleAt_succ]

theorem fixedCalls_eq (iterations : Nat) :
    fixedCalls iterations =
      ((List.range iterations).map fun j =>
          [Call.dispatch (roleAt Buffer.d_positions0 Buffer.d_positions1 j)
              (roleAt Buffer.d_positions1 Buffer.d_positions0 j), Call.swap]).flatten ++
        [Call.readBack (roleAt Buffer.d_positions0 Buffer.d_positions1 iterations)] := by
  have h1 := simulationLoop_launches iterations loopInit
  have h2 := (simulationLoop_roles iterations loopInit).1
  rw [fixedCalls, h1, h2]
  simp only [loopInit, List.nil_append, List.map_map]
  rfl

theorem filter_waits_flatten {B α : Type} (f : α → List (Call B)) (l : List α)
    (h : ∀ x, (f x).filter Call.waits = []) : (l.map f).flatten.filter Call.waits = [] := by
  induction l with
  | nil => rfl
  | cons a l ih => simp [List.filter_append, h, ih]

/-- C25 fails as stated on the loop of `exercises/NBody/nbody.cpp`.  With two iterations the
host enqueues the kernel, swaps, and enqueues the kernel again; no wait stands between the
two dispatches.  The loop of `solutions/NBody-GL-VBO/nbody.cpp` with GL interop only
flushes the queue between two dispatches. -/
theorem fixed_loop_does_not_wait_between_dispatches :
    fixedCalls 2 =
      [Call.dispatch Buffer.d_positions0 Buffer.d_positions1, Call.swap,
        Call.dispatch Buffer.d_positions1 Buffer.d_positions0, Call.swap,
        Call.readBack Buffer.d_positions0] ∧
    waitsBetweenDispatches (fixedCalls 2) = false ∧
    (vboRun true [false, true]).passes.flatten =
      [Call.dispatch 0 1, Call.flush, Call.draw 1, Call.present, Call.poll false, Call.swap,
        Call.dispatch 1 0, Call.flush, Call.draw 0, Call.present, Call.poll true] ∧
    waitsBetweenDispatches (vboRun true [false, true]).passes.flatten = false := by
  decide

/-- C25, amended.  In the interactive loops that call `clFinish` or `queue.finish()`
(`solutions/NBody-GL/nbody.c`, `solutions/NBody-GL/nbody.cpp`,
`solutions/NBody-GL-VBO/nbody-c.cpp`), and in `solutions/NBody-GL-VBO/nbody.cpp` without GL
interop (blocking map), the host waits after every dispatch before the swap and the
dispatch that follow it, for every sequence of poll results.  The loop of `exercises/NBody/nbody.cpp` only enqueues and swaps:
its one wait is the read-back after the loop, and with two or more iterations no wait
stands between a dispatch and the swap and dispatch that follow it. -/
theorem interactive_loops_wait_between_dispatches (polls : List Bool) (useGLInterop : Bool)
    (iterations : Nat) (hit : 2 ≤ iterations) :
    waitsBetweenDispatches (glRun polls).passes.flatten = true ∧
    waitsBetweenDispatches (glCalls polls) = true ∧
    waitsBetweenDispatches (vboCRun useGLInterop polls).passes.flatten = true ∧
    waitsBetweenDispatches (vboRun false polls).passes.flatten = true ∧
    (fixedCalls iterations).filter Call.waits =
      [Call.readBack (roleAt Buffer.d_positions0 Buffer.d_positions1 iterations)] ∧
    waitsBetweenDispatches (fixedCalls iterations) = false := by
  have hg := interactiveLoop_waits passGL (fun _ _ => rfl) polls glInit rfl
  have hc := interactiveLoop_waits (passVBOC useGLInterop)
    (fun _ _ => by cases useGLInterop <;> rfl) polls vboInit rfl
  have hv := interactiveLoop_waits (passVBO false) (fun _ _ => rfl) polls vboInit rfl
  refine ⟨?_, ?_, ?_, ?_, ?_, ?_⟩
  · simp only [waitsBetweenDispatches, glRun, hg]
    rfl
  · simp only [waitsBetweenDispatches, glCalls, List.foldl_append, hg]
    rfl
  · simp only [waitsBetweenDispatches, vboCRun, hc]
    rfl
  · simp only [waitsBetweenDispatches, vboRun, hv]
    rfl
  · rw [fixedCalls_eq, List.filter_append,
      filter_waits_flatten (fun j =>
        [Call.dispatch (roleAt Buffer.d_positions0 Buffer.d_positions1 j)
          (roleAt Buffer.d_positions1 Buffer.d_positions0 j), Call.swap]) _ (fun _ => rfl)]
    rfl
  · obtain ⟨m, hm⟩ : ∃ m, iterations = m + 2 := ⟨iterations - 2, by omega⟩
    subst hm
    obtain ⟨cs, hcs⟩ : ∃ cs, fixedCalls (m + 2) =
        [Call.dispatch Buffer.d_positions0 Buffer.d_positions1, Call.swap,
          Call.dispatch Buffer.d_positions1 Buffer.d_positions0] ++ cs := by
      rw [fixedCalls_eq, List.range_succ_eq_map, List.map_cons, List.map_map,
        List.range_succ_eq_map, List.map_cons, List.map_map]
      exact ⟨_, rfl⟩
    rw [hcs, waitsBetweenDispatches, List.foldl_append]
    have h3 : ([Call.dispatch Buffer.d_positions0 Buffer.d_positions1, Call.swap,
        Call.dispatch Buffer.d_positions1 Buffer.d_positions0]).foldl waitScan (some false) =
        none := rfl
    rw [h3, foldl_waitScan_none]
    rfl

/-- C25, amended, an instance: a run of three passes and a loop of three iterations. -/
theorem interactive_loops_wait_between_dispatches_witness :
    2 ≤ 3 ∧ waitsBetweenDispatches (glCalls [false, false, true]) = true ∧
      waitsBetweenDispatches (fixedCalls 3) = false :=
  have h := interactive_loops_wait_between_dispatches [false, false, true] true 3 (by decide)
  ⟨by decide, h.2.1, h.2.2.2.2.2⟩

/-! ## The read-back of a cancelled run -/

theorem roleAt_ne (k : Nat) :
    roleAt Buffer.d_positions0 Buffer.d_positions1 k ≠
      roleAt Buffer.d_positions1 Buffer.d_positions0 k := by
  simp only [roleAt]
  rcases Nat.mod_two_eq_zero_or_one k with h | h <;> simp [h]

/-- One pass of the loop on the device: the output buffer receives the result of the
kernel, the input buffer is left as it was, and the frame drawn is the output. -/
theorem run_passGL {F : Type} (kernel : List F × List F → List F × List F) (d : Device F)
    (a b : Buffer) (hab : a ≠ b) (tail : List (Call Buffer))
    (htail : tail = [Call.poll false, Call.swap] ∨ tail = [Call.poll true]) :
    (Device.run kernel d (passGL a b ++ tail)).get b = (kernel (d.get a, d.d_velocities)).1 ∧
    (Device.run kernel d (passGL a b ++ tail)).get a = d.get a ∧
    (Device.run kernel d (passGL a b ++ tail)).d_velocities =
      (kernel (d.get a, d.d_velocities)).2 ∧
    (Device.run kernel d (passGL a b ++ tail)).frames =
      d.frames ++ [(kernel (d.get a, d.d_velocities)).1] ∧
    (Device.run kernel d (passGL a b ++ tail)).h_positions = d.h_positions := by
  rcases htail with h | h <;> subst h <;> cases a <;> cases b <;>
    first
      | exact absurd rfl hab
      | exact ⟨rfl, rfl, rfl, rfl, rfl⟩

theorem run_append {F : Type} (kernel : List F × List F → List F × List F) (d : Device F)
    (xs ys : List (Call Buffer)) :
    Device.run kernel d (xs ++ ys) = Device.run kernel (Device.run kernel d xs) ys := by
  simp [Device.run, List.foldl_append]

/-- The device after the first `m` passes of a run that is stopped at pass `n ≥ m`: the
buffer in the input role holds the positions after `m` steps. -/
theorem run_passes {F : Type} (kernel : List F × List F → List F × List F)
    (initialPositions initialVelocities created : List F) (n m : Nat) (hm : m ≤ n) :
    (Device.run kernel (deviceInit initialPositions initialVelocities created)
        ((List.range m).map
          (passOf passGL Buffer.d_positions0 Buffer.d_positions1 n)).flatten).get
        (roleAt Buffer.d_positions0 Buffer.d_positions1 m) =
      (kernel^[m] (initialPositions, initialVelocities)).1 ∧
    (Device.run kernel (deviceInit initialPositions initialVelocities created)
        ((List.range m).map
          (passOf passGL Buffer.d_positions0 Buffer.d_positions1 n)).flatten).d_velocities =
      (kernel^[m] (initialPositions, initialVelocities)).2 ∧
    (Device.run kernel (deviceInit initialPositions initialVelocities created)
        ((List.range m).map
          (passOf passGL Buffer.d_positions0 Buffer.d_positions1 n)).flatten).frames =
      (List.range m).map (fun k => (kernel^[k + 1] (initialPositions, initialVelocities)).1) ∧
    (Device.run kernel (deviceInit initialPositions initialVelocities created)
        ((List.range m).map
          (passOf passGL Buffer.d_positions0 Buffer.d_positions1 n)).flatten).h_positions =
      none := by
  induction m with
  | zero => exact ⟨rfl, rfl, rfl, rfl⟩
  | succ m ih =>
    obtain ⟨i1, i2, i3, i4⟩ := ih (by omega)
    have hne : m ≠ n := by omega
    have hp : passOf passGL Buffer.d_positions0 Buffer.d_positions1 n m =
        passGL (roleAt Buffer.d_positions0 Buffer.d_positions1 m)
          (roleAt Buffer.d_positions1 Buffer.d_positions0 m) ++
          [Call.poll false, Call.swap] := by
      simp [passOf, hne]
    rw [List.range_succ, List.map_append, List.flatten_append, run_append]
    simp only [List.map_cons, List.map_nil, List.flatten_cons, List.flatten_nil,
      List.append_nil, hp]
    obtain ⟨r1, _, r3, r4, r5⟩ := run_passGL kernel
      (Device.run kernel (deviceInit initialPositions initialVelocities created)
        ((List.range m).map
          (passOf passGL Buffer.d_positions0 Buffer.d_positions1 n)).flatten)
      (roleAt Buffer.d_positions0 Buffer.d_positions1 m)
      (roleAt Buffer.d_positions1 Buffer.d_positions0 m) (roleAt_ne m)
      [Call.poll false, Call.swap] (Or.inl rfl)
    rw [i1, i2] at r1 r3 r4
    rw [i3] at r4
    rw [i4] at r5
    refine ⟨?_, ?_, ?_, r5⟩
    · rw [roleAt_succ, r1, Function.iterate_succ_apply']
    · rw [r3, Function.iterate_succ_apply']
    · rw [r4]
      simp [List.range_succ, Function.iterate_succ_apply']

/-- C27. In `solutions/NBody-GL/nbody.c`, when the first stop is reported at the poll of
pass `n`, the last pass has no swap: the calls end with the dispatch from the input to the
output buffer, the draw of the output buffer, the poll, and the read-back of the input
buffer `d_positionsIn`.  The positions read back are those after `n` steps of the kernel,
the input of the last dispatch; the frames drawn are the positions after `1, ..., n + 1`
steps, so the last frame drawn is the output of the last dispatch. -/
theorem cancelled_run_reads_back_the_input_of_the_last_step {F : Type}
    (kernel : List F × List F → List F × List F)
    (initialPositions initialVelocities created : List F) (n : Nat) (rest : List Bool) :
    (∃ before, glCalls (List.replicate n false ++ true :: rest) =
      before ++
        [Call.dispatch (roleAt Buffer.d_positions0 Buffer.d_positions1 n)
            (roleAt Buffer.d_positions1 Buffer.d_positions0 n),
          Call.draw (roleAt Buffer.d_positions1 Buffer.d_positions0 n), Call.finish,
          Call.present, Call.poll true,
          Call.readBack (roleAt Buffer.d_positions0 Buffer.d_positions1 n)]) ∧
    (Device.run kernel (deviceInit initialPositions initialVelocities created)
        (glCalls (List.replicate n false ++ true :: rest))).h_positions =
      some (kernel^[n] (initialPositions, initialVelocities)).1 ∧
    (Device.run kernel (deviceInit initialPositions initialVelocities created)
        (glCalls (List.replicate n false ++ true :: rest))).frames =
      (List.range (n + 1)).map
        (fun k => (kernel^[k + 1] (initialPositions, initialVelocities)).1) ∧
    (Device.run kernel (deviceInit initialPositions initialVelocities created)
        (glCalls (List.replicate n false ++ true :: rest))).get
        (roleAt Buffer.d_positions1 Buffer.d_positions0 n) =
      (kernel^[n + 1] (initialPositions, initialVelocities)).1 := by
  have hg := interactiveLoop_stopped passGL n rest glInit
  have hlast : passOf passGL Buffer.d_positions0 Buffer.d_positions1 n n =
      passGL (roleAt Buffer.d_positions0 Buffer.d_positions1 n)
        (roleAt Buffer.d_positions1 Buffer.d_positions0 n) ++ [Call.poll true] := by
    simp [passOf]
  have hcalls : glCalls (List.replicate n false ++ true :: rest) =
      ((List.range n).map (passOf passGL Buffer.d_positions0 Buffer.d_positions1 n)).flatten ++
        ((passGL (roleAt Buffer.d_positions0 Buffer.d_positions1 n)
            (roleAt Buffer.d_positions1 Buffer.d_positions0 n) ++ [Call.poll true]) ++
          [Call.readBack (roleAt Buffer.d_positions0 Buffer.d_positions1 n)]) := by
    rw [glCalls, hg]
    simp only [glInit, List.nil_append]
    rw [List.range_succ, List.map_append, List.flatten_append]
    simp only [List.map_cons, List.map_nil, List.flatten_cons, List.flatten_nil,
      List.append_nil, hlast, List.append_assoc]
  obtain ⟨i1, i2, i3, i4⟩ := run_passes kernel initialPositions initialVelocities created n n
    (le_refl n)
  obtain ⟨r1, r2, _, r4, _⟩ := run_passGL kernel
    (Device.run kernel (deviceInit initialPositions initialVelocities created)
      ((List.range n).map (passOf passGL Buffer.d_positions0 Buffer.d_positions1 n)).flatten)
    (roleAt Buffer.d_positions0 Buffer.d_positions1 n)
    (roleAt Buffer.d_positions1 Buffer.d_positions0 n) (roleAt_ne n) [Call.poll true]
    (Or.inr rfl)
  rw [i1, i2] at r1 r4
  rw [i1] at r2
  rw [i3] at r4
  have hb1 : ∀ (d : Device F) (b : Buffer),
      (Device.run kernel d [Call.readBack b]).h_positions = some (d.get b) := fun _ _ => rfl
  have hb2 : ∀ (d : Device F) (b : Buffer),
      (Device.run kernel d [Call.readBack b]).frames = d.frames := fun _ _ => rfl
  have hb3 : ∀ (d : Device F) (b c : Buffer),
      (Device.run kernel d [Call.readBack b]).get c = d.get c := by
    intro d b c
    cases c <;> rfl
  refine ⟨⟨((List.range n).map
    (passOf passGL Buffer.d_positions0 Buffer.d_positions1 n)).flatten, ?_⟩, ?_, ?_, ?_⟩
  · rw [hcalls]
    rfl
  · rw [hcalls, run_append, run_append, hb1, r2]
  · rw [hcalls, run_append, run_append, hb2, r4]
    simp [List.range_succ, Function.iterate_succ_apply']
  · rw [hcalls, run_append, run_append, hb3, r1, Function.iterate_succ_apply']

/-! ## Errors of the OpenCL calls -/

theorem runStages_throws (env : Stage → Outcome) (before after : List Stage) (s : Stage)
    (done : List Stage) (hb : ∀ x ∈ before, env x = Outcome.returns)
    (hs : env s = Outcome.throws) :
    runStages env (before ++ s :: after) done = { status := 0, calls := done ++ before } := by
  induction before generalizing done with
  | nil => simp [runStages, hs]
  | cons b bs ih =>
    rw [List.cons_append, runStages, hb b (List.mem_cons_self _ _)]
    simp only
    rw [ih (done ++ [b]) (fun x hx => hb x (List.mem_cons_of_mem _ hx))]
    simp

theorem reportStages_throws (env : Stage → Outcome) (verdict : List Report)
    (before after : List Stage) (s : Stage) (hb : ∀ x ∈ before, env x = Outcome.returns)
    (hs : env s = Outcome.throws) :
    reportStages env verdict (before ++ s :: after) = [Report.diagnostic s] := by
  induction before with
  | nil => simp [reportStages, hs]
  | cons b bs ih =>
    rw [List.cons_append, reportStages, hb b (List.mem_cons_self _ _)]
    exact ih (fun x hx => hb x (List.mem_cons_of_mem _ hx))

theorem runStages_returns (env : Stage → Outcome) (hr : ∀ x, env x = Outcome.returns)
    (stages done : List Stage) :
    runStages env stages done = { status := 0, calls := done ++ stages } := by
  induction stages generalizing done with
  | nil => simp [runStages]
  | cons b bs ih =>
    rw [runStages, hr b]
    simp only
    rw [ih]
    simp

theorem reportStages_returns (env : Stage → Outcome) (hr : ∀ x, env x = Outcome.returns)
    (verdict : List Report) (stages : List Stage) :
    reportStages env verdict stages = verdict := by
  induction stages with
  | nil => rfl
  | cons b bs ih =>
    rw [reportStages, hr b]
    exact ih

/-! ## A single body with any velocity -/

/-- Adding a zero keeps any datum the same up to the sign of a zero. -/
theorem F32.same_add_zero_any (a b : F32) (t : Bool) (h : F32.same a b) :
    F32.same (F32.add a (F32.zero t)) b := by
  cases a with
  | nan => exact h
  | inf s => exact h
  | fin s m e =>
    rw [F32.add_fin_zero]
    by_cases hm : m = 0
    · subst hm
      rw [if_pos rfl]
      rcases h with h | ⟨_, hb0⟩
      · right
        subst h
        exact ⟨rfl, rfl⟩
      · right
        exact ⟨rfl, hb0⟩
    · rw [if_neg hm]
      exact h

theorem F32.ne_nan_of_same (a b : F32) (h : F32.same a b) (hb : b ≠ F32.nan) :
    a ≠ F32.nan := by
  rcases h with h | ⟨ha, _⟩
  · rw [h]; exact hb
  · intro hn
    rw [hn] at ha
    simp [F32.isZero] at ha

/-- One single-step update of a single body with any velocity: the force is `+0`, so each
velocity component has a zero added. -/
theorem integrate_single_moving (delta softening : F32) (iterations : Nat)
    (x y z w vx vy vz vw : F32)
    (hx : F32.isFinite x = true) (hy : F32.isFinite y = true) (hz : F32.isFinite z = true)
    (hd : F32.isFinite delta = true) (hc : F32.isFinite (selfCoeff w softening) = true) :
    ∃ t, integrate ieee32 .cpp (singleBody delta softening iterations)
        ([x, y, z, w], [vx, vy, vz, vw]) =
      ([F32.add x (F32.mul (F32.add vx (F32.zero t)) delta),
        F32.add y (F32.mul (F32.add vy (F32.zero t)) delta),
        F32.add z (F32.mul (F32.add vz (F32.zero t)) delta), w],
       [F32.add vx (F32.zero t), F32.add vy (F32.zero t), F32.add vz (F32.zero t), vw]) := by
  cases delta with
  | nan => simp [F32.isFinite] at hd
  | inf s => simp [F32.isFinite] at hd
  | fin s m e =>
    refine ⟨xor false s, ?_⟩
    have hf := force_single (F32.fin s m e) softening iterations x y z w hx hy hz hc
    have hv : velocityAfter ieee32 .cpp (singleBody (F32.fin s m e) softening iterations)
        [x, y, z, w] [vx, vy, vz, vw] 0 =
        (F32.add vx (F32.zero (xor false s)), F32.add vy (F32.zero (xor false s)),
          F32.add vz (F32.zero (xor false s))) := by
      simp only [velocityAfter, hf, newVelocity]
      simp only [ieee32, singleBody, xyzAt, elem, F32.mul_zero_fin]
      rfl
    have hp : positionAfter ieee32 .cpp (singleBody (F32.fin s m e) softening iterations)
        [x, y, z, w] [vx, vy, vz, vw] 0 =
        (F32.add x (F32.mul (F32.add vx (F32.zero (xor false s))) (F32.fin s m e)),
          F32.add y (F32.mul (F32.add vy (F32.zero (xor false s))) (F32.fin s m e)),
          F32.add z (F32.mul (F32.add vz (F32.zero (xor false s))) (F32.fin s m e))) := by
      simp only [positionAfter, hv, newPosition]
      rfl
    have e : integrate ieee32 .cpp (singleBody (F32.fin s m e) softening iterations)
        ([x, y, z, w], [vx, vy, vz, vw]) =
      ([(positionAfter ieee32 .cpp (singleBody (F32.fin s m e) softening iterations)
          [x, y, z, w] [vx, vy, vz, vw] 0).1,
        (positionAfter ieee32 .cpp (singleBody (F32.fin s m e) softening iterations)
          [x, y, z, w] [vx, vy, vz, vw] 0).2.1,
        (positionAfter ieee32 .cpp (singleBody (F32.fin s m e) softening iterations)
          [x, y, z, w] [vx, vy, vz, vw] 0).2.2, w],
       [(velocityAfter ieee32 .cpp (singleBody (F32.fin s m e) softening iterations)
          [x, y, z, w] [vx, vy, vz, vw] 0).1,
        (velocityAfter ieee32 .cpp (singleBody (F32.fin s m e) softening iterations)
          [x, y, z, w] [vx, vy, vz, vw] 0).2.1,
        (velocityAfter ieee32 .cpp (singleBody (F32.fin s m e) softening iterations)
          [x, y, z, w] [vx, vy, vz, vw] 0).2.2, vw]) := rfl
    rw [e, hv, hp]

theorem finiteXYZ_single (x y z w : F32) (h : finiteXYZ [x, y, z, w] 0 = true) :
    F32.isFinite x = true ∧ F32.isFinite y = true ∧ F32.isFinite z = true := by
  have e : finiteXYZ [x, y, z, w] 0 =
      (F32.isFinite x && F32.isFinite y && F32.isFinite z) := rfl
  rw [e] at h
  simpa [Bool.and_eq_true, and_assoc] using h

/-- The state of a single body with any initial velocity after `k` single-step updates, all
taken from a finite position: the velocity is the same up to the sign of a zero. -/
theorem iterate_single_moving (delta softening : F32) (iterations : Nat)
    (x y z w vx vy vz vw : F32) (hd : F32.isFinite delta = true)
    (hc : F32.isFinite (selfCoeff w softening) = true) (k : Nat)
    (hfin : ∀ j, j < k →
      finiteXYZ ((integrate ieee32 .cpp (singleBody delta softening iterations))^[j]
        ([x, y, z, w], [vx, vy, vz, vw])).1 0 = true) :
    ∃ x' y' z' vx' vy' vz',
      (integrate ieee32 .cpp (singleBody delta softening iterations))^[k]
          ([x, y, z, w], [vx, vy, vz, vw]) = ([x', y', z', w], [vx', vy', vz', vw]) ∧
      F32.same vx' vx ∧ F32.same vy' vy ∧ F32.same vz' vz := by
  induction k with
  | zero => exact ⟨x, y, z, vx, vy, vz, rfl, Or.inl rfl, Or.inl rfl, Or.inl rfl⟩
  | succ k ih =>
    obtain ⟨x', y', z', vx', vy', vz', e, sx, sy, sz⟩ :=
      ih (fun j hj => hfin j (by omega))
    have hk := hfin k (by omega)
    rw [e] at hk
    obtain ⟨fx, fy, fz⟩ := finiteXYZ_single x' y' z' w hk
    obtain ⟨t, ht⟩ := integrate_single_moving delta softening iterations x' y' z' w
      vx' vy' vz' vw fx fy fz hd hc
    refine ⟨F32.add x' (F32.mul (F32.add vx' (F32.zero t)) delta),
      F32.add y' (F32.mul (F32.add vy' (F32.zero t)) delta),
      F32.add z' (F32.mul (F32.add vz' (F32.zero t)) delta),
      F32.add vx' (F32.zero t), F32.add vy' (F32.zero t), F32.add vz' (F32.zero t), ?_,
      F32.same_add_zero_any vx' vx t sx, F32.same_add_zero_any vy' vy t sy,
      F32.same_add_zero_any vz' vz t sz⟩
    rw [Function.iterate_succ_apply', e, ht]

/-- C9, as amended. For a single body with a finite `delta` and a softening for which the
coefficient of the self term is finite.  With finite initial coordinates and zero initial
velocity: after any number of steps the velocity is still `+0`, the position compares equal
to the initial one (it is the same up to the sign of a zero coordinate, `w` included
unchanged), the force computed in the next step is `(+0, +0, +0)`, and `runReference`
returns such a position.  With any initial velocity: in every step that is taken from a
finite position the force is `(+0, +0, +0)`, and after these steps `w` is unchanged and the
velocity is the same as the initial one up to the sign of a zero component, so it compares
equal to it unless that is NaN. -/
theorem single_body_feels_no_force (delta softening x y z w vw : F32) (iterations : Nat)
    (hx : F32.isFinite x = true) (hy : F32.isFinite y = true) (hz : F32.isFinite z = true)
    (hd : F32.isFinite delta = true) (hc : F32.isFinite (selfCoeff w softening) = true) :
    (∀ k, ∃ x' y' z',
      (integrate ieee32 .cpp (singleBody delta softening iterations))^[k]
          ([x, y, z, w], [F32.zero false, F32.zero false, F32.zero false, vw]) =
        ([x', y', z', w], [F32.zero false, F32.zero false, F32.zero false, vw]) ∧
      (F32.same x' x ∧ F32.same y' y ∧ F32.same z' z) ∧
      (F32.eq x' x = true ∧ F32.eq y' y = true ∧ F32.eq z' z = true) ∧
      force ieee32 .cpp (singleBody delta softening iterations) [x', y', z', w] 0 =
        (F32.zero false, F32.zero false, F32.zero false)) ∧
    (∃ x' y' z',
      runReference ieee32 (singleBody delta softening iterations) [x, y, z, w]
          [F32.zero false, F32.zero false, F32.zero false, vw] = some [x', y', z', w] ∧
      (F32.same x' x ∧ F32.same y' y ∧ F32.same z' z) ∧
      (F32.eq x' x = true ∧ F32.eq y' y = true ∧ F32.eq z' z = true)) ∧
    (∀ (vx vy vz : F32) (k : Nat),
      (∀ j, j < k →
        finiteXYZ ((integrate ieee32 .cpp (singleBody delta softening iterations))^[j]
          ([x, y, z, w], [vx, vy, vz, vw])).1 0 = true) →
      (∀ j, j < k →
        force ieee32 .cpp (singleBody delta softening iterations)
            ((integrate ieee32 .cpp (singleBody delta softening iterations))^[j]
              ([x, y, z, w], [vx, vy, vz, vw])).1 0 =
          (F32.zero false, F32.zero false, F32.zero false)) ∧
      ∃ x' y' z' vx' vy' vz',
        (integrate ieee32 .cpp (singleBody delta softening iterations))^[k]
            ([x, y, z, w], [vx, vy, vz, vw]) = ([x', y', z', w], [vx', vy', vz', vw]) ∧
        (F32.same vx' vx ∧ F32.same vy' vy ∧ F32.same vz' vz) ∧
        (vx ≠ F32.nan → F32.eq vx' vx = true) ∧ (vy ≠ F32.nan → F32.eq vy' vy = true) ∧
        (vz ≠ F32.nan → F32.eq vz' vz = true)) := by
  refine ⟨?_, ?_, ?_⟩
  · intro k
    obtain ⟨x', y', z', e, sx, sy, sz⟩ :=
      iterate_single delta softening iterations x y z w vw hx hy hz hd hc k
    have fx := F32.eq_of_same x' x hx sx
    have fy := F32.eq_of_same y' y hy sy
    have fz := F32.eq_of_same z' z hz sz
    exact ⟨x', y', z', e, ⟨sx, sy, sz⟩, ⟨fx.2, fy.2, fz.2⟩,
      force_single delta softening iterations x' y' z' w fx.1 fy.1 fz.1 hc⟩
  · obtain ⟨x', y', z', e, sx, sy, sz⟩ :=
      iterate_single delta softening iterations x y z w vw hx hy hz hd hc iterations
    refine ⟨x', y', z', ?_, ⟨sx, sy, sz⟩, (F32.eq_of_same x' x hx sx).2,
      (F32.eq_of_same y' y hy sy).2, (F32.eq_of_same z' z hz sz).2⟩
    have h := runReference_eq ieee32 (singleBody delta softening iterations) [x, y, z, w]
      [F32.zero false, F32.zero false, F32.zero false, vw]
      (show (1 : Nat) ≤ maxBodies .cpp by decide) rfl rfl
    have hit : (singleBody delta softening iterations).iterations = iterations := rfl
    rw [h, hit, e]
  · intro vx vy vz k hfin
    constructor
    · intro j hj
      obtain ⟨x', y', z', vx', vy', vz', e, _, _, _⟩ :=
        iterate_single_moving delta softening iterations x y z w vx vy vz vw hd hc j
          (fun i hi => hfin i (by omega))
      have hk := hfin j hj
      rw [e] at hk ⊢
      obtain ⟨fx, fy, fz⟩ := finiteXYZ_single x' y' z' w hk
      exact force_single delta softening iterations x' y' z' w fx fy fz hc
    · obtain ⟨x', y', z', vx', vy', vz', e, sx, sy, sz⟩ :=
        iterate_single_moving delta softening iterations x y z w vx vy vz vw hd hc k hfin
      exact ⟨x', y', z', vx', vy', vz', e, ⟨sx, sy, sz⟩,
        fun hn => F32.eq_of_same_of_ne_nan _ _ sx (F32.ne_nan_of_same _ _ sx hn),
        fun hn => F32.eq_of_same_of_ne_nan _ _ sy (F32.ne_nan_of_same _ _ sy hn),
        fun hn => F32.eq_of_same_of_ne_nan _ _ sz (F32.ne_nan_of_same _ _ sz hn)⟩

set_option maxRecDepth 100000 in
/-- C9, amended, an instance: a body at `(-0, 1, +0)` with the default step and softening,
moving with velocity `(1, -0, 3)`, over three steps. -/
theorem single_body_feels_no_force_witness :
    (F32.isFinite (F32.zero true) = true ∧ F32.isFinite F32.one = true ∧
      F32.isFinite (F32.zero false) = true ∧ F32.isFinite (F32.fin false 13743895 (-36)) = true ∧
      F32.isFinite (selfCoeff F32.one (F32.fin false 13421773 (-28))) = true) ∧
    (∀ j, j < 3 →
      finiteXYZ ((integrate ieee32 .cpp
          (singleBody (F32.fin false 13743895 (-36)) (F32.fin false 13421773 (-28)) 32))^[j]
        ([F32.zero true, F32.one, F32.zero false, F32.one],
         [F32.one, F32.zero true, F32.three, F32.zero false])).1 0 = true) ∧
    ((∀ j, j < 3 →
      force ieee32 .cpp
          (singleBody (F32.fin false 13743895 (-36)) (F32.fin false 13421773 (-28)) 32)
          ((integrate ieee32 .cpp
            (singleBody (F32.fin false 13743895 (-36)) (F32.fin false 13421773 (-28)) 32))^[j]
            ([F32.zero true, F32.one, F32.zero false, F32.one],
             [F32.one, F32.zero true, F32.three, F32.zero false])).1 0 =
        (F32.zero false, F32.zero false, F32.zero false)) ∧
    ∃ x' y' z' vx' vy' vz',
      (integrate ieee32 .cpp
          (singleBody (F32.fin false 13743895 (-36)) (F32.fin false 13421773 (-28)) 32))^[3]
          ([F32.zero true, F32.one, F32.zero false, F32.one],
           [F32.one, F32.zero true, F32.three, F32.zero false]) =
        ([x', y', z', F32.one], [vx', vy', vz', F32.zero false]) ∧
      (F32.same vx' F32.one ∧ F32.same vy' (F32.zero true) ∧ F32.same vz' F32.three) ∧
      (F32.one ≠ F32.nan → F32.eq vx' F32.one = true) ∧
      (F32.zero true ≠ F32.nan → F32.eq vy' (F32.zero true) = true) ∧
      (F32.three ≠ F32.nan → F32.eq vz' F32.three = true)) :=
  ⟨by decide, by decide,
    (single_body_feels_no_force (F32.fin false 13743895 (-36))
      (F32.fin false 13421773 (-28)) (F32.zero true) F32.one (F32.zero false) F32.one
      (F32.zero false) 32 (by decide) (by decide) (by decide) (by decide) (by decide)).2.2
      F32.one (F32.zero true) F32.three 3 (by decide)⟩

/-! ## The exit status of `main` -/

theorem hostVector_length {F : Type} (A : Arith F) (n : Nat) (hn : n ≤ 2 ^ 30 - 1) :
    (hostVector A n).length = 4 * n := by
  have hn1 : n ≤ 1073741823 := hn
  have h : (4 * n) % 2 ^ 32 = 4 * n :=
    Nat.mod_eq_of_lt (show 4 * n < 4294967296 by omega)
  simp only [hostVector, List.length_replicate]
  exact h

/-- The run of the calls ends with status 1 exactly when the first call that does not return
ends the process with status 1. -/
theorem runStages_status_one_iff (env : Stage → Outcome) (stages done : List Stage) :
    (runStages env stages done).status = 1 ↔
      ∃ before s after, stages = before ++ s :: after ∧
        (∀ x ∈ before, env x = Outcome.returns) ∧ env s = Outcome.exits 1 := by
  induction stages generalizing done with
  | nil => simp [runStages]
  | cons a rest ih =>
    rw [runStages]
    cases ha : env a with
    | returns =>
      simp only
      rw [ih]
      constructor
      · rintro ⟨before, s, after, h1, h2, h3⟩
        refine ⟨a :: before, s, after, by rw [h1]; rfl, ?_, h3⟩
        intro x hx
        rcases List.mem_cons.1 hx with h | h
        · rw [h, ha]
        · exact h2 x h
      · rintro ⟨before, s, after, h1, h2, h3⟩
        cases before with
        | nil =>
          simp only [List.nil_append, List.cons.injEq] at h1
          rw [← h1.1, ha] at h3
          cases h3
        | cons b bs =>
          simp only [List.cons_append, List.cons.injEq] at h1
          exact ⟨bs, s, after, h1.2, fun x hx => h2 x (List.mem_cons_of_mem _ hx), h3⟩
    | throws =>
      simp only
      constructor
      · intro h
        cases h
      · rintro ⟨before, s, after, h1, h2, h3⟩
        cases before with
        | nil =>
          simp only [List.nil_append, List.cons.injEq] at h1
          rw [← h1.1, ha] at h3
          cases h3
        | cons b bs =>
          simp only [List.cons_append, List.cons.injEq] at h1
          have h4 := h2 b (List.mem_cons_self _ _)
          rw [← h1.1, ha] at h4
          cases h4
    | exits st =>
      simp only
      constructor
      · intro h
        refine ⟨[], a, rest, rfl, by simp, ?_⟩
        rw [ha, h]
      · rintro ⟨before, s, after, h1, h2, h3⟩
        cases before with
        | nil =>
          simp only [List.nil_append, List.cons.injEq] at h1
          rw [← h1.1, ha] at h3
          injection h3
        | cons b bs =>
          simp only [List.cons_append, List.cons.injEq] at h1
          have h4 := h2 b (List.mem_cons_self _ _)
          rw [← h1.1, ha] at h4
          cases h4

/-- With arguments that parse and a body count below `2^30` the initialisation of `main`
completes, and `main` is the device check followed by the OpenCL calls. -/
theorem main_eq {F : Type} (A : Arith F) (H : HostMath F) (sphereRadius : F)
    (draws : Nat → Nat) (parseUInt : String → Option Nat) (strtod : String → F × String)
    (numDevices : Nat) (env : Stage → Outcome) (args : List String) (defaults cfg : Config F)
    (hparse : parseArguments parseUInt strtod args defaults = Parsed.returned cfg)
    (hn : cfg.numBodies ≤ maxBodies .cpp) :
    main A H sphereRadius draws parseUInt strtod numDevices env args defaults =
      some (if cfg.deviceIndex ≥ numDevices then { status := 1, calls := [] }
        else runStages env (nbodyStages cfg.iterations) []) := by
  have hi := initHost_eq A H .cpp false sphereRadius draws cfg.numBodies
    (hostVector A cfg.numBodies) hn (hostVector_length A _ hn)
  simp only [main, hparse, hi]
  split <;> rfl

theorem mainReports_eq {F : Type} (A : Arith F) (H : HostMath F) (sphereRadius : F)
    (draws : Nat → Nat) (parseUInt : String → Option Nat) (strtod : String → F × String)
    (numDevices : Nat) (env : Stage → Outcome) (args : List String) (defaults cfg : Config F)
    (hparse : parseArguments parseUInt strtod args defaults = Parsed.returned cfg)
    (hn : cfg.numBodies ≤ maxBodies .cpp) :
    mainReports A H sphereRadius draws parseUInt strtod numDevices env args defaults =
      some (if cfg.deviceIndex ≥ numDevices then [Report.invalidDevice]
        else reportStages env [Report.verdict] (nbodyStages cfg.iterations)) := by
  have hi := initHost_eq A H .cpp false sphereRadius draws cfg.numBodies
    (hostVector A cfg.numBodies) hn (hostVector_length A _ hn)
  simp only [mainReports, hparse, hi]
  split <;> rfl

theorem mainGL_eq {F : Type} (A : Arith F) (H : HostMath F) (sphereRadius : F)
    (draws : Nat → Nat) (init2D : Bool) (numBodies numDevices : Nat) (env : Stage → Outcome)
    (deviceIndex passes : Nat) (hn : numBodies ≤ maxBodies .cppGL) :
    mainGL A H sphereRadius draws true true true init2D numBodies numDevices env deviceIndex
        passes =
      some (if deviceIndex ≥ numDevices then { status := 1, calls := [] }
        else runStages env (glStages passes) []) := by
  have hi := initHost_eq A H .cppGL init2D sphereRadius draws numBodies
    (hostVector A numBodies) hn (hostVector_length A _ hn)
  have hg : initGraphics true true true = none := rfl
  simp only [mainGL, hg, hi]
  split <;> rfl

theorem mainGLReports_eq {F : Type} (A : Arith F) (H : HostMath F) (sphereRadius : F)
    (draws : Nat → Nat) (init2D : Bool) (numBodies numDevices : Nat) (env : Stage → Outcome)
    (deviceIndex passes : Nat) (hn : numBodies ≤ maxBodies .cppGL) :
    mainGLReports A H sphereRadius draws true true true init2D numBodies numDevices env
        deviceIndex passes =
      some (if deviceIndex ≥ numDevices then [Report.invalidDevice]
        else reportStages env [] (glStages passes)) := by
  have hi := initHost_eq A H .cppGL init2D sphereRadius draws numBodies
    (hostVector A numBodies) hn (hostVector_length A _ hn)
  have hg : initGraphics true true true = none := rfl
  simp only [mainGLReports, hg, hi]
  split <;> rfl

/-- The initialisation of a vector without elements fails at the first body. -/
theorem initHost_nil {F : Type} (A : Arith F) (H : HostMath F) (init2D : Bool)
    (sphereRadius : F) (draws : Nat → Nat) (m : Nat) :
    initHost A H .cpp init2D sphereRadius draws (m + 1) [] = none := by
  have hb : initBody A H .cpp init2D sphereRadius draws ([], 0) 0 = none := by
    cases init2D <;> rfl
  simp only [initHost, List.range_succ_eq_map, List.foldlM_cons, hb]
  rfl

/-- When the initialisation of `main` has a store outside the vector, `main` has no defined
result. -/
theorem main_none {F : Type} (A : Arith F) (H : HostMath F) (sphereRadius : F)
    (draws : Nat → Nat) (parseUInt : String → Option Nat) (strtod : String → F × String)
    (numDevices : Nat) (env : Stage → Outcome) (args : List String) (defaults cfg : Config F)
    (hparse : parseArguments parseUInt strtod args defaults = Parsed.returned cfg)
    (hinit : initHost A H .cpp false sphereRadius draws cfg.numBodies
      (hostVector A cfg.numBodies) = none) :
    main A H sphereRadius draws parseUInt strtod numDevices env args defaults = none := by
  simp only [main, hparse, hinit]

/-- With `2^30` bodies the vectors of `main` have no element (the product `4*numBodies`
wraps to 0), and the first store of the initialisation falls outside. -/
theorem main_undefined_when_the_count_wraps :
    main ieee32 demoMath (F32.fin false 13421773 (-24)) demoDraws uintDemo strtodDemo 2
      (fun _ => Outcome.returns) ["-n", "1073741824", "--device", "3"] defaultConfig = none := by
  have hp : parseArguments uintDemo strtodDemo ["-n", "1073741824", "--device", "3"]
      defaultConfig =
      Parsed.returned { defaultConfig with numBodies := 1073741824, deviceIndex := 3 } := by
    decide
  have h0 : hostVector ieee32 1073741824 = [] := by decide
  have hi : initHost ieee32 demoMath .cpp false (F32.fin false 13421773 (-24)) demoDraws
      1073741824 (hostVector ieee32 1073741824) = none := by
    rw [h0]
    exact initHost_nil ieee32 demoMath false (F32.fin false 13421773 (-24)) demoDraws
      1073741823
  exact main_none ieee32 demoMath _ demoDraws uintDemo strtodDemo 2 _ _ defaultConfig
    { defaultConfig with numBodies := 1073741824, deviceIndex := 3 } hp hi

set_option maxRecDepth 100000 in
/-- C16 fails as stated.  With the default arguments, one device and the device index 0 in
range, `main` of `exercises/NBody/nbody.cpp` exits with status 1 when the kernel source file
cannot be opened: `loadProgram` ends the process with `exit(EXIT_FAILURE)` after the device
name, the context and the queue were obtained.  The same happens in `main` of the Pi
program. -/
theorem status_one_with_device_index_in_range :
    parseArguments uintDemo strtodDemo [] defaultConfig = Parsed.returned defaultConfig ∧
    defaultConfig.deviceIndex < 1 ∧
    loadProgram false true = Outcome.exits 1 ∧
    main ieee32 demoMath (F32.fin false 13421773 (-24)) demoDraws uintDemo strtodDemo 1
        kernelMissing [] defaultConfig =
      some { status := 1,
             calls := [Stage.getDeviceName, Stage.createContext, Stage.createQueue] } ∧
    mainPi 1 kernelMissing 0 =
      { status := 1,
        calls := [Stage.getDeviceName, Stage.createContext, Stage.createQueue] } := by
  refine ⟨by decide, by decide, by decide, ?_, by decide⟩
  rw [main_eq ieee32 demoMath _ demoDraws uintDemo strtodDemo 1 kernelMissing []
    defaultConfig defaultConfig (by decide) (by decide)]
  decide

/-- C16, as amended.  Given that the arguments parse without error (`parseArguments` returns
with the variables `cfg`) and that `numBodies` is below `2^30`, `main` of
`exercises/NBody/nbody.cpp` completes its host initialisation and exits.  When `deviceIndex`
is not below the number of devices the status is 1 and none of the later calls is made, so
no device buffer is created and no step is run.  The status is 1 exactly in that case or
when, with the index in range, the first of the later calls that does not return ends the
process with status 1 itself; so when no call does that, the status is 1 exactly when
`deviceIndex` is not below the number of devices.  The same holds for `main` of the Pi
program. -/
theorem main_exits_one_when_device_index_out_of_range {F : Type} (A : Arith F)
    (H : HostMath F) (sphereRadius : F) (draws : Nat → Nat)
    (parseUInt : String → Option Nat) (strtod : String → F × String) (numDevices : Nat)
    (env : Stage → Outcome) (args : List String) (defaults cfg : Config F)
    (hparse : parseArguments parseUInt strtod args defaults = Parsed.returned cfg)
    (hn : cfg.numBodies ≤ maxBodies .cpp) :
    (∃ r, main A H sphereRadius draws parseUInt strtod numDevices env args defaults = some r ∧
      (cfg.deviceIndex ≥ numDevices → r.status = 1 ∧ r.calls = []) ∧
      (r.status = 1 ↔ cfg.deviceIndex ≥ numDevices ∨
        (cfg.deviceIndex < numDevices ∧
          ∃ before s after, nbodyStages cfg.iterations = before ++ s :: after ∧
            (∀ x ∈ before, env x = Outcome.returns) ∧ env s = Outcome.exits 1)) ∧
      ((∀ s, env s ≠ Outcome.exits 1) → (r.status = 1 ↔ cfg.deviceIndex ≥ numDevices))) ∧
    (cfg.deviceIndex ≥ numDevices →
      (mainPi numDevices env cfg.deviceIndex).status = 1 ∧
        (mainPi numDevices env cfg.deviceIndex).calls = []) ∧
    ((mainPi numDevices env cfg.deviceIndex).status = 1 ↔ cfg.deviceIndex ≥ numDevices ∨
      (cfg.deviceIndex < numDevices ∧
        ∃ before s after, piStages = before ++ s :: after ∧
          (∀ x ∈ before, env x = Outcome.returns) ∧ env s = Outcome.exits 1)) ∧
    ((∀ s, env s ≠ Outcome.exits 1) →
      ((mainPi numDevices env cfg.deviceIndex).status = 1 ↔ cfg.deviceIndex ≥ numDevices)) := by
  have hm := main_eq A H sphereRadius draws parseUInt strtod numDevices env args defaults cfg
    hparse hn
  by_cases h : cfg.deviceIndex ≥ numDevices
  · refine ⟨⟨_, hm, ?_, ?_, ?_⟩, ?_, ?_, ?_⟩ <;> simp [mainPi, h]
  · have hlt : cfg.deviceIndex < numDevices := by omega
    refine ⟨⟨_, hm, ?_, ?_, ?_⟩, ?_, ?_, ?_⟩
    · intro h2
      exact absurd h2 h
    · simp only [h, if_false, false_or, hlt, true_and]
      exact runStages_status_one_iff env _ _
    · intro henv
      simp only [h, if_false, iff_false]
      exact runStages_status_ne_one env henv _ _
    · intro h2
      exact absurd h2 h
    · simp only [mainPi, h, if_false, false_or, hlt, true_and]
      exact runStages_status_one_iff env _ _
    · intro henv
      simp only [mainPi, h, if_false, iff_false]
      exact runStages_status_ne_one env henv _ _

/-- C16, amended, an instance: device 3 of 2 devices is refused with status 1 and no call is
made. -/
theorem main_exits_one_when_device_index_out_of_range_witness :
    parseArguments uintDemo strtodDemo ["--device", "3", "-i", "2"] defaultConfig =
        Parsed.returned { defaultConfig with deviceIndex := 3, iterations := 2 } ∧
      defaultConfig.numBodies ≤ maxBodies .cpp ∧
      ∃ r, main ieee32 demoMath (F32.fin false 13421773 (-24)) demoDraws uintDemo strtodDemo 2
          (fun _ => Outcome.returns) ["--device", "3", "-i", "2"] defaultConfig = some r ∧
        r.status = 1 ∧ r.calls = [] :=
  have h := main_exits_one_when_device_index_out_of_range ieee32 demoMath
    (F32.fin false 13421773 (-24)) demoDraws uintDemo strtodDemo 2
    (fun _ => Outcome.returns) ["--device", "3", "-i", "2"] defaultConfig
    { defaultConfig with deviceIndex := 3, iterations := 2 } (by decide) (by decide)
  ⟨by decide, by decide, h.1.imp fun _ hr => ⟨hr.1, hr.2.1 (by decide)⟩⟩

/-! ## Errors of the OpenCL calls, reported by `main` -/

/-- C29. In `exercises/NBody/nbody.cpp`, when the arguments parse, the host initialisation
completes (`numBodies` below `2^30`), the device index is in range, and one of the OpenCL
calls after the device check (context, queue, program, build, kernel, buffer creation, copy,
kernel launch of any iteration, read-back) throws `cl::Error` after the calls before it
returned: `main` exits with status 0, writes the handler's message for that error and
nothing else, so no verification result.  A run in which every call returns exits with
status 0 as well and writes the verification result.  The same holds for
`solutions/NBody-GL/nbody.cpp` once `initGraphics` has returned, in either initialisation
mode; that program never writes a verification result. -/
theorem cl_error_is_reported_and_exits_zero {F : Type} (A : Arith F) (H : HostMath F)
    (sphereRadius : F) (draws : Nat → Nat) (parseUInt : String → Option Nat)
    (strtod : String → F × String) (numDevices : Nat) (env : Stage → Outcome)
    (args : List String) (defaults cfg : Config F) (before after : List Stage) (s : Stage)
    (hparse : parseArguments parseUInt strtod args defaults = Parsed.returned cfg)
    (hn : cfg.numBodies ≤ maxBodies .cpp)
    (hdev : cfg.deviceIndex < numDevices)
    (hstages : nbodyStages cfg.iterations = before ++ s :: after)
    (hbefore : ∀ x ∈ before, env x = Outcome.returns) (hs : env s = Outcome.throws) :
    (main A H sphereRadius draws parseUInt strtod numDevices env args defaults =
        some { status := 0, calls := before } ∧
      mainReports A H sphereRadius draws parseUInt strtod numDevices env args defaults =
        some [Report.diagnostic s] ∧
      ∀ l, mainReports A H sphereRadius draws parseUInt strtod numDevices env args defaults =
        some l → Report.verdict ∉ l) ∧
    ((∃ r, main A H sphereRadius draws parseUInt strtod numDevices (fun _ => Outcome.returns)
          args defaults = some r ∧ r.status = 0) ∧
      mainReports A H sphereRadius draws parseUInt strtod numDevices
        (fun _ => Outcome.returns) args defaults = some [Report.verdict]) ∧
    (∀ init2D passes before' after' s', glStages passes = before' ++ s' :: after' →
      (∀ x ∈ before', env x = Outcome.returns) → env s' = Outcome.throws →
      mainGL A H sphereRadius draws true true true init2D cfg.numBodies numDevices env
          cfg.deviceIndex passes = some { status := 0, calls := before' } ∧
        mainGLReports A H sphereRadius draws true true true init2D cfg.numBodies numDevices
          env cfg.deviceIndex passes = some [Report.diagnostic s']) ∧
    (∀ init2D passes,
      (∃ r, mainGL A H sphereRadius draws true true true init2D cfg.numBodies numDevices
          (fun _ => Outcome.returns) cfg.deviceIndex passes = some r ∧ r.status = 0) ∧
      mainGLReports A H sphereRadius draws true true true init2D cfg.numBodies numDevices
        (fun _ => Outcome.returns) cfg.deviceIndex passes = some []) := by
  have hnd : ¬ cfg.deviceIndex ≥ numDevices := by omega
  have hm := fun e => main_eq A H sphereRadius draws parseUInt strtod numDevices e args
    defaults cfg hparse hn
  have hr := fun e => mainReports_eq A H sphereRadius draws parseUInt strtod numDevices e
    args defaults cfg hparse hn
  have hg := fun i e p => mainGL_eq A H sphereRadius draws i cfg.numBodies numDevices e
    cfg.deviceIndex p hn
  have hgr := fun i e p => mainGLReports_eq A H sphereRadius draws i cfg.numBodies numDevices
    e cfg.deviceIndex p hn
  have hrep : mainReports A H sphereRadius draws parseUInt strtod numDevices env args
      defaults = some [Report.diagnostic s] := by
    rw [hr env]
    simp only [hnd, if_false, hstages]
    rw [reportStages_throws env _ before after s hbefore hs]
  refine ⟨⟨?_, hrep, ?_⟩, ⟨?_, ?_⟩, ?_, ?_⟩
  · rw [hm env]
    simp only [hnd, if_false, hstages, runStages_throws env before after s [] hbefore hs,
      List.nil_append]
  · intro l hl
    rw [hrep] at hl
    injection hl with hl
    rw [← hl]
    simp
  · refine ⟨_, hm _, ?_⟩
    simp only [hnd, if_false, runStages_returns (fun _ => Outcome.returns) (fun _ => rfl)]
  · rw [hr]
    simp only [hnd, if_false, reportStages_returns (fun _ => Outcome.returns) (fun _ => rfl)]
  · intro init2D passes before' after' s' hst hb' hs'
    rw [hg, hgr]
    simp only [hnd, if_false, hst, runStages_throws env before' after' s' [] hb' hs',
      reportStages_throws env [] before' after' s' hb' hs', List.nil_append, and_self]
  · intro init2D passes
    refine ⟨⟨_, hg _ _ _, ?_⟩, ?_⟩
    · simp only [hnd, if_false, runStages_returns (fun _ => Outcome.returns) (fun _ => rfl)]
    · rw [hgr]
      simp only [hnd, if_false,
        reportStages_returns (fun _ => Outcome.returns) (fun _ => rfl)]

/-- C29, an instance: the program build throws in a run with two iterations. -/
theorem cl_error_is_reported_and_exits_zero_witness :
    parseArguments uintDemo strtodDemo ["-i", "2"] defaultConfig =
        Parsed.returned { defaultConfig with iterations := 2 } ∧
      main ieee32 demoMath (F32.fin false 13421773 (-24)) demoDraws uintDemo strtodDemo 1
          buildFails ["-i", "2"] defaultConfig =
        some { status := 0,
               calls := [Stage.getDeviceName, Stage.createContext, Stage.createQueue,
                 Stage.loadProgram] } ∧
      mainReports ieee32 demoMath (F32.fin false 13421773 (-24)) demoDraws uintDemo strtodDemo
          1 buildFails ["-i", "2"] defaultConfig =
        some [Report.diagnostic Stage.buildProgram] :=
  have h := cl_error_is_reported_and_exits_zero ieee32 demoMath
    (F32.fin false 13421773 (-24)) demoDraws uintDemo strtodDemo 1 buildFails ["-i", "2"]
    defaultConfig { defaultConfig with iterations := 2 }
    [Stage.getDeviceName, Stage.createContext, Stage.createQueue, Stage.loadProgram]
    [Stage.makeKernel, Stage.createBuffer 0, Stage.createBuffer 1, Stage.createBuffer 2,
      Stage.copyToDevice 0, Stage.copyToDevice 1, Stage.runStep 0, Stage.runStep 1,
      Stage.readBack]
    Stage.buildProgram (by decide) (by decide) (by decide) (by decide) (by decide) (by decide)
  ⟨by decide, h.1.1, h.1.2.1⟩

end NBody
